import Mathlib

/-! MPC problem formulation (src/MPC.cpp)

A shallow embedding of the decision-vector layout, the cost and constraint
evaluator `FG_eval` and the orchestration in `MPC::Solve`.

Conventions of the embedding.

* `double` and `AD<double>` values are elements of an arbitrary field `α`
  (rounding is not modelled); the definitions are computable and run at `ℚ`.
  The section on binary64 arithmetic repeats the evaluator with operations that
  round; it is used where rounding decides a property (strict monotonicity of
  the cost).
* `CppAD::cos`, `CppAD::sin`, `CppAD::atan` are supplied by a `Trig α` record.
* `size_t` and `unsigned int` values are natural numbers; every index that
  occurs is far below `2^32`, so no wrap-around is involved.
* Vectors (`Dvector`, `ADvector`, `Eigen::VectorXd`) are lists.  A read or a
  write outside the bounds of a vector is undefined in C++; here it makes the
  enclosing computation stop with `Fault.outOfBounds`.
-/

set_option linter.unusedVariables false

namespace MPCModel

/-! ## Global layout constants (MPC.cpp, lines 9-17) -/

/-- Horizon length (steps). -/
def N : Nat := 25
def x_start : Nat := 0
def y_start : Nat := x_start + N
def psi_start : Nat := y_start + N
def v_start : Nat := psi_start + N
def cte_start : Nat := v_start + N
def epsi_start : Nat := cte_start + N
def delta_start : Nat := epsi_start + N
def a_start : Nat := delta_start + N - 1

/-! ## Vectors and loops -/

/-- The transcendental functions of the AD scalar type. -/
structure Trig (α : Type) where
  cos : α → α
  sin : α → α
  atan : α → α

/-- Faults that are undefined behaviour in the C++ program. -/
inductive Fault where
  | outOfBounds
  deriving DecidableEq, Repr

/-- Computations that may fault. -/
abbrev Exec := Except Fault

/-- Read of `vec[i]`; a fault when `i` is out of bounds. -/
def load {α : Type} (vec : List α) (i : Nat) : Exec α :=
  match vec[i]? with
  | some v => pure v
  | none => throw Fault.outOfBounds

/-- Assignment `vec[i] = v`; a fault when `i` is out of bounds. -/
def store {α : Type} (vec : List α) (i : Nat) (v : α) : Exec (List α) :=
  if i < vec.length then pure (vec.set i v) else throw Fault.outOfBounds

/-- Iterations `t, t+1, ..., t+k-1` of a loop body over a state. -/
def forLoop {σ : Type} (body : Nat → σ → Exec σ) : Nat → Nat → σ → Exec σ
  | _, 0, s => pure s
  | t, k + 1, s => body t s >>= forLoop body (t + 1) k

/-- The loop `for (t = lo; t < hi; t++) body`. -/
def forRange {σ : Type} (lo hi : Nat) (body : Nat → σ → Exec σ) (s : σ) : Exec σ :=
  forLoop body lo (hi - lo) s

/-- A vector constructed as `Dvector v(n)`: `n` cells whose contents `cell i`
are whatever the allocator leaves there. -/
def Dvector {α : Type} (cell : Nat → α) (n : Nat) : List α :=
  (List.range n).map cell

/-- Value of `vec[i]` for an index within bounds, used to state results. -/
def entry {α : Type} [Zero α] (vec : List α) (i : Nat) : α := vec.getD i 0

/-! ## FG_eval (MPC.cpp, lines 19-122) -/

/-- Data members of class `FG_eval`. -/
structure FG_eval (α : Type) where
  coeffs : List α
  ref_v : α
  dt : α
  Lf : α

section Formulator

variable {α : Type} [Field α]

/-- Constructor `FG_eval::FG_eval(coeffs)` (lines 27-33). -/
def FG_eval.construct (coeffs : List α) : FG_eval α :=
  { coeffs := coeffs, ref_v := 40.0, dt := 0.05, Lf := 2.67 }

/-- The statement `fg[0] += e`. -/
def addCost (fg : List α) (e : α) : Exec (List α) := do
  let c ← load fg 0
  store fg 0 (c + e)

/-- Body of the reference-state cost loop (lines 47-52). -/
def FG_eval.costRef (self : FG_eval α) (vars : List α) (t : Nat) (fg : List α) :
    Exec (List α) := do
  let fg ← addCost fg ((← load vars (cte_start + t)) ^ 2)
  let fg ← addCost fg ((← load vars (epsi_start + t)) ^ 2)
  let fg ← addCost fg (((← load vars (v_start + t)) - self.ref_v) ^ 2)
  pure fg

/-- Body of the actuator-magnitude cost loop (lines 55-59). -/
def FG_eval.costAct (vars : List α) (t : Nat) (fg : List α) : Exec (List α) := do
  let fg ← addCost fg ((← load vars (delta_start + t)) ^ 2)
  let fg ← addCost fg ((← load vars (a_start + t)) ^ 2)
  pure fg

/-- Body of the actuation-gap cost loop (lines 62-66). -/
def FG_eval.costGap (vars : List α) (t : Nat) (fg : List α) : Exec (List α) := do
  let fg ← addCost fg
    (((← load vars (delta_start + t + 1)) - (← load vars (delta_start + t))) ^ 2)
  let fg ← addCost fg
    (((← load vars (a_start + t + 1)) - (← load vars (a_start + t))) ^ 2)
  pure fg

/-- Body of the constraint loop (lines 80-120). -/
def FG_eval.dynamics (T : Trig α) (self : FG_eval α) (vars : List α) (t : Nat)
    (fg : List α) : Exec (List α) := do
  -- the state at time t
  let x1 ← load vars (x_start + t)
  let y1 ← load vars (y_start + t)
  let psi1 ← load vars (psi_start + t)
  let v1 ← load vars (v_start + t)
  let cte1 ← load vars (cte_start + t)
  let epsi1 ← load vars (epsi_start + t)
  -- the state at time t - 1
  let x0 ← load vars (x_start + t - 1)
  let y0 ← load vars (y_start + t - 1)
  let psi0 ← load vars (psi_start + t - 1)
  let v0 ← load vars (v_start + t - 1)
  let cte0 ← load vars (cte_start + t - 1)
  let epsi0 ← load vars (epsi_start + t - 1)
  -- the actuation at time t - 1
  let delta0 ← load vars (delta_start + t - 1)
  let a0 ← load vars (a_start + t - 1)
  let f0 := (← load self.coeffs 0) + (← load self.coeffs 1) * x0
  let psides0 := T.atan (← load self.coeffs 1)
  let fg ← store fg (1 + x_start + t) (x1 - (x0 + v0 * T.cos psi0 * self.dt))
  let fg ← store fg (1 + y_start + t) (y1 - (y0 + v0 * T.sin psi0 * self.dt))
  let fg ← store fg (1 + psi_start + t) (psi1 - (psi0 + v0 * delta0 / self.Lf * self.dt))
  let fg ← store fg (1 + v_start + t) (v1 - (v0 + a0 * self.dt))
  let fg ← store fg (1 + cte_start + t)
    (cte1 - ((f0 - y0) + (v0 * T.sin epsi0 * self.dt)))
  let fg ← store fg (1 + epsi_start + t)
    (epsi1 - ((psi0 - psides0) + v0 * delta0 / self.Lf * self.dt))
  pure fg

/-- The evaluator `FG_eval::operator()(fg, vars)` (lines 41-121): the cost goes
to `fg[0]`, the constraint values to `fg[1 ..]`.  The result is the updated
`fg`. -/
def FG_eval.operator (T : Trig α) (self : FG_eval α) (fg vars : List α) :
    Exec (List α) := do
  let fg ← store fg 0 0
  let fg ← forRange 0 N (self.costRef vars) fg
  let fg ← forRange 0 (N - 1) (FG_eval.costAct vars) fg
  let fg ← forRange 0 (N - 2) (FG_eval.costGap vars) fg
  let fg ← store fg (1 + x_start) (← load vars x_start)
  let fg ← store fg (1 + y_start) (← load vars y_start)
  let fg ← store fg (1 + psi_start) (← load vars psi_start)
  let fg ← store fg (1 + v_start) (← load vars v_start)
  let fg ← store fg (1 + cte_start) (← load vars cte_start)
  let fg ← store fg (1 + epsi_start) (← load vars epsi_start)
  forRange 1 N (self.dynamics T vars) fg

end Formulator

/-! ## MPC (MPC.cpp, lines 125-257) -/

/-- Modelled from the spec: the data members of class `MPC`, declared in `MPC.h`
(not part of the sources at hand); the members are those assigned by the
constructor `MPC::MPC`. -/
structure MPC (α : Type) where
  max_steering_angle_rad : α
  max_acc : α
  n_vars : Nat
  n_constraints : Nat

/-- Status values of `CppAD::ipopt::solve_result` (external library). -/
inductive solve_status where
  | not_defined
  | success
  | maxiter_exceeded
  | stop_at_tiny_step
  | stop_at_acceptable_point
  | local_infeasibility
  | user_requested_stop
  | feasible_point_found
  | diverging_iterates
  | restoration_failure
  | error_in_step_computation
  | invalid_number_detected
  | too_few_degrees_of_freedom
  | internal_error
  | unknown
  deriving DecidableEq, Repr

/-- The members of `CppAD::ipopt::solve_result<Dvector>` that `MPC::Solve`
reads (external library). -/
structure solve_result (α : Type) where
  status : solve_status
  x : List α
  obj_value : α

/-- The external routine `CppAD::ipopt::solve`, a black box: from the options,
the initial point, the variable bounds, the constraint bounds and the
evaluator it yields a result. -/
abbrev Solver (α : Type) :=
  String → List α → List α → List α → List α → List α →
    (List α → List α → Exec (List α)) → solve_result α

section Orchestration

variable {α : Type} [Field α]

/-- Loop body `vec[i] = a`. -/
def assign (a : α) (i : Nat) (vec : List α) : Exec (List α) :=
  store vec i a

/-- Loop body `lower[i] = a; upper[i] = c` on a pair of bound vectors. -/
def assignBoth (a c : α) (i : Nat) (b : List α × List α) : Exec (List α × List α) := do
  let lo ← store b.1 i a
  let up ← store b.2 i c
  pure (lo, up)

/-- Constructor `MPC::MPC()` (lines 125-133). -/
def MPC.construct (α : Type) [Field α] : MPC α :=
  { max_steering_angle_rad := 1.0
    max_acc := 1.0
    n_vars := N * 6 + (N - 1) * 2
    n_constraints := N * 6 }

/-- The block "initialize vars" of `MPC::Solve` (lines 152-166).  It declares
its own vector `vars`, fills it and leaves the block; the result here is that
inner vector. -/
def MPC.initVars (self : MPC α) (cell : Nat → α) (x y psi v cte epsi : α) :
    Exec (List α) := do
  let vars := Dvector cell self.n_vars
  let vars ← forRange 0 self.n_vars (fun i vars => assign 0 i vars) vars
  let vars ← store vars x_start x
  let vars ← store vars y_start y
  let vars ← store vars psi_start psi
  let vars ← store vars v_start v
  let vars ← store vars cte_start cte
  let vars ← store vars epsi_start epsi
  pure vars

/-- The block "sets bounds" of `MPC::Solve` (lines 171-193), acting on the pair
`(vars_lowerbound, vars_upperbound)`. -/
def MPC.setBounds (self : MPC α) (bounds : List α × List α) : Exec (List α × List α) := do
  let bounds ← forRange 0 delta_start
    (fun i b => assignBoth (-1.0e19) 1.0e19 i b) bounds
  let bounds ← forRange delta_start a_start
    (fun i b => assignBoth (-self.max_steering_angle_rad) self.max_steering_angle_rad i b)
    bounds
  let bounds ← forRange a_start self.n_vars
    (fun i b => assignBoth (-self.max_acc) self.max_acc i b) bounds
  pure bounds

/-- The block "constraint bounds" of `MPC::Solve` (lines 198-217), acting on the
pair `(constraints_lowerbound, constraints_upperbound)`. -/
def MPC.constraintBounds (self : MPC α) (x y psi v cte epsi : α)
    (bounds : List α × List α) : Exec (List α × List α) := do
  let bounds ← forRange 0 self.n_constraints (fun i b => assignBoth 0 0 i b) bounds
  let lo := bounds.1
  let up := bounds.2
  let lo ← store lo x_start x
  let lo ← store lo y_start y
  let lo ← store lo psi_start psi
  let lo ← store lo v_start v
  let lo ← store lo cte_start cte
  let lo ← store lo epsi_start epsi
  let up ← store up x_start x
  let up ← store up y_start y
  let up ← store up psi_start psi
  let up ← store up v_start v
  let up ← store up cte_start cte
  let up ← store up epsi_start epsi
  pure (lo, up)

/-- The option text handed to the solver (lines 224-238). -/
def MPC.options : String :=
  let options := ""
  let options := options ++ "Integer print_level  0\n"
  let options := options ++ "Sparse  true        forward\n"
  let options := options ++ "Sparse  true        reverse\n"
  let options := options ++ "Numeric max_cpu_time          0.5\n"
  options

/-- The inputs that `MPC::Solve` hands to `CppAD::ipopt::solve`. -/
structure SolverCall (α : Type) where
  options : String
  vars : List α
  vars_lowerbound : List α
  vars_upperbound : List α
  constraints_lowerbound : List α
  constraints_upperbound : List α

/-- The part of `MPC::Solve` before the solver is called (lines 138-238).
`cell k` gives the initial contents of the `k`-th vector that is constructed. -/
def MPC.prepare (self : MPC α) (cell : Nat → Nat → α) (state : List α) :
    Exec (SolverCall α) := do
  let x ← load state 0
  let y ← load state 1
  let psi ← load state 2
  let v ← load state 3
  let cte ← load state 4
  let epsi ← load state 5
  -- (1) independent variables: the outer vector is only constructed;
  -- the block below fills a vector of its own
  let vars := Dvector (cell 0) self.n_vars
  let _ ← self.initVars (cell 1) x y psi v cte epsi
  -- (2) lower and upper limits for the variables
  let vars_lowerbound := Dvector (cell 2) self.n_vars
  let vars_upperbound := Dvector (cell 3) self.n_vars
  let (vars_lowerbound, vars_upperbound) ←
    self.setBounds (vars_lowerbound, vars_upperbound)
  -- lower and upper limits for the constraints
  let constraints_lowerbound := Dvector (cell 4) self.n_constraints
  let constraints_upperbound := Dvector (cell 5) self.n_constraints
  let (constraints_lowerbound, constraints_upperbound) ←
    self.constraintBounds x y psi v cte epsi
      (constraints_lowerbound, constraints_upperbound)
  pure { options := MPC.options
         vars := vars
         vars_lowerbound := vars_lowerbound
         vars_upperbound := vars_upperbound
         constraints_lowerbound := constraints_lowerbound
         constraints_upperbound := constraints_upperbound }

/-- The function `MPC::Solve(state, coeffs)` (lines 136-257).  The solver is the
parameter `ipopt_solve`.  The line written to `std::cout` is not part of the
returned value and is left out. -/
def MPC.Solve (T : Trig α) (ipopt_solve : Solver α) (cell : Nat → Nat → α)
    (self : MPC α) (state coeffs : List α) : Exec (List α) := do
  let ok := true
  let call ← self.prepare cell state
  let fg_eval := FG_eval.construct coeffs
  let solution := ipopt_solve call.options call.vars call.vars_lowerbound
    call.vars_upperbound call.constraints_lowerbound call.constraints_upperbound
    (fun fg vars => fg_eval.operator T fg vars)
  let ok := ok && decide (solution.status = solve_status.success)
  let cost := solution.obj_value
  pure [← load solution.x delta_start, ← load solution.x a_start]

end Orchestration

/-! ## The evaluator with an access log

The same statements as `FG_eval.operator`, each read of `vars` and each write
of `fg` also being entered into a log. -/

/-- Access log of the evaluator: the indices of `vars` read and the indices of
`fg` written so far, in program order. -/
structure Trace where
  reads : List Nat
  writes : List Nat
  deriving DecidableEq, Repr

/-- The log extended by the reads `r` and the writes `w`. -/
def Trace.extend (tr : Trace) (r w : List Nat) : Trace :=
  { reads := tr.reads ++ r, writes := tr.writes ++ w }

/-- Computations that may fault and that extend the access log. -/
abbrev Logged := StateT Trace Exec

/-- A computation that touches neither `vars` nor `fg` cells that are logged. -/
def unlogged {β : Type} (m : Exec β) : Logged β :=
  fun tr => m >>= fun a => pure (a, tr)

/-- Read of `vars[i]`, entered into the log. -/
def readVars {α : Type} (vars : List α) (i : Nat) : Logged α :=
  fun tr => load vars i >>= fun v => pure (v, tr.extend [i] [])

/-- Assignment `fg[i] = v`, entered into the log. -/
def writeFg {α : Type} (fg : List α) (i : Nat) (v : α) : Logged (List α) :=
  fun tr => store fg i v >>= fun fg' => pure (fg', tr.extend [] [i])

/-- Iterations `t, t+1, ..., t+k-1` of a logged loop body. -/
def forLoopL {σ : Type} (body : Nat → σ → Logged σ) : Nat → Nat → σ → Logged σ
  | _, 0, s => pure s
  | t, k + 1, s => body t s >>= forLoopL body (t + 1) k

/-- The loop `for (t = lo; t < hi; t++) body`, logged. -/
def forRangeL {σ : Type} (lo hi : Nat) (body : Nat → σ → Logged σ) (s : σ) : Logged σ :=
  forLoopL body lo (hi - lo) s

/-- The log entries of the iterations `t, t+1, ..., t+k-1` of a loop whose
iteration `t` enters `f t`. -/
def loopLog (f : Nat → List Nat) : Nat → Nat → List Nat
  | _, 0 => []
  | t, k + 1 => f t ++ loopLog f (t + 1) k

section LoggedFormulator

variable {α : Type} [Field α]

/-- The statement `fg[0] += e`, logged. -/
def addCostL (fg : List α) (e : α) : Logged (List α) := do
  let c ← unlogged (load fg 0)
  writeFg fg 0 (c + e)

/-- Body of the reference-state cost loop (lines 47-52), logged. -/
def FG_eval.costRefL (self : FG_eval α) (vars : List α) (t : Nat) (fg : List α) :
    Logged (List α) := do
  let fg ← addCostL fg ((← readVars vars (cte_start + t)) ^ 2)
  let fg ← addCostL fg ((← readVars vars (epsi_start + t)) ^ 2)
  let fg ← addCostL fg (((← readVars vars (v_start + t)) - self.ref_v) ^ 2)
  pure fg

/-- Body of the actuator-magnitude cost loop (lines 55-59), logged. -/
def FG_eval.costActL (vars : List α) (t : Nat) (fg : List α) : Logged (List α) := do
  let fg ← addCostL fg ((← readVars vars (delta_start + t)) ^ 2)
  let fg ← addCostL fg ((← readVars vars (a_start + t)) ^ 2)
  pure fg

/-- Body of the actuation-gap cost loop (lines 62-66), logged. -/
def FG_eval.costGapL (vars : List α) (t : Nat) (fg : List α) : Logged (List α) := do
  let fg ← addCostL fg
    (((← readVars vars (delta_start + t + 1)) - (← readVars vars (delta_start + t))) ^ 2)
  let fg ← addCostL fg
    (((← readVars vars (a_start + t + 1)) - (← readVars vars (a_start + t))) ^ 2)
  pure fg

/-- Body of the constraint loop (lines 80-120), logged. -/
def FG_eval.dynamicsL (T : Trig α) (self : FG_eval α) (vars : List α) (t : Nat)
    (fg : List α) : Logged (List α) := do
  -- the state at time t
  let x1 ← readVars vars (x_start + t)
  let y1 ← readVars vars (y_start + t)
  let psi1 ← readVars vars (psi_start + t)
  let v1 ← readVars vars (v_start + t)
  let cte1 ← readVars vars (cte_start + t)
  let epsi1 ← readVars vars (epsi_start + t)
  -- the state at time t - 1
  let x0 ← readVars vars (x_start + t - 1)
  let y0 ← readVars vars (y_start + t - 1)
  let psi0 ← readVars vars (psi_start + t - 1)
  let v0 ← readVars vars (v_start + t - 1)
  let cte0 ← readVars vars (cte_start + t - 1)
  let epsi0 ← readVars vars (epsi_start + t - 1)
  -- the actuation at time t - 1
  let delta0 ← readVars vars (delta_start + t - 1)
  let a0 ← readVars vars (a_start + t - 1)
  let f0 := (← unlogged (load self.coeffs 0)) + (← unlogged (load self.coeffs 1)) * x0
  let psides0 := T.atan (← unlogged (load self.coeffs 1))
  let fg ← writeFg fg (1 + x_start + t) (x1 - (x0 + v0 * T.cos psi0 * self.dt))
  let fg ← writeFg fg (1 + y_start + t) (y1 - (y0 + v0 * T.sin psi0 * self.dt))
  let fg ← writeFg fg (1 + psi_start + t) (psi1 - (psi0 + v0 * delta0 / self.Lf * self.dt))
  let fg ← writeFg fg (1 + v_start + t) (v1 - (v0 + a0 * self.dt))
  let fg ← writeFg fg (1 + cte_start + t)
    (cte1 - ((f0 - y0) + (v0 * T.sin epsi0 * self.dt)))
  let fg ← writeFg fg (1 + epsi_start + t)
    (epsi1 - ((psi0 - psides0) + v0 * delta0 / self.Lf * self.dt))
  pure fg

/-- The evaluator `FG_eval::operator()(fg, vars)` (lines 41-121), logged. -/
def FG_eval.operatorL (T : Trig α) (self : FG_eval α) (fg vars : List α) :
    Logged (List α) := do
  let fg ← writeFg fg 0 0
  let fg ← forRangeL 0 N (self.costRefL vars) fg
  let fg ← forRangeL 0 (N - 1) (FG_eval.costActL vars) fg
  let fg ← forRangeL 0 (N - 2) (FG_eval.costGapL vars) fg
  let fg ← writeFg fg (1 + x_start) (← readVars vars x_start)
  let fg ← writeFg fg (1 + y_start) (← readVars vars y_start)
  let fg ← writeFg fg (1 + psi_start) (← readVars vars psi_start)
  let fg ← writeFg fg (1 + v_start) (← readVars vars v_start)
  let fg ← writeFg fg (1 + cte_start) (← readVars vars cte_start)
  let fg ← writeFg fg (1 + epsi_start) (← readVars vars epsi_start)
  forRangeL 1 N (self.dynamicsL T vars) fg

end LoggedFormulator

/-- The indices of `vars` that one pass of the constraint loop reads. -/
def dynamicsReads (t : Nat) : List Nat :=
  [x_start + t, y_start + t, psi_start + t, v_start + t, cte_start + t, epsi_start + t,
   x_start + t - 1, y_start + t - 1, psi_start + t - 1, v_start + t - 1,
   cte_start + t - 1, epsi_start + t - 1, delta_start + t - 1, a_start + t - 1]

/-- The indices of `fg` that one pass of the constraint loop writes. -/
def dynamicsWrites (t : Nat) : List Nat :=
  [1 + x_start + t, 1 + y_start + t, 1 + psi_start + t, 1 + v_start + t,
   1 + cte_start + t, 1 + epsi_start + t]

/-- The indices of `fg` written by the cost statements (lines 44-66). -/
def costWrites : List Nat :=
  [0] ++ loopLog (fun _ => [0, 0, 0]) 0 (N - 0) ++ loopLog (fun _ => [0, 0]) 0 (N - 1 - 0)
    ++ loopLog (fun _ => [0, 0]) 0 (N - 2 - 0)

/-- The indices of `fg` written by the constraint statements (lines 72-120). -/
def constraintWrites : List Nat :=
  [1 + x_start, 1 + y_start, 1 + psi_start, 1 + v_start, 1 + cte_start, 1 + epsi_start]
    ++ loopLog dynamicsWrites 1 (N - 1)

/-- The indices of `vars` read by the evaluator, in program order. -/
def operatorReads : List Nat :=
  loopLog (fun t => [cte_start + t, epsi_start + t, v_start + t]) 0 (N - 0)
    ++ loopLog (fun t => [delta_start + t, a_start + t]) 0 (N - 1 - 0)
    ++ loopLog (fun t => [delta_start + t + 1, delta_start + t, a_start + t + 1, a_start + t])
        0 (N - 2 - 0)
    ++ [x_start, y_start, psi_start, v_start, cte_start, epsi_start]
    ++ loopLog dynamicsReads 1 (N - 1)

/-- The logged computation `m` runs as `m0` does and extends the log by the
reads `r` and the writes `w`. -/
def Tracks {β : Type} (m : Logged β) (m0 : Exec β) (r w : List Nat) : Prop :=
  ∀ tr, m.run tr = m0 >>= fun a => pure (a, tr.extend r w)

/-! ## The evaluator in binary64 arithmetic

The same statements as `FG_eval.operator`, with every arithmetic operation
taken from an `Arith` record, so that each operation can round its result as
`double` arithmetic does. -/

/-- Rounding of a rational to the nearest integer, ties to the even one. -/
def roundHalfEven (x : ℚ) : ℤ :=
  if x - ⌊x⌋ < 1 / 2 then ⌊x⌋
  else if 1 / 2 < x - ⌊x⌋ then ⌊x⌋ + 1
  else if ⌊x⌋ % 2 = 0 then ⌊x⌋ else ⌊x⌋ + 1

/-- Rounding of a rational to the nearest number with a significand of 53
bits, ties to even: the rounding of IEEE 754 binary64 in its default mode.  The
exponent is not bounded, so overflow and underflow are not modelled. -/
def round64 (x : ℚ) : ℚ :=
  if x = 0 then 0
  else (roundHalfEven (x / 2 ^ (Int.log 2 |x| - 52)) : ℚ) * 2 ^ (Int.log 2 |x| - 52)

/-- The scalar operations the evaluator uses: `+`, `-`, `*`, `/`,
`CppAD::pow(x, 2)`, `CppAD::cos`, `CppAD::sin`, `CppAD::atan`. -/
structure Arith (α : Type) where
  add : α → α → α
  sub : α → α → α
  mul : α → α → α
  div : α → α → α
  sq : α → α
  cos : α → α
  sin : α → α
  atan : α → α

/-- Exact arithmetic in a field. -/
def Arith.exact {α : Type} [Field α] (T : Trig α) : Arith α :=
  { add := fun a b => a + b
    sub := fun a b => a - b
    mul := fun a b => a * b
    div := fun a b => a / b
    sq := fun a => a ^ 2
    cos := T.cos
    sin := T.sin
    atan := T.atan }

/-- Arithmetic of `double`: every operation gives the exact result rounded to
binary64. -/
def Arith.binary64 (T : Trig ℚ) : Arith ℚ :=
  { add := fun a b => round64 (a + b)
    sub := fun a b => round64 (a - b)
    mul := fun a b => round64 (a * b)
    div := fun a b => round64 (a / b)
    sq := fun a => round64 (a ^ 2)
    cos := fun a => round64 (T.cos a)
    sin := fun a => round64 (T.sin a)
    atan := fun a => round64 (T.atan a) }

/-- Constructor `FG_eval::FG_eval(coeffs)` (lines 27-33) with the three
constants as the `double` values of their literals. -/
def FG_eval.construct64 (coeffs : List ℚ) : FG_eval ℚ :=
  { coeffs := coeffs, ref_v := round64 40.0, dt := round64 0.05, Lf := round64 2.67 }

section ArithFormulator

variable {α : Type} [Zero α]

/-- The statement `fg[0] += e`. -/
def addCostA (A : Arith α) (fg : List α) (e : α) : Exec (List α) := do
  let c ← load fg 0
  store fg 0 (A.add c e)

/-- Body of the reference-state cost loop (lines 47-52). -/
def FG_eval.costRefA (A : Arith α) (self : FG_eval α) (vars : List α) (t : Nat)
    (fg : List α) : Exec (List α) := do
  let fg ← addCostA A fg (A.sq (← load vars (cte_start + t)))
  let fg ← addCostA A fg (A.sq (← load vars (epsi_start + t)))
  let fg ← addCostA A fg (A.sq (A.sub (← load vars (v_start + t)) self.ref_v))
  pure fg

/-- Body of the actuator-magnitude cost loop (lines 55-59). -/
def FG_eval.costActA (A : Arith α) (vars : List α) (t : Nat) (fg : List α) :
    Exec (List α) := do
  let fg ← addCostA A fg (A.sq (← load vars (delta_start + t)))
  let fg ← addCostA A fg (A.sq (← load vars (a_start + t)))
  pure fg

/-- Body of the actuation-gap cost loop (lines 62-66). -/
def FG_eval.costGapA (A : Arith α) (vars : List α) (t : Nat) (fg : List α) :
    Exec (List α) := do
  let fg ← addCostA A fg
    (A.sq (A.sub (← load vars (delta_start + t + 1)) (← load vars (delta_start + t))))
  let fg ← addCostA A fg
    (A.sq (A.sub (← load vars (a_start + t + 1)) (← load vars (a_start + t))))
  pure fg

/-- Body of the constraint loop (lines 80-120). -/
def FG_eval.dynamicsA (A : Arith α) (self : FG_eval α) (vars : List α) (t : Nat)
    (fg : List α) : Exec (List α) := do
  -- the state at time t
  let x1 ← load vars (x_start + t)
  let y1 ← load vars (y_start + t)
  let psi1 ← load vars (psi_start + t)
  let v1 ← load vars (v_start + t)
  let cte1 ← load vars (cte_start + t)
  let epsi1 ← load vars (epsi_start + t)
  -- the state at time t - 1
  let x0 ← load vars (x_start + t - 1)
  let y0 ← load vars (y_start + t - 1)
  let psi0 ← load vars (psi_start + t - 1)
  let v0 ← load vars (v_start + t - 1)
  let cte0 ← load vars (cte_start + t - 1)
  let epsi0 ← load vars (epsi_start + t - 1)
  -- the actuation at time t - 1
  let delta0 ← load vars (delta_start + t - 1)
  let a0 ← load vars (a_start + t - 1)
  let f0 := A.add (← load self.coeffs 0) (A.mul (← load self.coeffs 1) x0)
  let psides0 := A.atan (← load self.coeffs 1)
  let fg ← store fg (1 + x_start + t)
    (A.sub x1 (A.add x0 (A.mul (A.mul v0 (A.cos psi0)) self.dt)))
  let fg ← store fg (1 + y_start + t)
    (A.sub y1 (A.add y0 (A.mul (A.mul v0 (A.sin psi0)) self.dt)))
  let fg ← store fg (1 + psi_start + t)
    (A.sub psi1 (A.add psi0 (A.mul (A.div (A.mul v0 delta0) self.Lf) self.dt)))
  let fg ← store fg (1 + v_start + t) (A.sub v1 (A.add v0 (A.mul a0 self.dt)))
  let fg ← store fg (1 + cte_start + t)
    (A.sub cte1 (A.add (A.sub f0 y0) (A.mul (A.mul v0 (A.sin epsi0)) self.dt)))
  let fg ← store fg (1 + epsi_start + t)
    (A.sub epsi1
      (A.add (A.sub psi0 psides0) (A.mul (A.div (A.mul v0 delta0) self.Lf) self.dt)))
  pure fg

/-- The evaluator `FG_eval::operator()(fg, vars)` (lines 41-121) over the
arithmetic `A`. -/
def FG_eval.operatorA (A : Arith α) (self : FG_eval α) (fg vars : List α) :
    Exec (List α) := do
  let fg ← store fg 0 0
  let fg ← forRange 0 N (self.costRefA A vars) fg
  let fg ← forRange 0 (N - 1) (FG_eval.costActA A vars) fg
  let fg ← forRange 0 (N - 2) (FG_eval.costGapA A vars) fg
  let fg ← store fg (1 + x_start) (← load vars x_start)
  let fg ← store fg (1 + y_start) (← load vars y_start)
  let fg ← store fg (1 + psi_start) (← load vars psi_start)
  let fg ← store fg (1 + v_start) (← load vars v_start)
  let fg ← store fg (1 + cte_start) (← load vars cte_start)
  let fg ← store fg (1 + epsi_start) (← load vars epsi_start)
  forRange 1 N (self.dynamicsA A vars) fg

/-- The value of an accumulator after the iterations `t, t+1, ..., t+k-1` of a
loop whose iteration `t` turns the accumulator `c` into `step t c`. -/
def iterate (step : Nat → α → α) : Nat → Nat → α → α
  | _, 0, c => c
  | t, k + 1, c => iterate step (t + 1) k (step t c)

/-- The effect of one pass of the reference-state cost loop on `fg[0]`. -/
def stepRef (A : Arith α) (self : FG_eval α) (vars : List α) (t : Nat) (c : α) : α :=
  A.add (A.add (A.add c (A.sq (entry vars (cte_start + t))))
    (A.sq (entry vars (epsi_start + t))))
    (A.sq (A.sub (entry vars (v_start + t)) self.ref_v))

/-- The effect of one pass of the actuator-magnitude cost loop on `fg[0]`. -/
def stepAct (A : Arith α) (vars : List α) (t : Nat) (c : α) : α :=
  A.add (A.add c (A.sq (entry vars (delta_start + t)))) (A.sq (entry vars (a_start + t)))

/-- The effect of one pass of the actuation-gap cost loop on `fg[0]`. -/
def stepGap (A : Arith α) (vars : List α) (t : Nat) (c : α) : α :=
  A.add (A.add c
    (A.sq (A.sub (entry vars (delta_start + t + 1)) (entry vars (delta_start + t)))))
    (A.sq (A.sub (entry vars (a_start + t + 1)) (entry vars (a_start + t))))

/-- The value in `fg[0]` after the three cost loops over the arithmetic `A`. -/
def costValueA (A : Arith α) (self : FG_eval α) (vars : List α) : α :=
  iterate (stepGap A vars) 0 (N - 2 - 0)
    (iterate (stepAct A vars) 0 (N - 1 - 0)
      (iterate (stepRef A self vars) 0 (N - 0) 0))

end ArithFormulator

/-! ## Reference formulas -/

section Reference

variable {α : Type} [Field α]

/-- The eight named slices of the decision vector as the specification lists
them, each as (offset, length), in layout order. -/
def slices : List (Nat × Nat) :=
  [(x_start, N), (y_start, N), (psi_start, N), (v_start, N), (cte_start, N),
   (epsi_start, N), (delta_start, N - 1), (a_start, N - 1)]

/-- Number of slices that contain the index `i`. -/
def sliceCount (i : Nat) : Nat :=
  (slices.filter (fun s => decide (s.1 ≤ i ∧ i < s.1 + s.2))).length

/-- The cost as the specification words it: tracking and speed terms over
`[0, N)`, actuation magnitudes over `[0, N-1)`, actuation gaps over `[0, N-2)`,
all with weight one and reference speed 40. -/
def spec_cost (vars : List α) : α :=
  (∑ t in Finset.range N,
      (entry vars (cte_start + t) ^ 2 + entry vars (epsi_start + t) ^ 2
        + (entry vars (v_start + t) - 40) ^ 2))
  + (∑ t in Finset.range (N - 1),
      (entry vars (delta_start + t) ^ 2 + entry vars (a_start + t) ^ 2))
  + (∑ t in Finset.range (N - 2),
      ((entry vars (delta_start + (t + 1)) - entry vars (delta_start + t)) ^ 2
        + (entry vars (a_start + (t + 1)) - entry vars (a_start + t)) ^ 2))

/-- The value in `fg[0]` after the three cost loops, for an evaluator with
reference speed `self.ref_v`. -/
def costValue (self : FG_eval α) (vars : List α) : α :=
  0
  + (∑ t in Finset.range N,
      (entry vars (cte_start + t) ^ 2 + entry vars (epsi_start + t) ^ 2
        + (entry vars (v_start + t) - self.ref_v) ^ 2))
  + (∑ t in Finset.range (N - 1),
      (entry vars (delta_start + t) ^ 2 + entry vars (a_start + t) ^ 2))
  + (∑ t in Finset.range (N - 2),
      ((entry vars (delta_start + t + 1) - entry vars (delta_start + t)) ^ 2
        + (entry vars (a_start + t + 1) - entry vars (a_start + t)) ^ 2))

/-- The six entries of `fg` that hold the constraints at `t = 0`. -/
def InitRow (vars fg : List α) : Prop :=
  entry fg (1 + x_start) = entry vars x_start ∧
  entry fg (1 + y_start) = entry vars y_start ∧
  entry fg (1 + psi_start) = entry vars psi_start ∧
  entry fg (1 + v_start) = entry vars v_start ∧
  entry fg (1 + cte_start) = entry vars cte_start ∧
  entry fg (1 + epsi_start) = entry vars epsi_start

/-- The six entries of `fg` that hold the constraints at step `t`, with the
right-hand sides as the constraint loop computes them. -/
def DynRow (T : Trig α) (self : FG_eval α) (vars fg : List α) (t : Nat) : Prop :=
  entry fg (1 + x_start + t) =
    entry vars (x_start + t) - (entry vars (x_start + t - 1)
      + entry vars (v_start + t - 1) * T.cos (entry vars (psi_start + t - 1)) * self.dt) ∧
  entry fg (1 + y_start + t) =
    entry vars (y_start + t) - (entry vars (y_start + t - 1)
      + entry vars (v_start + t - 1) * T.sin (entry vars (psi_start + t - 1)) * self.dt) ∧
  entry fg (1 + psi_start + t) =
    entry vars (psi_start + t) - (entry vars (psi_start + t - 1)
      + entry vars (v_start + t - 1) * entry vars (delta_start + t - 1) / self.Lf * self.dt) ∧
  entry fg (1 + v_start + t) =
    entry vars (v_start + t) - (entry vars (v_start + t - 1)
      + entry vars (a_start + t - 1) * self.dt) ∧
  entry fg (1 + cte_start + t) =
    entry vars (cte_start + t)
      - (((entry self.coeffs 0 + entry self.coeffs 1 * entry vars (x_start + t - 1))
            - entry vars (y_start + t - 1))
          + (entry vars (v_start + t - 1) * T.sin (entry vars (epsi_start + t - 1)) * self.dt)) ∧
  entry fg (1 + epsi_start + t) =
    entry vars (epsi_start + t)
      - ((entry vars (psi_start + t - 1) - T.atan (entry self.coeffs 1))
          + entry vars (v_start + t - 1) * entry vars (delta_start + t - 1) / self.Lf * self.dt)

/-- The reference path height as the specification words it: `coeffs`
evaluated as a polynomial at `x`, that is `c0 + c1*x + c2*x^2 + ...`. -/
def spec_polyeval (coeffs : List α) (x : α) : α :=
  ∑ i in Finset.range coeffs.length, entry coeffs i * x ^ i

/-- The common value of the lower and the upper constraint bound at index `j`
for the current state `x, y, psi, v, cte, epsi`. -/
def pinValue (x y psi v cte epsi : α) (j : Nat) : α :=
  if j = x_start then x
  else if j = y_start then y
  else if j = psi_start then psi
  else if j = v_start then v
  else if j = cte_start then cte
  else if j = epsi_start then epsi
  else 0

/-- The six state channels at one step. -/
structure VehicleState (α : Type) where
  x : α
  y : α
  psi : α
  v : α
  cte : α
  epsi : α

/-- The state that a decision vector holds at step `t`. -/
def stateAt (vars : List α) (t : Nat) : VehicleState α :=
  { x := entry vars (x_start + t)
    y := entry vars (y_start + t)
    psi := entry vars (psi_start + t)
    v := entry vars (v_start + t)
    cte := entry vars (cte_start + t)
    epsi := entry vars (epsi_start + t) }

/-- The current state `[x, y, psi, v, cte, epsi]` as a record. -/
def currentState (state : List α) : VehicleState α :=
  { x := entry state 0
    y := entry state 1
    psi := entry state 2
    v := entry state 3
    cte := entry state 4
    epsi := entry state 5 }

/-- One step of the kinematic model as the constraint loop encodes it (lines
104-119): the prediction from the state `s` under the actuation `delta`, `a`. -/
def model_predict (T : Trig α) (self : FG_eval α) (s : VehicleState α) (delta a : α) :
    VehicleState α :=
  { x := s.x + s.v * T.cos s.psi * self.dt
    y := s.y + s.v * T.sin s.psi * self.dt
    psi := s.psi + s.v * delta / self.Lf * self.dt
    v := s.v + a * self.dt
    cte := ((entry self.coeffs 0 + entry self.coeffs 1 * s.x) - s.y)
      + (s.v * T.sin s.epsi * self.dt)
    epsi := (s.psi - T.atan (entry self.coeffs 1)) + s.v * delta / self.Lf * self.dt }

/-- Rollout of the model from the state `s0` under the actuations that the
decision vector `vars` holds in its `delta` and `a` slices. -/
def rollout (T : Trig α) (self : FG_eval α) (s0 : VehicleState α) (vars : List α) :
    Nat → VehicleState α
  | 0 => s0
  | t + 1 => model_predict T self (rollout T self s0 vars t)
      (entry vars (delta_start + t)) (entry vars (a_start + t))

end Reference

/-! ## Basic facts about vectors and loops -/

section Basics

variable {α : Type}

theorem load_ok [Zero α] (vec : List α) (i : Nat) (h : i < vec.length) :
    load vec i = Except.ok (entry vec i) := by
  simp [load, entry, List.getD, List.getElem?_eq_getElem h]
  rfl

theorem store_ok (vec : List α) (i : Nat) (v : α) (h : i < vec.length) :
    store vec i v = Except.ok (vec.set i v) := by
  simp [store, h]
  rfl

theorem entry_set_self [Zero α] (vec : List α) (i : Nat) (v : α) (h : i < vec.length) :
    entry (vec.set i v) i = v := by
  simp [entry, List.getD, List.getElem?_set, h]

theorem entry_set_ne [Zero α] (vec : List α) (i j : Nat) (v : α) (h : i ≠ j) :
    entry (vec.set i v) j = entry vec j := by
  simp [entry, List.getD, List.getElem?_set, h]

theorem length_Dvector (cell : Nat → α) (n : Nat) : (Dvector cell n).length = n := by
  simp [Dvector]

theorem entry_Dvector [Zero α] (cell : Nat → α) (n i : Nat) (h : i < n) :
    entry (Dvector cell n) i = cell i := by
  unfold entry Dvector
  rw [List.getD_eq_getElem?_getD, List.getElem?_map, List.getElem?_range h]
  rfl

theorem ok_bind {β γ : Type} (a : β) (f : β → Exec γ) :
    (Except.ok a >>= f) = f a := pure_bind a f

/-- Loop rule: an invariant that every iteration re-establishes holds after the
loop, and the loop does not fault. -/
theorem forLoop_inv {σ : Type} (P : Nat → σ → Prop) (body : Nat → σ → Exec σ) :
    ∀ (k lo : Nat) (s : σ), P lo s →
      (∀ t s, lo ≤ t → t < lo + k → P t s → ∃ s', body t s = Except.ok s' ∧ P (t + 1) s') →
      ∃ s', forLoop body lo k s = Except.ok s' ∧ P (lo + k) s' := by
  intro k
  induction k with
  | zero =>
    intro lo s h0 _
    exact ⟨s, rfl, by simpa using h0⟩
  | succ k ih =>
    intro lo s h0 hstep
    obtain ⟨s1, hb, h1⟩ := hstep lo s (Nat.le_refl _) (by omega) h0
    obtain ⟨s2, hl, h2⟩ := ih (lo + 1) s1 h1
      (fun t s ht1 ht2 hP => hstep t s (by omega) (by omega) hP)
    refine ⟨s2, ?_, ?_⟩
    · simp only [forLoop, hb, ok_bind, hl]
    · have e : lo + (k + 1) = lo + 1 + k := by omega
      rw [e]; exact h2

theorem forRange_inv {σ : Type} (P : Nat → σ → Prop) (body : Nat → σ → Exec σ)
    (lo hi : Nat) (s : σ) (hle : lo ≤ hi) (h0 : P lo s)
    (hstep : ∀ t s, lo ≤ t → t < hi → P t s →
      ∃ s', body t s = Except.ok s' ∧ P (t + 1) s') :
    ∃ s', forRange lo hi body s = Except.ok s' ∧ P hi s' := by
  obtain ⟨s', h1, h2⟩ := forLoop_inv P body (hi - lo) lo s h0
    (fun t s ht1 ht2 hP => hstep t s ht1 (by omega) hP)
  refine ⟨s', h1, ?_⟩
  have e : lo + (hi - lo) = hi := by omega
  rw [e] at h2; exact h2

theorem entry_set [Zero α] (vec : List α) (i j : Nat) (v : α) :
    entry (vec.set i v) j = if i = j ∧ i < vec.length then v else entry vec j := by
  by_cases h : i = j
  · subst h
    by_cases h2 : i < vec.length
    · simp [h2, entry_set_self]
    · have e : vec.set i v = vec := by
        apply List.ext_getElem? ; intro n
        simp only [List.getElem?_set]
        split_ifs with h3
        · subst h3; exact (List.getElem?_eq_none (by omega)).symm
        · rfl
      simp [h2, e]
  · simp [h, entry_set_ne]

/-- Six assignments to pairwise different cells: each cell holds the value
assigned to it, all other cells are unchanged. -/
theorem entry_set_six [Zero α] (vec : List α) (i1 i2 i3 i4 i5 i6 : Nat)
    (v1 v2 v3 v4 v5 v6 : α)
    (b1 : i1 < vec.length) (b2 : i2 < vec.length) (b3 : i3 < vec.length)
    (b4 : i4 < vec.length) (b5 : i5 < vec.length) (b6 : i6 < vec.length)
    (h21 : i2 ≠ i1) (h31 : i3 ≠ i1) (h41 : i4 ≠ i1) (h51 : i5 ≠ i1) (h61 : i6 ≠ i1)
    (h32 : i3 ≠ i2) (h42 : i4 ≠ i2) (h52 : i5 ≠ i2) (h62 : i6 ≠ i2)
    (h43 : i4 ≠ i3) (h53 : i5 ≠ i3) (h63 : i6 ≠ i3)
    (h54 : i5 ≠ i4) (h64 : i6 ≠ i4) (h65 : i6 ≠ i5) :
    entry ((((((vec.set i1 v1).set i2 v2).set i3 v3).set i4 v4).set i5 v5).set i6 v6) i1 = v1 ∧
    entry ((((((vec.set i1 v1).set i2 v2).set i3 v3).set i4 v4).set i5 v5).set i6 v6) i2 = v2 ∧
    entry ((((((vec.set i1 v1).set i2 v2).set i3 v3).set i4 v4).set i5 v5).set i6 v6) i3 = v3 ∧
    entry ((((((vec.set i1 v1).set i2 v2).set i3 v3).set i4 v4).set i5 v5).set i6 v6) i4 = v4 ∧
    entry ((((((vec.set i1 v1).set i2 v2).set i3 v3).set i4 v4).set i5 v5).set i6 v6) i5 = v5 ∧
    entry ((((((vec.set i1 v1).set i2 v2).set i3 v3).set i4 v4).set i5 v5).set i6 v6) i6 = v6 ∧
    ∀ j, i1 ≠ j → i2 ≠ j → i3 ≠ j → i4 ≠ j → i5 ≠ j → i6 ≠ j →
      entry ((((((vec.set i1 v1).set i2 v2).set i3 v3).set i4 v4).set i5 v5).set i6 v6) j
        = entry vec j := by
  refine ⟨?_, ?_, ?_, ?_, ?_, ?_, ?_⟩
  · simp [entry_set, *]
  · simp [entry_set, *]
  · simp [entry_set, *]
  · simp [entry_set, *]
  · simp [entry_set, *]
  · simp [entry_set, *]
  · intro j g1 g2 g3 g4 g5 g6
    simp [entry_set, *]

theorem set_zero_entry [Zero α] (vec : List α) (h : 0 < vec.length) :
    vec.set 0 (entry vec 0) = vec := by
  cases vec with
  | nil => simp at h
  | cons a l => simp [entry]

theorem set_zero_twice (vec : List α) (a b : α) : (vec.set 0 a).set 0 b = vec.set 0 b := by
  cases vec <;> simp

theorem layout_values :
    x_start = 0 ∧ y_start = 25 ∧ psi_start = 50 ∧ v_start = 75 ∧ cte_start = 100 ∧
    epsi_start = 125 ∧ delta_start = 150 ∧ a_start = 174 ∧ N = 25 := by decide

end Basics

/-! ## The evaluator -/

section FormulatorFacts

variable {α : Type} [Field α]

theorem addCost_ok (fg : List α) (e : α) (h : 0 < fg.length) :
    addCost fg e = Except.ok (fg.set 0 (entry fg 0 + e)) := by
  simp only [addCost, load_ok fg 0 h, ok_bind, store_ok fg 0 _ h, bind, Except.bind]

/-- A loop whose body is `fg[0] += term t` adds the sum of the terms. -/
theorem costLoop_ok (body : Nat → List α → Exec (List α)) (term : Nat → α) (n : Nat)
    (fg : List α) (hfg : 0 < fg.length)
    (hbody : ∀ t (s : List α), t < n → 0 < s.length →
      body t s = Except.ok (s.set 0 (entry s 0 + term t))) :
    forRange 0 n body fg
      = Except.ok (fg.set 0 (entry fg 0 + ∑ t in Finset.range n, term t)) := by
  obtain ⟨s', h1, h2⟩ := forRange_inv
    (fun t s => s = fg.set 0 (entry fg 0 + ∑ i in Finset.range t, term i))
    body 0 n fg (Nat.zero_le _) (by simp [set_zero_entry fg hfg])
    (by
      intro t s _ ht hs
      refine ⟨_, hbody t s ht (by simp [hs, hfg]), ?_⟩
      subst hs
      rw [set_zero_twice, entry_set_self _ _ _ hfg, Finset.sum_range_succ, add_assoc])
  rw [h1, h2]

theorem costRef_ok (self : FG_eval α) (vars : List α) (t : Nat) (fg : List α)
    (hv : epsi_start + t < vars.length) (hfg : 0 < fg.length) :
    self.costRef vars t fg = Except.ok (fg.set 0 (entry fg 0 +
      (entry vars (cte_start + t) ^ 2 + entry vars (epsi_start + t) ^ 2
        + (entry vars (v_start + t) - self.ref_v) ^ 2))) := by
  obtain ⟨_, _, _, h4, h5, h6, _, _, _⟩ := layout_values
  have l1 : 0 < (fg.set 0 (entry fg 0 + entry vars (cte_start + t) ^ 2)).length := by
    simpa using hfg
  have l2 : 0 < ((fg.set 0 (entry fg 0 + entry vars (cte_start + t) ^ 2)).set 0
      (entry fg 0 + entry vars (cte_start + t) ^ 2
        + entry vars (epsi_start + t) ^ 2)).length := by
    simpa using hfg
  simp only [FG_eval.costRef, load_ok vars (cte_start + t) (by omega),
    load_ok vars (epsi_start + t) hv, load_ok vars (v_start + t) (by omega), ok_bind,
    addCost_ok fg _ hfg, set_zero_twice, entry_set_self _ _ _ hfg]
  rw [addCost_ok _ _ l1, ok_bind, set_zero_twice, entry_set_self _ _ _ hfg,
    addCost_ok _ _ (by simpa using hfg), ok_bind, set_zero_twice, entry_set_self _ _ _ hfg]
  simp only [pure, Except.pure, add_assoc]

theorem costAct_ok (vars : List α) (t : Nat) (fg : List α)
    (hv : a_start + t < vars.length) (hfg : 0 < fg.length) :
    FG_eval.costAct vars t fg = Except.ok (fg.set 0 (entry fg 0 +
      (entry vars (delta_start + t) ^ 2 + entry vars (a_start + t) ^ 2))) := by
  obtain ⟨_, _, _, _, _, _, h7, h8, _⟩ := layout_values
  simp only [FG_eval.costAct, load_ok vars (delta_start + t) (by omega),
    load_ok vars (a_start + t) hv, ok_bind, addCost_ok fg _ hfg]
  rw [addCost_ok _ _ (by simpa using hfg), ok_bind, set_zero_twice,
    entry_set_self _ _ _ hfg]
  simp only [pure, Except.pure, add_assoc]

theorem costGap_ok (vars : List α) (t : Nat) (fg : List α)
    (hv : a_start + t + 1 < vars.length) (hfg : 0 < fg.length) :
    FG_eval.costGap vars t fg = Except.ok (fg.set 0 (entry fg 0 +
      ((entry vars (delta_start + t + 1) - entry vars (delta_start + t)) ^ 2
        + (entry vars (a_start + t + 1) - entry vars (a_start + t)) ^ 2))) := by
  obtain ⟨_, _, _, _, _, _, h7, h8, _⟩ := layout_values
  simp only [FG_eval.costGap, load_ok vars (delta_start + t) (by omega),
    load_ok vars (delta_start + t + 1) (by omega),
    load_ok vars (a_start + t) (by omega),
    load_ok vars (a_start + t + 1) hv, ok_bind, addCost_ok fg _ hfg]
  rw [addCost_ok _ _ (by simpa using hfg), ok_bind, set_zero_twice,
    entry_set_self _ _ _ hfg]
  simp only [pure, Except.pure, add_assoc]

/-- One pass of the constraint loop: it does not fault, writes the six entries
of step `t` and leaves every other entry of `fg` as it was. -/
theorem dynamics_ok (T : Trig α) (self : FG_eval α) (vars fg : List α) (t : Nat)
    (hv : 198 ≤ vars.length) (hc : 2 ≤ self.coeffs.length) (hfg : 151 ≤ fg.length)
    (h1 : 1 ≤ t) (ht : t < N) :
    ∃ fg', self.dynamics T vars t fg = Except.ok fg' ∧ fg'.length = fg.length ∧
      DynRow T self vars fg' t ∧
      ∀ j, (j = 0 ∨ (j - 1) % 25 ≠ t ∨ 151 ≤ j) → entry fg' j = entry fg j := by
  obtain ⟨k1, k2, k3, k4, k5, k6, k7, k8, hN⟩ := layout_values
  have i1 : 1 + x_start + t < fg.length := by omega
  have i2 : 1 + y_start + t < fg.length := by omega
  have i3 : 1 + psi_start + t < fg.length := by omega
  have i4 : 1 + v_start + t < fg.length := by omega
  have i5 : 1 + cte_start + t < fg.length := by omega
  have i6 : 1 + epsi_start + t < fg.length := by omega
  apply Exists.intro
  refine ⟨?_, ?_, ?_, ?_⟩
  · simp only [FG_eval.dynamics, load_ok vars (x_start + t) (by omega),
      load_ok vars (y_start + t) (by omega), load_ok vars (psi_start + t) (by omega),
      load_ok vars (v_start + t) (by omega), load_ok vars (cte_start + t) (by omega),
      load_ok vars (epsi_start + t) (by omega), load_ok vars (x_start + t - 1) (by omega),
      load_ok vars (y_start + t - 1) (by omega), load_ok vars (psi_start + t - 1) (by omega),
      load_ok vars (v_start + t - 1) (by omega), load_ok vars (cte_start + t - 1) (by omega),
      load_ok vars (epsi_start + t - 1) (by omega),
      load_ok vars (delta_start + t - 1) (by omega),
      load_ok vars (a_start + t - 1) (by omega),
      load_ok self.coeffs 0 (by omega), load_ok self.coeffs 1 (by omega),
      ok_bind, store, List.length_set, if_pos i1, if_pos i2, if_pos i3, if_pos i4,
      if_pos i5, if_pos i6, pure_bind]
    rfl
  · simp only [List.length_set]
  · obtain ⟨e1, e2, e3, e4, e5, e6, _⟩ := entry_set_six fg
      (1 + x_start + t) (1 + y_start + t) (1 + psi_start + t)
      (1 + v_start + t) (1 + cte_start + t) (1 + epsi_start + t)
      (entry vars (x_start + t) - (entry vars (x_start + t - 1)
        + entry vars (v_start + t - 1) * T.cos (entry vars (psi_start + t - 1)) * self.dt))
      (entry vars (y_start + t) - (entry vars (y_start + t - 1)
        + entry vars (v_start + t - 1) * T.sin (entry vars (psi_start + t - 1)) * self.dt))
      (entry vars (psi_start + t) - (entry vars (psi_start + t - 1)
        + entry vars (v_start + t - 1) * entry vars (delta_start + t - 1) / self.Lf * self.dt))
      (entry vars (v_start + t) - (entry vars (v_start + t - 1)
        + entry vars (a_start + t - 1) * self.dt))
      (entry vars (cte_start + t)
        - (((entry self.coeffs 0 + entry self.coeffs 1 * entry vars (x_start + t - 1))
              - entry vars (y_start + t - 1))
            + (entry vars (v_start + t - 1) * T.sin (entry vars (epsi_start + t - 1))
                * self.dt)))
      (entry vars (epsi_start + t)
        - ((entry vars (psi_start + t - 1) - T.atan (entry self.coeffs 1))
            + entry vars (v_start + t - 1) * entry vars (delta_start + t - 1) / self.Lf
                * self.dt))
      i1 i2 i3 i4 i5 i6
      (by omega) (by omega) (by omega) (by omega) (by omega) (by omega) (by omega)
      (by omega) (by omega) (by omega) (by omega) (by omega) (by omega) (by omega)
      (by omega)
    exact ⟨e1, e2, e3, e4, e5, e6⟩
  · intro j hj
    exact (entry_set_six fg
      (1 + x_start + t) (1 + y_start + t) (1 + psi_start + t)
      (1 + v_start + t) (1 + cte_start + t) (1 + epsi_start + t) _ _ _ _ _ _
      i1 i2 i3 i4 i5 i6
      (by omega) (by omega) (by omega) (by omega) (by omega) (by omega) (by omega)
      (by omega) (by omega) (by omega) (by omega) (by omega) (by omega) (by omega)
      (by omega)).2.2.2.2.2.2 j (by omega) (by omega) (by omega) (by omega) (by omega)
      (by omega)

/-- The evaluator does not fault on vectors that are long enough, and its
result holds the cost in entry 0, the `t = 0` constraints and the constraints of
every step `1 ≤ t < N`; it keeps the length of `fg`. -/
theorem operator_ok (T : Trig α) (self : FG_eval α) (fg vars : List α)
    (hv : 198 ≤ vars.length) (hc : 2 ≤ self.coeffs.length) (hfg : 151 ≤ fg.length) :
    ∃ fg', self.operator T fg vars = Except.ok fg' ∧ fg'.length = fg.length ∧
      entry fg' 0 = costValue self vars ∧ InitRow vars fg' ∧
      (∀ t, 1 ≤ t → t < N → DynRow T self vars fg' t) ∧
      ∀ j, 151 ≤ j → entry fg' j = entry fg j := by
  obtain ⟨k1, k2, k3, k4, k5, k6, k7, k8, hN⟩ := layout_values
  have hfg0 : 0 < fg.length := by omega
  have e1 := costLoop_ok (self.costRef vars) _ N (fg.set 0 0) (by simpa using hfg0)
    (fun t s ht hs => costRef_ok self vars t s (by omega) hs)
  have e2 := costLoop_ok (FG_eval.costAct vars) _ (N - 1)
    (fg.set 0 (entry (fg.set 0 (0 : α)) 0 + ∑ t in Finset.range N,
      (entry vars (cte_start + t) ^ 2 + entry vars (epsi_start + t) ^ 2
        + (entry vars (v_start + t) - self.ref_v) ^ 2))) (by simpa using hfg0)
    (fun t s ht hs => costAct_ok vars t s (by omega) hs)
  have e3 := costLoop_ok (FG_eval.costGap vars) _ (N - 2)
    (fg.set 0 (entry (fg.set 0 (entry (fg.set 0 (0 : α)) 0 + ∑ t in Finset.range N,
      (entry vars (cte_start + t) ^ 2 + entry vars (epsi_start + t) ^ 2
        + (entry vars (v_start + t) - self.ref_v) ^ 2))) 0
      + ∑ t in Finset.range (N - 1),
        (entry vars (delta_start + t) ^ 2 + entry vars (a_start + t) ^ 2)))
    (by simpa using hfg0)
    (fun t s ht hs => costGap_ok vars t s (by omega) hs)
  simp only [set_zero_twice, entry_set_self _ _ _ hfg0] at e1 e2 e3
  have c1 : 1 + x_start < (fg.set 0 (costValue self vars)).length := by
    simp only [List.length_set]; omega
  have c2 : 1 + y_start < (fg.set 0 (costValue self vars)).length := by
    simp only [List.length_set]; omega
  have c3 : 1 + psi_start < (fg.set 0 (costValue self vars)).length := by
    simp only [List.length_set]; omega
  have c4 : 1 + v_start < (fg.set 0 (costValue self vars)).length := by
    simp only [List.length_set]; omega
  have c5 : 1 + cte_start < (fg.set 0 (costValue self vars)).length := by
    simp only [List.length_set]; omega
  have c6 : 1 + epsi_start < (fg.set 0 (costValue self vars)).length := by
    simp only [List.length_set]; omega
  obtain ⟨q1, q2, q3, q4, q5, q6, qf⟩ := entry_set_six (fg.set 0 (costValue self vars))
    (1 + x_start) (1 + y_start) (1 + psi_start) (1 + v_start) (1 + cte_start)
    (1 + epsi_start) (entry vars x_start) (entry vars y_start) (entry vars psi_start)
    (entry vars v_start) (entry vars cte_start) (entry vars epsi_start)
    c1 c2 c3 c4 c5 c6
    (by omega) (by omega) (by omega) (by omega) (by omega) (by omega) (by omega)
    (by omega) (by omega) (by omega) (by omega) (by omega) (by omega) (by omega)
    (by omega)
  obtain ⟨s', r1, r2, r3, r4, r5, r6⟩ := forRange_inv
    (fun t s => s.length = fg.length ∧ entry s 0 = costValue self vars ∧ InitRow vars s ∧
      (∀ u, 1 ≤ u → u < t → DynRow T self vars s u) ∧
      ∀ j, 151 ≤ j → entry s j = entry fg j)
    (self.dynamics T vars) 1 N
    (((((((fg.set 0 (costValue self vars)).set (1 + x_start) (entry vars x_start)).set
      (1 + y_start) (entry vars y_start)).set (1 + psi_start) (entry vars psi_start)).set
      (1 + v_start) (entry vars v_start)).set (1 + cte_start) (entry vars cte_start)).set
      (1 + epsi_start) (entry vars epsi_start))
    (by omega)
    (by
      refine ⟨by simp only [List.length_set], ?_, ⟨q1, q2, q3, q4, q5, q6⟩, ?_, ?_⟩
      · rw [qf 0 (by omega) (by omega) (by omega) (by omega) (by omega) (by omega)]
        exact entry_set_self _ _ _ hfg0
      · intro u hu1 hu2; omega
      · intro j hj
        rw [qf j (by omega) (by omega) (by omega) (by omega) (by omega) (by omega)]
        exact entry_set_ne _ _ _ _ (by omega))
    (by
      intro t s ht1 ht2 hP
      obtain ⟨p1, p2, p3, p4, p5⟩ := hP
      obtain ⟨s2, d1, d2, d3, d4⟩ := dynamics_ok T self vars s t hv hc (by omega) ht1
        (by omega)
      refine ⟨s2, d1, by omega, ?_, ?_, ?_, ?_⟩
      · rw [d4 0 (Or.inl rfl)]; exact p2
      · unfold InitRow at p3 ⊢
        rw [d4 (1 + x_start) (by omega), d4 (1 + y_start) (by omega),
          d4 (1 + psi_start) (by omega), d4 (1 + v_start) (by omega),
          d4 (1 + cte_start) (by omega), d4 (1 + epsi_start) (by omega)]
        exact p3
      · intro u hu1 hu2
        by_cases hut : u = t
        · subst hut; exact d3
        · have hu := p4 u hu1 (by omega)
          unfold DynRow at hu ⊢
          rw [d4 (1 + x_start + u) (by omega), d4 (1 + y_start + u) (by omega),
            d4 (1 + psi_start + u) (by omega), d4 (1 + v_start + u) (by omega),
            d4 (1 + cte_start + u) (by omega), d4 (1 + epsi_start + u) (by omega)]
          exact hu
      · intro j hj
        rw [d4 j (by omega)]; exact p5 j hj)
  refine ⟨s', ?_, r2, r3, r4, fun t h1 h2 => r5 t h1 h2, r6⟩
  simp only [List.length_set] at c1 c2 c3 c4 c5 c6
  unfold FG_eval.operator
  rw [store_ok fg 0 0 hfg0]
  simp only [ok_bind]
  rw [e1]
  simp only [ok_bind]
  rw [e2]
  simp only [ok_bind]
  rw [e3]
  simp only [ok_bind]
  rw [load_ok vars x_start (by omega), load_ok vars y_start (by omega),
    load_ok vars psi_start (by omega), load_ok vars v_start (by omega),
    load_ok vars cte_start (by omega), load_ok vars epsi_start (by omega)]
  simp only [ok_bind]
  simp only [store, List.length_set, if_pos c1, if_pos c2, if_pos c3, if_pos c4,
    if_pos c5, if_pos c6, pure_bind]
  rw [← r1]
  rfl

theorem costValue_eq_spec (coeffs vars : List α) :
    costValue (FG_eval.construct coeffs) vars = spec_cost vars := by
  have e : (FG_eval.construct coeffs).ref_v = 40 := by
    simp only [FG_eval.construct]; norm_num
  simp only [costValue, spec_cost, e, zero_add, Nat.add_assoc]

/-- The cost reads only the entries from `v_start` on. -/
theorem spec_cost_congr (vars vars2 : List α)
    (h : ∀ i, v_start ≤ i → entry vars2 i = entry vars i) :
    spec_cost vars2 = spec_cost vars := by
  obtain ⟨k1, k2, k3, k4, k5, k6, k7, k8, hN⟩ := layout_values
  unfold spec_cost
  congr 1
  · congr 1
    · apply Finset.sum_congr rfl
      intro t _
      rw [h (cte_start + t) (by omega), h (epsi_start + t) (by omega),
        h (v_start + t) (by omega)]
    · apply Finset.sum_congr rfl
      intro t _
      rw [h (delta_start + t) (by omega), h (a_start + t) (by omega)]
  · apply Finset.sum_congr rfl
    intro t _
    rw [h (delta_start + t) (by omega), h (a_start + t) (by omega),
      h (delta_start + (t + 1)) (by omega), h (a_start + (t + 1)) (by omega)]

theorem n_vars_eq (α : Type) [Field α] : (MPC.construct α).n_vars = 198 := rfl

theorem n_constraints_eq (α : Type) [Field α] : (MPC.construct α).n_constraints = 150 := rfl

theorem entry_replicate_zero (n i : Nat) : entry (List.replicate n (0 : α)) i = 0 := by
  unfold entry
  rw [List.getD_eq_getElem?_getD, List.getElem?_replicate]
  split_ifs <;> rfl

theorem step_index (c t : Nat) (h : 1 ≤ t) : c + t - 1 = c + (t - 1) := by omega

theorem spec_cost_zero (n : Nat) :
    spec_cost (List.replicate n (0 : α)) = (N : α) * 40 ^ 2 := by
  simp only [spec_cost, entry_replicate_zero, Finset.sum_const, Finset.card_range,
    nsmul_eq_mul]
  ring

end FormulatorFacts

/-! ## The orchestration -/

section OrchestrationFacts

variable {α : Type} [Field α]

/-- A loop that assigns `a` to the cells `lo ≤ i < hi`. -/
theorem assign_loop_ok (a : α) (lo hi : Nat) (vec : List α) (hle : lo ≤ hi)
    (h : hi ≤ vec.length) :
    ∃ vec', forRange lo hi (fun i vec => assign a i vec) vec = Except.ok vec' ∧
      vec'.length = vec.length ∧
      ∀ j, entry vec' j = if lo ≤ j ∧ j < hi then a else entry vec j := by
  obtain ⟨s', r1, r2, r3⟩ := forRange_inv
    (fun t s => s.length = vec.length ∧
      ∀ j, entry s j = if lo ≤ j ∧ j < t then a else entry vec j)
    (fun i vec => assign a i vec) lo hi vec hle
    ⟨rfl, fun j => by rw [if_neg (by omega)]⟩
    (by
      intro t s ht1 ht2 hP
      obtain ⟨p1, p2⟩ := hP
      refine ⟨s.set t a, store_ok s t a (by omega), by simpa using p1, ?_⟩
      intro j
      rw [entry_set, p2 j]
      split_ifs <;> first | rfl | omega)
  exact ⟨s', r1, r2, r3⟩

/-- A loop that assigns `a` and `c` to the cells `lo ≤ i < hi` of a pair of
bound vectors. -/
theorem assignBoth_loop_ok (a c : α) (lo hi : Nat) (b : List α × List α) (hle : lo ≤ hi)
    (h1 : hi ≤ b.1.length) (h2 : hi ≤ b.2.length) :
    ∃ b', forRange lo hi (fun i b => assignBoth a c i b) b = Except.ok b' ∧
      b'.1.length = b.1.length ∧ b'.2.length = b.2.length ∧
      (∀ j, entry b'.1 j = if lo ≤ j ∧ j < hi then a else entry b.1 j) ∧
      (∀ j, entry b'.2 j = if lo ≤ j ∧ j < hi then c else entry b.2 j) := by
  obtain ⟨s', r1, r2, r3, r4, r5⟩ := forRange_inv
    (fun t s => s.1.length = b.1.length ∧ s.2.length = b.2.length ∧
      (∀ j, entry s.1 j = if lo ≤ j ∧ j < t then a else entry b.1 j) ∧
      (∀ j, entry s.2 j = if lo ≤ j ∧ j < t then c else entry b.2 j))
    (fun i b => assignBoth a c i b) lo hi b hle
    ⟨rfl, rfl, fun j => by rw [if_neg (by omega)], fun j => by rw [if_neg (by omega)]⟩
    (by
      intro t s ht1 ht2 hP
      obtain ⟨p1, p2, p3, p4⟩ := hP
      refine ⟨(s.1.set t a, s.2.set t c), ?_, by simpa using p1, by simpa using p2, ?_, ?_⟩
      · simp only [assignBoth, store_ok s.1 t a (by omega), store_ok s.2 t c (by omega),
          ok_bind]
        rfl
      · intro j
        rw [entry_set, p3 j]
        split_ifs <;> first | rfl | omega
      · intro j
        rw [entry_set, p4 j]
        split_ifs <;> first | rfl | omega)
  exact ⟨s', r1, r2, r3, r4, r5⟩

/-- The block "sets bounds" does not fault on vectors of `n_vars` cells and
assigns every cell below `n_vars` the pair of its slice. -/
theorem setBounds_ok (b : List α × List α)
    (h1 : b.1.length = (MPC.construct α).n_vars)
    (h2 : b.2.length = (MPC.construct α).n_vars) :
    ∃ b', (MPC.construct α).setBounds b = Except.ok b' ∧
      b'.1.length = (MPC.construct α).n_vars ∧ b'.2.length = (MPC.construct α).n_vars ∧
      (∀ j, j < (MPC.construct α).n_vars → entry b'.1 j =
        if j < delta_start then -1.0e19
        else if j < a_start then -(MPC.construct α).max_steering_angle_rad
        else -(MPC.construct α).max_acc) ∧
      (∀ j, j < (MPC.construct α).n_vars → entry b'.2 j =
        if j < delta_start then 1.0e19
        else if j < a_start then (MPC.construct α).max_steering_angle_rad
        else (MPC.construct α).max_acc) := by
  obtain ⟨k1, k2, k3, k4, k5, k6, k7, k8, hN⟩ := layout_values
  have hn : (MPC.construct α).n_vars = 198 := by simp [MPC.construct, hN]
  rw [hn] at h1 h2
  obtain ⟨b1, r1, l1, l1', f1, f1'⟩ := assignBoth_loop_ok (-1.0e19 : α) 1.0e19 0 delta_start b
    (by omega) (by omega) (by omega)
  obtain ⟨b2, r2, l2, l2', f2, f2'⟩ := assignBoth_loop_ok
    (-(MPC.construct α).max_steering_angle_rad) (MPC.construct α).max_steering_angle_rad
    delta_start a_start b1 (by omega) (by omega) (by omega)
  obtain ⟨b3, r3, l3, l3', f3, f3'⟩ := assignBoth_loop_ok
    (-(MPC.construct α).max_acc) (MPC.construct α).max_acc
    a_start (MPC.construct α).n_vars b2 (by omega) (by omega) (by omega)
  refine ⟨b3, ?_, by omega, by omega, ?_, ?_⟩
  · unfold MPC.setBounds
    rw [r1]
    simp only [ok_bind]
    rw [r2]
    simp only [ok_bind]
    rw [r3]
    rfl
  · intro j hj
    rw [f3 j, f2 j, f1 j]
    split_ifs <;> first | rfl | omega
  · intro j hj
    rw [f3' j, f2' j, f1' j]
    split_ifs <;> first | rfl | omega

/-- The block "constraint bounds" does not fault on vectors of
`n_constraints` cells; afterwards both vectors hold `pinValue`. -/
theorem constraintBounds_ok (x y psi v cte epsi : α) (b : List α × List α)
    (h1 : b.1.length = (MPC.construct α).n_constraints)
    (h2 : b.2.length = (MPC.construct α).n_constraints) :
    ∃ b', (MPC.construct α).constraintBounds x y psi v cte epsi b = Except.ok b' ∧
      b'.1.length = (MPC.construct α).n_constraints ∧
      b'.2.length = (MPC.construct α).n_constraints ∧
      (∀ j, j < (MPC.construct α).n_constraints →
        entry b'.1 j = pinValue x y psi v cte epsi j) ∧
      (∀ j, j < (MPC.construct α).n_constraints →
        entry b'.2 j = pinValue x y psi v cte epsi j) := by
  obtain ⟨k1, k2, k3, k4, k5, k6, k7, k8, hN⟩ := layout_values
  have hn : (MPC.construct α).n_constraints = 150 := by simp [MPC.construct, hN]
  rw [hn] at h1 h2
  obtain ⟨b1, r1, l1, l1', f1, f1'⟩ := assignBoth_loop_ok (0 : α) 0 0
    (MPC.construct α).n_constraints b (by omega) (by omega) (by omega)
  have c1 : x_start < b1.1.length := by omega
  have c2 : y_start < b1.1.length := by omega
  have c3 : psi_start < b1.1.length := by omega
  have c4 : v_start < b1.1.length := by omega
  have c5 : cte_start < b1.1.length := by omega
  have c6 : epsi_start < b1.1.length := by omega
  have d1 : x_start < b1.2.length := by omega
  have d2 : y_start < b1.2.length := by omega
  have d3 : psi_start < b1.2.length := by omega
  have d4 : v_start < b1.2.length := by omega
  have d5 : cte_start < b1.2.length := by omega
  have d6 : epsi_start < b1.2.length := by omega
  obtain ⟨p1, p2, p3, p4, p5, p6, pf⟩ := entry_set_six b1.1 x_start y_start psi_start
    v_start cte_start epsi_start x y psi v cte epsi c1 c2 c3 c4 c5 c6
    (by omega) (by omega) (by omega) (by omega) (by omega) (by omega) (by omega)
    (by omega) (by omega) (by omega) (by omega) (by omega) (by omega) (by omega)
    (by omega)
  obtain ⟨q1, q2, q3, q4, q5, q6, qf⟩ := entry_set_six b1.2 x_start y_start psi_start
    v_start cte_start epsi_start x y psi v cte epsi d1 d2 d3 d4 d5 d6
    (by omega) (by omega) (by omega) (by omega) (by omega) (by omega) (by omega)
    (by omega) (by omega) (by omega) (by omega) (by omega) (by omega) (by omega)
    (by omega)
  apply Exists.intro
  refine ⟨?_, ?_, ?_, ?_, ?_⟩
  · unfold MPC.constraintBounds
    rw [r1]
    simp only [ok_bind]
    simp only [store, List.length_set, if_pos c1, if_pos c2, if_pos c3, if_pos c4,
      if_pos c5, if_pos c6, if_pos d1, if_pos d2, if_pos d3, if_pos d4, if_pos d5,
      if_pos d6, pure_bind]
    rfl
  · simp only [List.length_set]; omega
  · simp only [List.length_set]; omega
  · intro j hj
    unfold pinValue
    split_ifs with g1 g2 g3 g4 g5 g6
    · rw [g1]; exact p1
    · rw [g2]; exact p2
    · rw [g3]; exact p3
    · rw [g4]; exact p4
    · rw [g5]; exact p5
    · rw [g6]; exact p6
    · rw [pf j (Ne.symm g1) (Ne.symm g2) (Ne.symm g3) (Ne.symm g4) (Ne.symm g5)
        (Ne.symm g6), f1 j, if_pos ⟨Nat.zero_le _, hj⟩]
  · intro j hj
    unfold pinValue
    split_ifs with g1 g2 g3 g4 g5 g6
    · rw [g1]; exact q1
    · rw [g2]; exact q2
    · rw [g3]; exact q3
    · rw [g4]; exact q4
    · rw [g5]; exact q5
    · rw [g6]; exact q6
    · rw [qf j (Ne.symm g1) (Ne.symm g2) (Ne.symm g3) (Ne.symm g4) (Ne.symm g5)
        (Ne.symm g6), f1' j, if_pos ⟨Nat.zero_le _, hj⟩]

/-- The block "initialize vars" does not fault; the vector it fills holds the
current state at the six start offsets and zero elsewhere. -/
theorem initVars_ok (cell : Nat → α) (x y psi v cte epsi : α) :
    ∃ vars', (MPC.construct α).initVars cell x y psi v cte epsi = Except.ok vars' ∧
      vars'.length = (MPC.construct α).n_vars ∧
      ∀ j, j < (MPC.construct α).n_vars → entry vars' j = pinValue x y psi v cte epsi j := by
  obtain ⟨k1, k2, k3, k4, k5, k6, k7, k8, hN⟩ := layout_values
  have hn : (MPC.construct α).n_vars = 198 := by simp [MPC.construct, hN]
  have hl := length_Dvector cell (MPC.construct α).n_vars
  obtain ⟨b1, r1, l1, f1⟩ := assign_loop_ok (0 : α) 0 (MPC.construct α).n_vars
    (Dvector cell (MPC.construct α).n_vars) (by omega) (by omega)
  have c1 : x_start < b1.length := by omega
  have c2 : y_start < b1.length := by omega
  have c3 : psi_start < b1.length := by omega
  have c4 : v_start < b1.length := by omega
  have c5 : cte_start < b1.length := by omega
  have c6 : epsi_start < b1.length := by omega
  obtain ⟨p1, p2, p3, p4, p5, p6, pf⟩ := entry_set_six b1 x_start y_start psi_start
    v_start cte_start epsi_start x y psi v cte epsi c1 c2 c3 c4 c5 c6
    (by omega) (by omega) (by omega) (by omega) (by omega) (by omega) (by omega)
    (by omega) (by omega) (by omega) (by omega) (by omega) (by omega) (by omega)
    (by omega)
  apply Exists.intro
  refine ⟨?_, ?_, ?_⟩
  · unfold MPC.initVars
    simp only []
    rw [r1]
    simp only [ok_bind]
    simp only [store, List.length_set, if_pos c1, if_pos c2, if_pos c3, if_pos c4,
      if_pos c5, if_pos c6, pure_bind]
    rfl
  · simp only [List.length_set]; omega
  · intro j hj
    unfold pinValue
    split_ifs with g1 g2 g3 g4 g5 g6
    · rw [g1]; exact p1
    · rw [g2]; exact p2
    · rw [g3]; exact p3
    · rw [g4]; exact p4
    · rw [g5]; exact p5
    · rw [g6]; exact p6
    · rw [pf j (Ne.symm g1) (Ne.symm g2) (Ne.symm g3) (Ne.symm g4) (Ne.symm g5)
        (Ne.symm g6), f1 j, if_pos ⟨Nat.zero_le _, hj⟩]

/-- The part of `MPC::Solve` before the solver call does not fault on a state of
at least six entries; it hands over the outer vector `vars` as constructed, the
variable bounds of the three slices and the constraint bounds `pinValue`. -/
theorem prepare_ok (cell : Nat → Nat → α) (state : List α) (hs : 6 ≤ state.length) :
    ∃ call, (MPC.construct α).prepare cell state = Except.ok call ∧
      call.options = MPC.options ∧
      call.vars = Dvector (cell 0) (MPC.construct α).n_vars ∧
      call.vars_lowerbound.length = (MPC.construct α).n_vars ∧
      call.vars_upperbound.length = (MPC.construct α).n_vars ∧
      call.constraints_lowerbound.length = (MPC.construct α).n_constraints ∧
      call.constraints_upperbound.length = (MPC.construct α).n_constraints ∧
      (∀ j, j < (MPC.construct α).n_vars → entry call.vars_lowerbound j =
        if j < delta_start then -1.0e19
        else if j < a_start then -(MPC.construct α).max_steering_angle_rad
        else -(MPC.construct α).max_acc) ∧
      (∀ j, j < (MPC.construct α).n_vars → entry call.vars_upperbound j =
        if j < delta_start then 1.0e19
        else if j < a_start then (MPC.construct α).max_steering_angle_rad
        else (MPC.construct α).max_acc) ∧
      (∀ j, j < (MPC.construct α).n_constraints → entry call.constraints_lowerbound j =
        pinValue (entry state 0) (entry state 1) (entry state 2) (entry state 3)
          (entry state 4) (entry state 5) j) ∧
      (∀ j, j < (MPC.construct α).n_constraints → entry call.constraints_upperbound j =
        pinValue (entry state 0) (entry state 1) (entry state 2) (entry state 3)
          (entry state 4) (entry state 5) j) := by
  obtain ⟨iv, hiv, _, _⟩ := initVars_ok (cell 1) (entry state 0) (entry state 1)
    (entry state 2) (entry state 3) (entry state 4) (entry state 5)
  obtain ⟨⟨lo, up⟩, hb, bl1, bl2, bf1, bf2⟩ := setBounds_ok
    (Dvector (cell 2) (MPC.construct α).n_vars, Dvector (cell 3) (MPC.construct α).n_vars)
    (length_Dvector _ _) (length_Dvector _ _)
  obtain ⟨⟨clo, cup⟩, hc, cl1, cl2, cf1, cf2⟩ := constraintBounds_ok (entry state 0)
    (entry state 1) (entry state 2) (entry state 3) (entry state 4) (entry state 5)
    (Dvector (cell 4) (MPC.construct α).n_constraints,
      Dvector (cell 5) (MPC.construct α).n_constraints)
    (length_Dvector _ _) (length_Dvector _ _)
  refine ⟨{ options := MPC.options
            vars := Dvector (cell 0) (MPC.construct α).n_vars
            vars_lowerbound := lo
            vars_upperbound := up
            constraints_lowerbound := clo
            constraints_upperbound := cup }, ?_, rfl, rfl, bl1, bl2, cl1, cl2, bf1, bf2,
    cf1, cf2⟩
  unfold MPC.prepare
  rw [load_ok state 0 (by omega), load_ok state 1 (by omega), load_ok state 2 (by omega),
    load_ok state 3 (by omega), load_ok state 4 (by omega), load_ok state 5 (by omega)]
  simp only [ok_bind]
  rw [hiv]
  simp only [ok_bind]
  rw [hb]
  simp only [ok_bind]
  rw [hc]
  rfl

theorem pinValue_starts (x y psi v cte epsi : α) :
    pinValue x y psi v cte epsi x_start = x ∧ pinValue x y psi v cte epsi y_start = y ∧
    pinValue x y psi v cte epsi psi_start = psi ∧ pinValue x y psi v cte epsi v_start = v ∧
    pinValue x y psi v cte epsi cte_start = cte ∧
    pinValue x y psi v cte epsi epsi_start = epsi := by
  obtain ⟨k1, k2, k3, k4, k5, k6, k7, k8, hN⟩ := layout_values
  simp [pinValue, k1, k2, k3, k4, k5, k6]

theorem pinValue_other (x y psi v cte epsi : α) (j : Nat) (h1 : j ≠ x_start)
    (h2 : j ≠ y_start) (h3 : j ≠ psi_start) (h4 : j ≠ v_start) (h5 : j ≠ cte_start)
    (h6 : j ≠ epsi_start) : pinValue x y psi v cte epsi j = 0 := by
  simp [pinValue, h1, h2, h3, h4, h5, h6]

/-- The function `MPC::Solve` does not fault when the state has six entries and
the solver returns a solution of `n_vars` entries; it returns the entries
`delta_start` and `a_start` of that solution. -/
theorem Solve_ok (T : Trig α) (ipopt_solve : Solver α) (cell : Nat → Nat → α)
    (state coeffs : List α) (call : SolverCall α)
    (hcall : (MPC.construct α).prepare cell state = Except.ok call)
    (hx : a_start < (ipopt_solve call.options call.vars call.vars_lowerbound
        call.vars_upperbound call.constraints_lowerbound call.constraints_upperbound
        (fun fg vars => (FG_eval.construct coeffs).operator T fg vars)).x.length) :
    (MPC.construct α).Solve T ipopt_solve cell state coeffs =
      Except.ok
        [entry (ipopt_solve call.options call.vars call.vars_lowerbound
            call.vars_upperbound call.constraints_lowerbound call.constraints_upperbound
            (fun fg vars => (FG_eval.construct coeffs).operator T fg vars)).x delta_start,
         entry (ipopt_solve call.options call.vars call.vars_lowerbound
            call.vars_upperbound call.constraints_lowerbound call.constraints_upperbound
            (fun fg vars => (FG_eval.construct coeffs).operator T fg vars)).x a_start] := by
  obtain ⟨k1, k2, k3, k4, k5, k6, k7, k8, hN⟩ := layout_values
  unfold MPC.Solve
  rw [hcall]
  simp only [ok_bind]
  rw [load_ok _ delta_start (by omega), load_ok _ a_start hx]
  simp only [ok_bind]
  rfl

end OrchestrationFacts

/-! ## The cost over an ordered field -/

section CostOrder

variable {α : Type} [LinearOrderedField α]

theorem spec_cost_nonneg (vars : List α) : 0 ≤ spec_cost vars := by
  unfold spec_cost
  positivity

/-- The cost vanishes exactly at zero tracking errors, speed 40 and zero
actuations. -/
theorem spec_cost_eq_zero_iff (vars : List α) :
    spec_cost vars = 0 ↔
      (∀ t, t < N → entry vars (cte_start + t) = 0 ∧ entry vars (epsi_start + t) = 0 ∧
        entry vars (v_start + t) = 40) ∧
      (∀ t, t < N - 1 → entry vars (delta_start + t) = 0 ∧ entry vars (a_start + t) = 0) := by
  have hA : 0 ≤ ∑ t in Finset.range N,
      (entry vars (cte_start + t) ^ 2 + entry vars (epsi_start + t) ^ 2
        + (entry vars (v_start + t) - 40) ^ 2) := by positivity
  have hB : 0 ≤ ∑ t in Finset.range (N - 1),
      (entry vars (delta_start + t) ^ 2 + entry vars (a_start + t) ^ 2) := by positivity
  have hC : 0 ≤ ∑ t in Finset.range (N - 2),
      ((entry vars (delta_start + (t + 1)) - entry vars (delta_start + t)) ^ 2
        + (entry vars (a_start + (t + 1)) - entry vars (a_start + t)) ^ 2) := by positivity
  have eA : (∑ t in Finset.range N,
      (entry vars (cte_start + t) ^ 2 + entry vars (epsi_start + t) ^ 2
        + (entry vars (v_start + t) - 40) ^ 2)) = 0 ↔
      ∀ t, t < N → entry vars (cte_start + t) = 0 ∧ entry vars (epsi_start + t) = 0 ∧
        entry vars (v_start + t) = 40 := by
    rw [Finset.sum_eq_zero_iff_of_nonneg (fun t _ => by positivity)]
    constructor
    · intro h t ht
      have h1 := h t (Finset.mem_range.mpr ht)
      have c1 : 0 ≤ entry vars (cte_start + t) ^ 2 := sq_nonneg _
      have c2 : 0 ≤ entry vars (epsi_start + t) ^ 2 := sq_nonneg _
      have c3 : 0 ≤ (entry vars (v_start + t) - 40) ^ 2 := sq_nonneg _
      have z1 : entry vars (cte_start + t) ^ 2 = 0 := by linarith
      have z2 : entry vars (epsi_start + t) ^ 2 = 0 := by linarith
      have z3 : (entry vars (v_start + t) - 40) ^ 2 = 0 := by linarith
      exact ⟨pow_eq_zero_iff (two_ne_zero) |>.mp z1, pow_eq_zero_iff (two_ne_zero) |>.mp z2,
        sub_eq_zero.mp (pow_eq_zero_iff (two_ne_zero) |>.mp z3)⟩
    · intro h t ht
      obtain ⟨z1, z2, z3⟩ := h t (Finset.mem_range.mp ht)
      rw [z1, z2, z3]
      norm_num
  have eB : (∑ t in Finset.range (N - 1),
      (entry vars (delta_start + t) ^ 2 + entry vars (a_start + t) ^ 2)) = 0 ↔
      ∀ t, t < N - 1 → entry vars (delta_start + t) = 0 ∧ entry vars (a_start + t) = 0 := by
    rw [Finset.sum_eq_zero_iff_of_nonneg (fun t _ => by positivity)]
    constructor
    · intro h t ht
      have h1 := h t (Finset.mem_range.mpr ht)
      have c1 : 0 ≤ entry vars (delta_start + t) ^ 2 := sq_nonneg _
      have c2 : 0 ≤ entry vars (a_start + t) ^ 2 := sq_nonneg _
      have z1 : entry vars (delta_start + t) ^ 2 = 0 := by linarith
      have z2 : entry vars (a_start + t) ^ 2 = 0 := by linarith
      exact ⟨pow_eq_zero_iff (two_ne_zero) |>.mp z1, pow_eq_zero_iff (two_ne_zero) |>.mp z2⟩
    · intro h t ht
      obtain ⟨z1, z2⟩ := h t (Finset.mem_range.mp ht)
      rw [z1, z2]
      norm_num
  unfold spec_cost
  constructor
  · intro h
    exact ⟨eA.mp (by linarith), eB.mp (by linarith)⟩
  · intro h
    have zA := eA.mpr h.1
    have zB := eB.mpr h.2
    have zC : (∑ t in Finset.range (N - 2),
        ((entry vars (delta_start + (t + 1)) - entry vars (delta_start + t)) ^ 2
          + (entry vars (a_start + (t + 1)) - entry vars (a_start + t)) ^ 2)) = 0 := by
      apply Finset.sum_eq_zero
      intro t ht
      have ht2 := Finset.mem_range.mp ht
      obtain ⟨z1, z2⟩ := h.2 t (by omega)
      obtain ⟨z3, z4⟩ := h.2 (t + 1) (by omega)
      rw [z1, z2, z3, z4]
      norm_num
    rw [zA, zB, zC]
    norm_num

/-- Raising the absolute value of one `cte` or `epsi` entry, all other entries
kept, raises the cost strictly. -/
theorem spec_cost_lt (u w : List α) (k t : Nat) (ht : t < N)
    (hk : k = cte_start + t ∨ k = epsi_start + t)
    (hagree : ∀ i, i ≠ k → entry u i = entry w i)
    (habs : |entry u k| < |entry w k|) : spec_cost u < spec_cost w := by
  obtain ⟨k1, k2, k3, k4, k5, k6, k7, k8, hN⟩ := layout_values
  have hsq : entry u k ^ 2 < entry w k ^ 2 := sq_lt_sq.mpr habs
  have hle : ∀ i, entry u i ^ 2 ≤ entry w i ^ 2 := by
    intro i
    by_cases hi : i = k
    · rw [hi]; exact le_of_lt hsq
    · rw [hagree i hi]
  have hterm : ∀ s, s < N →
      entry u (cte_start + s) ^ 2 + entry u (epsi_start + s) ^ 2
          + (entry u (v_start + s) - 40) ^ 2
        ≤ entry w (cte_start + s) ^ 2 + entry w (epsi_start + s) ^ 2
          + (entry w (v_start + s) - 40) ^ 2 := by
    intro s hs
    rw [hagree (v_start + s) (by omega)]
    have := hle (cte_start + s)
    have := hle (epsi_start + s)
    linarith
  have hstrict :
      entry u (cte_start + t) ^ 2 + entry u (epsi_start + t) ^ 2
          + (entry u (v_start + t) - 40) ^ 2
        < entry w (cte_start + t) ^ 2 + entry w (epsi_start + t) ^ 2
          + (entry w (v_start + t) - 40) ^ 2 := by
    rw [hagree (v_start + t) (by omega)]
    rcases hk with hk | hk
    · rw [hk] at hsq
      have := hle (epsi_start + t)
      linarith
    · rw [hk] at hsq
      have := hle (cte_start + t)
      linarith
  have hA := Finset.sum_lt_sum (fun s hs => hterm s (Finset.mem_range.mp hs))
    ⟨t, Finset.mem_range.mpr ht, hstrict⟩
  have hB : (∑ s in Finset.range (N - 1),
      (entry u (delta_start + s) ^ 2 + entry u (a_start + s) ^ 2))
      = ∑ s in Finset.range (N - 1),
        (entry w (delta_start + s) ^ 2 + entry w (a_start + s) ^ 2) := by
    apply Finset.sum_congr rfl
    intro s _
    rw [hagree (delta_start + s) (by omega), hagree (a_start + s) (by omega)]
  have hC : (∑ s in Finset.range (N - 2),
      ((entry u (delta_start + (s + 1)) - entry u (delta_start + s)) ^ 2
        + (entry u (a_start + (s + 1)) - entry u (a_start + s)) ^ 2))
      = ∑ s in Finset.range (N - 2),
        ((entry w (delta_start + (s + 1)) - entry w (delta_start + s)) ^ 2
          + (entry w (a_start + (s + 1)) - entry w (a_start + s)) ^ 2) := by
    apply Finset.sum_congr rfl
    intro s _
    rw [hagree (delta_start + s) (by omega), hagree (a_start + s) (by omega),
      hagree (delta_start + (s + 1)) (by omega), hagree (a_start + (s + 1)) (by omega)]
  unfold spec_cost
  rw [hB, hC]
  linarith

/-- In exact arithmetic over an ordered field: for decision vectors `u`, `w`
of length `n_vars` that agree at every index except one index `k` of the `cte`
or the `epsi` slice, if `|w[k]|` is strictly larger than `|u[k]|` then the cost
for `w` is strictly larger than the cost for `u`. -/
theorem cost_monotone_exact {α : Type} [LinearOrderedField α] (T : Trig α)
    (coeffs u w fg : List α) (k t : Nat)
    (hu : u.length = (MPC.construct α).n_vars)
    (hw : w.length = (MPC.construct α).n_vars)
    (hfg : fg.length = (MPC.construct α).n_constraints + 1)
    (hc : 2 ≤ coeffs.length) (ht : t < N)
    (hk : k = cte_start + t ∨ k = epsi_start + t)
    (hagree : ∀ i, i ≠ k → entry u i = entry w i)
    (habs : |entry u k| < |entry w k|) :
    ∃ fu fw, (FG_eval.construct coeffs).operator T fg u = Except.ok fu ∧
      (FG_eval.construct coeffs).operator T fg w = Except.ok fw ∧
      entry fu 0 < entry fw 0 := by
  rw [n_vars_eq] at hu hw
  rw [n_constraints_eq] at hfg
  obtain ⟨fu, r1, _, r3, _⟩ := operator_ok T (FG_eval.construct coeffs) fg u
    (by omega) hc (by omega)
  obtain ⟨fw, q1, _, q3, _⟩ := operator_ok T (FG_eval.construct coeffs) fg w
    (by omega) hc (by omega)
  refine ⟨fu, fw, r1, q1, ?_⟩
  rw [r3, q3, costValue_eq_spec, costValue_eq_spec]
  exact spec_cost_lt u w k t ht hk hagree habs

end CostOrder

/-! ## Feasible decision vectors -/

section Trajectory

variable {α : Type} [LinearOrderedField α]

/-- Two vectors of the same length with the same entries are equal. -/
theorem eq_of_entries (u w : List α) (n : Nat) (h1 : u.length = n) (h2 : w.length = n)
    (h : ∀ i, i < n → entry u i = entry w i) : u = w := by
  apply List.ext_getElem (by rw [h1, h2])
  intro i hi1 hi2
  have e := h i (by omega)
  simp only [entry, List.getD_eq_getElem?_getD, List.getElem?_eq_getElem hi1,
    List.getElem?_eq_getElem hi2, Option.getD_some] at e
  exact e

/-- The rollout reads only the `delta` and `a` slices of the decision vector. -/
theorem rollout_congr (T : Trig α) (self : FG_eval α) (s0 : VehicleState α)
    (u w : List α) (h : ∀ i, delta_start ≤ i → i < 198 → entry u i = entry w i) :
    ∀ t, t < N → rollout T self s0 u t = rollout T self s0 w t := by
  obtain ⟨k1, k2, k3, k4, k5, k6, k7, k8, hN⟩ := layout_values
  intro t
  induction t with
  | zero => intro _; rfl
  | succ t ih =>
    intro ht
    simp only [rollout]
    rw [ih (by omega), h (delta_start + t) (by omega) (by omega),
      h (a_start + t) (by omega) (by omega)]

/-- A decision vector whose constraint values lie within bounds that are
`pinValue` of the current state holds, at every step, the rollout of the model
from the current state. -/
theorem rollout_of_feasible (T : Trig α) (self : FG_eval α) (state vars fg' lo up : List α)
    (hI : InitRow vars fg') (hD : ∀ t, 1 ≤ t → t < N → DynRow T self vars fg' t)
    (hlo : ∀ j, j < 150 → entry lo j = pinValue (entry state 0) (entry state 1)
      (entry state 2) (entry state 3) (entry state 4) (entry state 5) j)
    (hup : ∀ j, j < 150 → entry up j = pinValue (entry state 0) (entry state 1)
      (entry state 2) (entry state 3) (entry state 4) (entry state 5) j)
    (hfeas : ∀ i, i < 150 → entry lo i ≤ entry fg' (1 + i) ∧ entry fg' (1 + i) ≤ entry up i) :
    ∀ t, t < N → stateAt vars t = rollout T self (currentState state) vars t := by
  obtain ⟨k1, k2, k3, k4, k5, k6, k7, k8, hN⟩ := layout_values
  have hval : ∀ i, i < 150 → entry fg' (1 + i) = pinValue (entry state 0) (entry state 1)
      (entry state 2) (entry state 3) (entry state 4) (entry state 5) i := by
    intro i hi
    have f := hfeas i hi
    rw [hlo i hi] at f
    rw [hup i hi] at f
    exact le_antisymm f.2 f.1
  have hzero : ∀ c t, 1 ≤ t → t < N → (c = x_start ∨ c = y_start ∨ c = psi_start ∨
      c = v_start ∨ c = cte_start ∨ c = epsi_start) → entry fg' (1 + c + t) = 0 := by
    intro c t h1 h2 hc
    rw [Nat.add_assoc, hval (c + t) (by omega)]
    exact pinValue_other _ _ _ _ _ _ _ (by omega) (by omega) (by omega) (by omega)
      (by omega) (by omega)
  intro t
  induction t with
  | zero =>
    intro _
    obtain ⟨i1, i2, i3, i4, i5, i6⟩ := hI
    obtain ⟨p1, p2, p3, p4, p5, p6⟩ := pinValue_starts (entry state 0) (entry state 1)
      (entry state 2) (entry state 3) (entry state 4) (entry state 5)
    have e1 := hval x_start (by omega)
    have e2 := hval y_start (by omega)
    have e3 := hval psi_start (by omega)
    have e4 := hval v_start (by omega)
    have e5 := hval cte_start (by omega)
    have e6 := hval epsi_start (by omega)
    rw [i1, p1] at e1
    rw [i2, p2] at e2
    rw [i3, p3] at e3
    rw [i4, p4] at e4
    rw [i5, p5] at e5
    rw [i6, p6] at e6
    simp only [stateAt, rollout, currentState, Nat.add_zero, e1, e2, e3, e4, e5, e6]
  | succ t ih =>
    intro ht
    have ih2 := ih (by omega)
    obtain ⟨d1, d2, d3, d4, d5, d6⟩ := hD (t + 1) (by omega) ht
    rw [hzero x_start (t + 1) (by omega) ht (by simp)] at d1
    rw [hzero y_start (t + 1) (by omega) ht (by simp)] at d2
    rw [hzero psi_start (t + 1) (by omega) ht (by simp)] at d3
    rw [hzero v_start (t + 1) (by omega) ht (by simp)] at d4
    rw [hzero cte_start (t + 1) (by omega) ht (by simp)] at d5
    rw [hzero epsi_start (t + 1) (by omega) ht (by simp)] at d6
    simp only [Nat.add_succ_sub_one, ← Nat.add_assoc] at d1 d2 d3 d4 d5 d6
    simp only [rollout]
    rw [← ih2]
    simp only [stateAt, model_predict, ← Nat.add_assoc]
    rw [VehicleState.mk.injEq]
    exact ⟨(sub_eq_zero.mp d1.symm), (sub_eq_zero.mp d2.symm), (sub_eq_zero.mp d3.symm),
      (sub_eq_zero.mp d4.symm), (sub_eq_zero.mp d5.symm), (sub_eq_zero.mp d6.symm)⟩

/-- Over the reals, with `coeffs = [0, 0]`, every constraint value of the
all-zero decision vector is zero. -/
theorem zero_vector_constraints :
    ∃ fg', (FG_eval.construct [(0 : ℝ), 0]).operator
        (Trig.mk Real.cos Real.sin Real.arctan) (List.replicate 151 0)
        (List.replicate 198 0) = Except.ok fg' ∧
      ∀ i, i < 150 → entry fg' (1 + i) = 0 := by
  obtain ⟨k1, k2, k3, k4, k5, k6, k7, k8, hN⟩ := layout_values
  obtain ⟨fg0, r0, _, _, r4, r5, _⟩ := operator_ok (Trig.mk Real.cos Real.sin Real.arctan)
    (FG_eval.construct [(0 : ℝ), 0]) (List.replicate 151 0) (List.replicate 198 0)
    (by rw [List.length_replicate]) (by decide) (by rw [List.length_replicate])
  have hz : ∀ j, entry (List.replicate 198 (0 : ℝ)) j = 0 := entry_replicate_zero 198
  refine ⟨fg0, r0, ?_⟩
  intro i hi
  obtain ⟨c, t, hc, ht, rfl⟩ : ∃ c t, c < 6 ∧ t < 25 ∧ i = 25 * c + t :=
    ⟨i / 25, i % 25, by omega, by omega, by omega⟩
  obtain ⟨i1, i2, i3, i4, i5, i6⟩ := r4
  by_cases t0 : t = 0
  · subst t0
    interval_cases c
    · rw [show 1 + (25 * 0 + 0) = 1 + x_start from by omega, i1, hz]
    · rw [show 1 + (25 * 1 + 0) = 1 + y_start from by omega, i2, hz]
    · rw [show 1 + (25 * 2 + 0) = 1 + psi_start from by omega, i3, hz]
    · rw [show 1 + (25 * 3 + 0) = 1 + v_start from by omega, i4, hz]
    · rw [show 1 + (25 * 4 + 0) = 1 + cte_start from by omega, i5, hz]
    · rw [show 1 + (25 * 5 + 0) = 1 + epsi_start from by omega, i6, hz]
  · obtain ⟨d1, d2, d3, d4, d5, d6⟩ := r5 t (by omega) (by omega)
    simp only [hz, FG_eval.construct] at d1 d2 d3 d4 d5 d6
    interval_cases c
    · rw [show 1 + (25 * 0 + t) = 1 + x_start + t from by omega, d1]; simp
    · rw [show 1 + (25 * 1 + t) = 1 + y_start + t from by omega, d2]; simp
    · rw [show 1 + (25 * 2 + t) = 1 + psi_start + t from by omega, d3]; simp
    · rw [show 1 + (25 * 3 + t) = 1 + v_start + t from by omega, d4]; simp
    · rw [show 1 + (25 * 4 + t) = 1 + cte_start + t from by omega, d5]; simp [entry]
    · rw [show 1 + (25 * 5 + t) = 1 + epsi_start + t from by omega, d6]; simp [entry]

end Trajectory

/-! ## The access log of the evaluator -/

section LogFacts

theorem extend_nil (tr : Trace) : tr.extend [] [] = tr := by
  cases tr
  simp [Trace.extend]

theorem extend_extend (tr : Trace) (r1 w1 r2 w2 : List Nat) :
    (tr.extend r1 w1).extend r2 w2 = tr.extend (r1 ++ r2) (w1 ++ w2) := by
  simp [Trace.extend]

theorem readVars_run {α : Type} (vars : List α) (i : Nat) (tr : Trace) :
    (readVars vars i).run tr = load vars i >>= fun v => pure (v, tr.extend [i] []) := rfl

theorem writeFg_run {α : Type} (fg : List α) (i : Nat) (v : α) (tr : Trace) :
    (writeFg fg i v).run tr = store fg i v >>= fun fg' => pure (fg', tr.extend [] [i]) := rfl

theorem unlogged_run {β : Type} (m : Exec β) (tr : Trace) :
    (unlogged m).run tr = m >>= fun a => pure (a, tr) := rfl

theorem Tracks_bind {β γ : Type} (m : Logged β) (m0 : Exec β) (f : β → Logged γ)
    (f0 : β → Exec γ) (r1 w1 r2 w2 : List Nat) (h1 : Tracks m m0 r1 w1)
    (h2 : ∀ a, Tracks (f a) (f0 a) r2 w2) :
    Tracks (m >>= f) (m0 >>= f0) (r1 ++ r2) (w1 ++ w2) := by
  intro tr
  rw [StateT.run_bind, h1 tr]
  cases m0 with
  | error e => rfl
  | ok a =>
    rw [ok_bind, ok_bind]
    simp only [pure, Except.pure]
    rw [ok_bind, h2 a (tr.extend r1 w1), extend_extend]
    rfl

theorem Tracks_forLoop {σ : Type} (bodyL : Nat → σ → Logged σ) (body : Nat → σ → Exec σ)
    (R W : Nat → List Nat) (h : ∀ t s, Tracks (bodyL t s) (body t s) (R t) (W t)) :
    ∀ k t s, Tracks (forLoopL bodyL t k s) (forLoop body t k s) (loopLog R t k)
      (loopLog W t k) := by
  intro k
  induction k with
  | zero =>
    intro t s tr
    simp only [forLoopL, forLoop, loopLog, extend_nil, StateT.run_pure, pure_bind]
  | succ k ih =>
    intro t s
    exact Tracks_bind _ _ _ _ _ _ _ _ (h t s) (fun s' => ih (t + 1) s')

theorem forRangeL_run {σ : Type} (bodyL : Nat → σ → Logged σ) (body : Nat → σ → Exec σ)
    (R W : Nat → List Nat) (h : ∀ t s, Tracks (bodyL t s) (body t s) (R t) (W t))
    (lo hi : Nat) (s : σ) (tr : Trace) :
    (forRangeL lo hi bodyL s).run tr =
      forRange lo hi body s >>= fun a =>
        pure (a, tr.extend (loopLog R lo (hi - lo)) (loopLog W lo (hi - lo))) :=
  Tracks_forLoop bodyL body R W h (hi - lo) lo s tr

end LogFacts

section LoggedFormulatorFacts

variable {α : Type} [Field α]

theorem dynamicsL_tracks (T : Trig α) (self : FG_eval α) (vars : List α) (t : Nat)
    (fg : List α) :
    Tracks (self.dynamicsL T vars t fg) (self.dynamics T vars t fg) (dynamicsReads t)
      (dynamicsWrites t) := by
  intro tr
  simp only [FG_eval.dynamicsL, FG_eval.dynamics, StateT.run_bind, readVars_run,
    writeFg_run, unlogged_run, StateT.run_pure, bind_assoc, pure_bind, extend_extend,
    dynamicsReads, dynamicsWrites, List.nil_append, List.cons_append, List.append_nil]

theorem costRefL_tracks (self : FG_eval α) (vars : List α) (t : Nat) (fg : List α) :
    Tracks (self.costRefL vars t fg) (self.costRef vars t fg)
      [cte_start + t, epsi_start + t, v_start + t] [0, 0, 0] := by
  intro tr
  simp only [FG_eval.costRefL, FG_eval.costRef, addCostL, addCost, StateT.run_bind,
    readVars_run, writeFg_run, unlogged_run, StateT.run_pure, bind_assoc, pure_bind,
    extend_extend, List.nil_append, List.cons_append, List.append_nil]

theorem costActL_tracks (vars : List α) (t : Nat) (fg : List α) :
    Tracks (FG_eval.costActL vars t fg) (FG_eval.costAct vars t fg)
      [delta_start + t, a_start + t] [0, 0] := by
  intro tr
  simp only [FG_eval.costActL, FG_eval.costAct, addCostL, addCost, StateT.run_bind,
    readVars_run, writeFg_run, unlogged_run, StateT.run_pure, bind_assoc, pure_bind,
    extend_extend, List.nil_append, List.cons_append, List.append_nil]

theorem costGapL_tracks (vars : List α) (t : Nat) (fg : List α) :
    Tracks (FG_eval.costGapL vars t fg) (FG_eval.costGap vars t fg)
      [delta_start + t + 1, delta_start + t, a_start + t + 1, a_start + t] [0, 0] := by
  intro tr
  simp only [FG_eval.costGapL, FG_eval.costGap, addCostL, addCost, StateT.run_bind,
    readVars_run, writeFg_run, unlogged_run, StateT.run_pure, bind_assoc, pure_bind,
    extend_extend, List.nil_append, List.cons_append, List.append_nil]

/-- The logged evaluator runs as the evaluator does and enters `operatorReads`
and `costWrites ++ constraintWrites` into the log. -/
theorem operatorL_tracks (T : Trig α) (self : FG_eval α) (fg vars : List α) :
    Tracks (self.operatorL T fg vars) (self.operator T fg vars) operatorReads
      (costWrites ++ constraintWrites) := by
  intro tr
  simp only [FG_eval.operatorL, FG_eval.operator, StateT.run_bind,
    forRangeL_run _ _ _ _ (costRefL_tracks self vars),
    forRangeL_run _ _ _ _ (costActL_tracks vars),
    forRangeL_run _ _ _ _ (costGapL_tracks vars),
    forRangeL_run _ _ _ _ (dynamicsL_tracks T self vars),
    readVars_run, writeFg_run, StateT.run_pure, bind_assoc, pure_bind,
    extend_extend, operatorReads, costWrites, constraintWrites,
    List.nil_append, List.cons_append, List.append_nil, List.append_assoc]

end LoggedFormulatorFacts

/-! ## The log as a list of indices -/

section LogLists

set_option maxRecDepth 100000 in
theorem reads_in_bounds : ∀ i ∈ operatorReads, i < 198 := by decide

set_option maxRecDepth 100000 in
theorem writes_in_bounds : ∀ j ∈ costWrites ++ constraintWrites, j ≤ 150 := by decide

set_option maxRecDepth 100000 in
theorem costWrites_zero : ∀ j ∈ costWrites, j = 0 := by decide

set_option maxRecDepth 100000 in
theorem constraintWrites_facts :
    constraintWrites.length = 150 ∧ constraintWrites.Nodup ∧ 0 ∉ constraintWrites := by
  decide

set_option maxRecDepth 100000 in
theorem writes_count :
    ∀ j, j < 151 → 1 ≤ j → (costWrites ++ constraintWrites).count j = 1 := by
  decide

end LogLists

/-! ## Rounding to binary64 -/

section Rounding

theorem roundHalfEven_bounds (x : ℚ) : ⌊x⌋ ≤ roundHalfEven x ∧ roundHalfEven x ≤ ⌊x⌋ + 1 := by
  unfold roundHalfEven
  split_ifs <;> constructor <;> omega

theorem roundHalfEven_intCast (n : ℤ) : roundHalfEven (n : ℚ) = n := by
  unfold roundHalfEven
  rw [Int.floor_intCast]
  norm_num

theorem roundHalfEven_mono (x y : ℚ) (h : x ≤ y) : roundHalfEven x ≤ roundHalfEven y := by
  have hf : ⌊x⌋ ≤ ⌊y⌋ := Int.floor_le_floor h
  by_cases hlt : ⌊x⌋ < ⌊y⌋
  · have := (roundHalfEven_bounds x).2
    have := (roundHalfEven_bounds y).1
    omega
  · have he : ⌊x⌋ = ⌊y⌋ := by omega
    unfold roundHalfEven
    rw [he]
    split_ifs <;> first | omega | linarith

theorem roundHalfEven_neg (x : ℚ) : roundHalfEven (-x) = -roundHalfEven x := by
  by_cases hx : (⌊x⌋ : ℚ) = x
  · rw [← hx, ← Int.cast_neg, roundHalfEven_intCast, roundHalfEven_intCast]
  · have h1 : (⌊x⌋ : ℚ) < x := lt_of_le_of_ne (Int.floor_le x) hx
    have h2 : x < ⌊x⌋ + 1 := Int.lt_floor_add_one x
    have hfl : ⌊-x⌋ = -⌊x⌋ - 1 := by
      rw [Int.floor_eq_iff]
      push_cast
      constructor <;> linarith
    unfold roundHalfEven
    rw [hfl]
    push_cast
    split_ifs <;> first | omega | linarith

theorem round64_zero : round64 0 = 0 := by simp [round64]

theorem round64_neg (x : ℚ) : round64 (-x) = -round64 x := by
  unfold round64
  by_cases h : x = 0
  · simp [h]
  · rw [if_neg h, if_neg (neg_ne_zero.mpr h), abs_neg, neg_div, roundHalfEven_neg]
    push_cast
    ring

theorem log_spec (x : ℚ) (hx : 0 < x) :
    (2 : ℚ) ^ Int.log 2 x ≤ x ∧ x < (2 : ℚ) ^ (Int.log 2 x + 1) := by
  have h1 := @Int.zpow_log_le_self ℚ _ _ 2 x (by norm_num) hx
  have h2 := @Int.lt_zpow_succ_log_self ℚ _ _ 2 (by norm_num) x
  simp only [Nat.cast_ofNat] at h1 h2
  exact ⟨h1, h2⟩

/-- A positive number rounds into the closed binade it lies in. -/
theorem round64_pos_bounds (x : ℚ) (hx : 0 < x) :
    (2 : ℚ) ^ Int.log 2 x ≤ round64 x ∧ round64 x ≤ (2 : ℚ) ^ (Int.log 2 x + 1) := by
  obtain ⟨h1, h2⟩ := log_spec x hx
  have hs : (0 : ℚ) < 2 ^ (Int.log 2 x - 52) := by positivity
  unfold round64
  rw [if_neg (ne_of_gt hx), abs_of_pos hx]
  have e1 : (2 : ℚ) ^ Int.log 2 x = ((2 ^ 52 : ℤ) : ℚ) * 2 ^ (Int.log 2 x - 52) := by
    rw [zpow_sub₀ (by norm_num)]
    push_cast
    field_simp
    ring
  have e2 : (2 : ℚ) ^ (Int.log 2 x + 1) = ((2 ^ 53 : ℤ) : ℚ) * 2 ^ (Int.log 2 x - 52) := by
    rw [zpow_sub₀ (by norm_num), zpow_add₀ (by norm_num)]
    push_cast
    field_simp
    ring
  have l1 : ((2 ^ 52 : ℤ) : ℚ) ≤ x / 2 ^ (Int.log 2 x - 52) := by
    rw [le_div_iff₀ hs, ← e1]; exact h1
  have l2 : x / 2 ^ (Int.log 2 x - 52) ≤ ((2 ^ 53 : ℤ) : ℚ) := by
    rw [div_le_iff₀ hs, ← e2]; exact le_of_lt h2
  have m1 := roundHalfEven_mono _ _ l1
  have m2 := roundHalfEven_mono _ _ l2
  rw [roundHalfEven_intCast] at m1 m2
  constructor
  · rw [e1]
    exact mul_le_mul_of_nonneg_right (by exact_mod_cast m1) (le_of_lt hs)
  · rw [e2]
    exact mul_le_mul_of_nonneg_right (by exact_mod_cast m2) (le_of_lt hs)

theorem round64_pos (x : ℚ) (hx : 0 < x) : 0 < round64 x :=
  lt_of_lt_of_le (by positivity) (round64_pos_bounds x hx).1

theorem round64_mono_pos (a b : ℚ) (ha : 0 < a) (hab : a ≤ b) : round64 a ≤ round64 b := by
  have hb : 0 < b := lt_of_lt_of_le ha hab
  have hlog : Int.log 2 a ≤ Int.log 2 b := Int.log_mono_right ha hab
  by_cases he : Int.log 2 a = Int.log 2 b
  · unfold round64
    rw [if_neg (ne_of_gt ha), if_neg (ne_of_gt hb), abs_of_pos ha, abs_of_pos hb, he]
    have hs : (0 : ℚ) < 2 ^ (Int.log 2 b - 52) := by positivity
    have := roundHalfEven_mono _ _ (div_le_div_of_nonneg_right hab (le_of_lt hs))
    exact mul_le_mul_of_nonneg_right (by exact_mod_cast this) (le_of_lt hs)
  · have hlt : Int.log 2 a + 1 ≤ Int.log 2 b := by omega
    calc round64 a ≤ (2 : ℚ) ^ (Int.log 2 a + 1) := (round64_pos_bounds a ha).2
      _ ≤ (2 : ℚ) ^ Int.log 2 b := zpow_le_zpow_right₀ (by norm_num) hlt
      _ ≤ round64 b := (round64_pos_bounds b hb).1

/-- Rounding to binary64 is monotone. -/
theorem round64_mono (a b : ℚ) (hab : a ≤ b) : round64 a ≤ round64 b := by
  rcases lt_trichotomy a 0 with ha | ha | ha
  · rcases lt_trichotomy b 0 with hb | hb | hb
    · have h := round64_mono_pos (-b) (-a) (by linarith) (by linarith)
      rw [round64_neg, round64_neg] at h
      linarith
    · rw [hb, round64_zero]
      have h := round64_pos (-a) (by linarith)
      rw [round64_neg] at h
      linarith
    · have h := round64_pos (-a) (by linarith)
      rw [round64_neg] at h
      have := round64_pos b hb
      linarith
  · rw [ha, round64_zero]
    rcases eq_or_lt_of_le (ha ▸ hab) with hb | hb
    · rw [← hb, round64_zero]
    · exact le_of_lt (round64_pos b hb)
  · exact round64_mono_pos a b ha hab

theorem roundHalfEven_of_near (x : ℚ) (f : ℤ) (h1 : (f : ℚ) ≤ x) (h2 : x - f < 1 / 2) :
    roundHalfEven x = f := by
  have hf : ⌊x⌋ = f := by
    rw [Int.floor_eq_iff]
    constructor
    · exact h1
    · linarith
  unfold roundHalfEven
  rw [hf, if_pos h2]

/-- The rounding of a positive number from its binade and rounded
significand. -/
theorem round64_eq (x : ℚ) (e m : ℤ) (h1 : (2 : ℚ) ^ e ≤ x) (h2 : x < (2 : ℚ) ^ (e + 1))
    (hm : roundHalfEven (x / 2 ^ (e - 52)) = m) : round64 x = (m : ℚ) * 2 ^ (e - 52) := by
  have hx : 0 < x := lt_of_lt_of_le (by positivity) h1
  have hlog : Int.log 2 x = e := by
    apply le_antisymm
    · have := (@Int.lt_zpow_iff_log_lt ℚ _ _ 2 (by norm_num) (e + 1) x hx).mp
        (by simpa using h2)
      omega
    · exact (@Int.zpow_le_iff_le_log ℚ _ _ 2 (by norm_num) e x hx).mp (by simpa using h1)
  unfold round64
  rw [if_neg (ne_of_gt hx), abs_of_pos hx, hlog, hm]

theorem round64_forty : round64 40 = 40 := by
  have h := round64_eq 40 5 5629499534213120 (by norm_num) (by norm_num) (by
    have e : (40 : ℚ) / 2 ^ ((5 : ℤ) - 52) = ((5629499534213120 : ℤ) : ℚ) := by norm_num
    rw [e, roundHalfEven_intCast])
  rw [h]
  norm_num

theorem round64_sixteen_hundred : round64 1600 = 1600 := by
  have h := round64_eq 1600 10 7036874417766400 (by norm_num) (by norm_num) (by
    have e : (1600 : ℚ) / 2 ^ ((10 : ℤ) - 52) = ((7036874417766400 : ℤ) : ℚ) := by norm_num
    rw [e, roundHalfEven_intCast])
  rw [h]
  norm_num

/-- The number `2^-48` is a binary64 number. -/
theorem round64_tiny : round64 (1 / 281474976710656) = 1 / 281474976710656 := by
  have h := round64_eq (1 / 281474976710656) (-48) 4503599627370496 (by norm_num)
    (by norm_num) (by
    have e : (1 / 281474976710656 : ℚ) / 2 ^ ((-48 : ℤ) - 52)
        = ((4503599627370496 : ℤ) : ℚ) := by norm_num
    rw [e, roundHalfEven_intCast])
  rw [h]
  norm_num

/-- Adding `2^-48` to `1600` is absorbed by the rounding: it is less than half
the spacing `2^-42` of the binary64 numbers around `1600`. -/
theorem round64_absorb : round64 (1 / 281474976710656 + 1600) = 1600 := by
  have h := round64_eq (1 / 281474976710656 + 1600) 10 7036874417766400 (by norm_num)
    (by norm_num)
    (roundHalfEven_of_near _ _ (by norm_num) (by norm_num))
  rw [h]
  norm_num

end Rounding

/-! ## The evaluator over an arithmetic -/

section ArithFacts

variable {α : Type} [Zero α]

theorem addCostA_ok (A : Arith α) (fg : List α) (e : α) (h : 0 < fg.length) :
    addCostA A fg e = Except.ok (fg.set 0 (A.add (entry fg 0) e)) := by
  simp only [addCostA, load_ok fg 0 h, ok_bind, store_ok fg 0 _ h, bind, Except.bind]

/-- A loop whose body replaces `fg[0]` by `step t fg[0]` leaves the iterated
value in `fg[0]` and changes nothing else. -/
theorem forLoop_iterate (body : Nat → List α → Exec (List α)) (step : Nat → α → α) :
    ∀ (k t : Nat) (fg : List α), 0 < fg.length →
      (∀ t' (s : List α), t ≤ t' → t' < t + k → 0 < s.length →
        body t' s = Except.ok (s.set 0 (step t' (entry s 0)))) →
      forLoop body t k fg = Except.ok (fg.set 0 (iterate step t k (entry fg 0))) := by
  intro k
  induction k with
  | zero =>
    intro t fg hfg _
    simp only [forLoop, iterate, set_zero_entry fg hfg]
    rfl
  | succ k ih =>
    intro t fg hfg hbody
    simp only [forLoop, iterate]
    rw [hbody t fg (Nat.le_refl _) (by omega) hfg, ok_bind,
      ih (t + 1) _ (by simpa using hfg)
        (fun t' s h1 h2 hs => hbody t' s (by omega) (by omega) hs),
      set_zero_twice, entry_set_self _ _ _ hfg]

theorem costRefA_ok (A : Arith α) (self : FG_eval α) (vars : List α) (t : Nat)
    (fg : List α) (hv : epsi_start + t < vars.length) (hfg : 0 < fg.length) :
    self.costRefA A vars t fg
      = Except.ok (fg.set 0 (stepRef A self vars t (entry fg 0))) := by
  obtain ⟨_, _, _, h4, h5, h6, _, _, _⟩ := layout_values
  simp only [FG_eval.costRefA, load_ok vars (cte_start + t) (by omega),
    load_ok vars (epsi_start + t) hv, load_ok vars (v_start + t) (by omega), ok_bind,
    addCostA_ok A fg _ hfg]
  rw [addCostA_ok _ _ _ (by simpa using hfg), ok_bind, set_zero_twice,
    entry_set_self _ _ _ hfg, addCostA_ok _ _ _ (by simpa using hfg), ok_bind,
    set_zero_twice, entry_set_self _ _ _ hfg]
  rfl

theorem costActA_ok (A : Arith α) (vars : List α) (t : Nat) (fg : List α)
    (hv : a_start + t < vars.length) (hfg : 0 < fg.length) :
    FG_eval.costActA A vars t fg
      = Except.ok (fg.set 0 (stepAct A vars t (entry fg 0))) := by
  obtain ⟨_, _, _, _, _, _, h7, h8, _⟩ := layout_values
  simp only [FG_eval.costActA, load_ok vars (delta_start + t) (by omega),
    load_ok vars (a_start + t) hv, ok_bind, addCostA_ok A fg _ hfg]
  rw [addCostA_ok _ _ _ (by simpa using hfg), ok_bind, set_zero_twice,
    entry_set_self _ _ _ hfg]
  rfl

theorem costGapA_ok (A : Arith α) (vars : List α) (t : Nat) (fg : List α)
    (hv : a_start + t + 1 < vars.length) (hfg : 0 < fg.length) :
    FG_eval.costGapA A vars t fg
      = Except.ok (fg.set 0 (stepGap A vars t (entry fg 0))) := by
  obtain ⟨_, _, _, _, _, _, h7, h8, _⟩ := layout_values
  simp only [FG_eval.costGapA, load_ok vars (delta_start + t) (by omega),
    load_ok vars (delta_start + t + 1) (by omega),
    load_ok vars (a_start + t) (by omega),
    load_ok vars (a_start + t + 1) hv, ok_bind, addCostA_ok A fg _ hfg]
  rw [addCostA_ok _ _ _ (by simpa using hfg), ok_bind, set_zero_twice,
    entry_set_self _ _ _ hfg]
  rfl

/-- One pass of the constraint loop does not fault and leaves `fg[0]` and the
length of `fg` as they were. -/
theorem dynamicsA_ok (A : Arith α) (self : FG_eval α) (vars fg : List α) (t : Nat)
    (hv : 198 ≤ vars.length) (hc : 2 ≤ self.coeffs.length) (hfg : 151 ≤ fg.length)
    (h1 : 1 ≤ t) (ht : t < N) :
    ∃ fg', self.dynamicsA A vars t fg = Except.ok fg' ∧ fg'.length = fg.length ∧
      entry fg' 0 = entry fg 0 := by
  obtain ⟨k1, k2, k3, k4, k5, k6, k7, k8, hN⟩ := layout_values
  have i1 : 1 + x_start + t < fg.length := by omega
  have i2 : 1 + y_start + t < fg.length := by omega
  have i3 : 1 + psi_start + t < fg.length := by omega
  have i4 : 1 + v_start + t < fg.length := by omega
  have i5 : 1 + cte_start + t < fg.length := by omega
  have i6 : 1 + epsi_start + t < fg.length := by omega
  apply Exists.intro
  refine ⟨?_, ?_, ?_⟩
  · simp only [FG_eval.dynamicsA, load_ok vars (x_start + t) (by omega),
      load_ok vars (y_start + t) (by omega), load_ok vars (psi_start + t) (by omega),
      load_ok vars (v_start + t) (by omega), load_ok vars (cte_start + t) (by omega),
      load_ok vars (epsi_start + t) (by omega), load_ok vars (x_start + t - 1) (by omega),
      load_ok vars (y_start + t - 1) (by omega), load_ok vars (psi_start + t - 1) (by omega),
      load_ok vars (v_start + t - 1) (by omega), load_ok vars (cte_start + t - 1) (by omega),
      load_ok vars (epsi_start + t - 1) (by omega),
      load_ok vars (delta_start + t - 1) (by omega),
      load_ok vars (a_start + t - 1) (by omega),
      load_ok self.coeffs 0 (by omega), load_ok self.coeffs 1 (by omega),
      ok_bind, store, List.length_set, if_pos i1, if_pos i2, if_pos i3, if_pos i4,
      if_pos i5, if_pos i6, pure_bind]
    rfl
  · simp only [List.length_set]
  · exact (entry_set_six fg
      (1 + x_start + t) (1 + y_start + t) (1 + psi_start + t)
      (1 + v_start + t) (1 + cte_start + t) (1 + epsi_start + t) _ _ _ _ _ _
      i1 i2 i3 i4 i5 i6
      (by omega) (by omega) (by omega) (by omega) (by omega) (by omega) (by omega)
      (by omega) (by omega) (by omega) (by omega) (by omega) (by omega) (by omega)
      (by omega)).2.2.2.2.2.2 0 (by omega) (by omega) (by omega) (by omega) (by omega)
      (by omega)

/-- The evaluator over an arithmetic does not fault on vectors that are long
enough, and leaves `costValueA` in `fg[0]`. -/
theorem operatorA_ok (A : Arith α) (self : FG_eval α) (fg vars : List α)
    (hv : 198 ≤ vars.length) (hc : 2 ≤ self.coeffs.length) (hfg : 151 ≤ fg.length) :
    ∃ fg', self.operatorA A fg vars = Except.ok fg' ∧
      entry fg' 0 = costValueA A self vars := by
  obtain ⟨k1, k2, k3, k4, k5, k6, k7, k8, hN⟩ := layout_values
  have hfg0 : 0 < fg.length := by omega
  have e1 := forLoop_iterate (self.costRefA A vars) (stepRef A self vars) (N - 0) 0
    (fg.set 0 0) (by simpa using hfg0)
    (fun t s _ ht hs => costRefA_ok A self vars t s (by omega) hs)
  have e2 := forLoop_iterate (FG_eval.costActA A vars) (stepAct A vars) (N - 1 - 0) 0
    (fg.set 0 (iterate (stepRef A self vars) 0 (N - 0) (entry (fg.set 0 (0 : α)) 0)))
    (by simpa using hfg0)
    (fun t s _ ht hs => costActA_ok A vars t s (by omega) hs)
  have e3 := forLoop_iterate (FG_eval.costGapA A vars) (stepGap A vars) (N - 2 - 0) 0
    (fg.set 0 (iterate (stepAct A vars) 0 (N - 1 - 0)
      (entry (fg.set 0 (iterate (stepRef A self vars) 0 (N - 0)
        (entry (fg.set 0 (0 : α)) 0))) 0)))
    (by simpa using hfg0)
    (fun t s _ ht hs => costGapA_ok A vars t s (by omega) hs)
  simp only [set_zero_twice, entry_set_self _ _ _ hfg0] at e1 e2 e3
  have c1 : 1 + x_start < fg.length := by omega
  have c2 : 1 + y_start < fg.length := by omega
  have c3 : 1 + psi_start < fg.length := by omega
  have c4 : 1 + v_start < fg.length := by omega
  have c5 : 1 + cte_start < fg.length := by omega
  have c6 : 1 + epsi_start < fg.length := by omega
  have qf := (entry_set_six (fg.set 0 (costValueA A self vars))
    (1 + x_start) (1 + y_start) (1 + psi_start) (1 + v_start) (1 + cte_start)
    (1 + epsi_start) (entry vars x_start) (entry vars y_start) (entry vars psi_start)
    (entry vars v_start) (entry vars cte_start) (entry vars epsi_start)
    (by simpa using c1) (by simpa using c2) (by simpa using c3) (by simpa using c4)
    (by simpa using c5) (by simpa using c6)
    (by omega) (by omega) (by omega) (by omega) (by omega) (by omega) (by omega)
    (by omega) (by omega) (by omega) (by omega) (by omega) (by omega) (by omega)
    (by omega)).2.2.2.2.2.2
  obtain ⟨s', r1, r2, r3⟩ := forRange_inv
    (fun _ s => s.length = fg.length ∧ entry s 0 = costValueA A self vars)
    (self.dynamicsA A vars) 1 N
    (((((((fg.set 0 (costValueA A self vars)).set (1 + x_start) (entry vars x_start)).set
      (1 + y_start) (entry vars y_start)).set (1 + psi_start) (entry vars psi_start)).set
      (1 + v_start) (entry vars v_start)).set (1 + cte_start) (entry vars cte_start)).set
      (1 + epsi_start) (entry vars epsi_start))
    (by omega)
    (by
      refine ⟨by simp only [List.length_set], ?_⟩
      rw [qf 0 (by omega) (by omega) (by omega) (by omega) (by omega) (by omega)]
      exact entry_set_self _ _ _ hfg0)
    (by
      intro t s ht1 ht2 hP
      obtain ⟨p1, p2⟩ := hP
      obtain ⟨s2, d1, d2, d3⟩ := dynamicsA_ok A self vars s t hv hc (by omega) ht1
        (by omega)
      exact ⟨s2, d1, by omega, by rw [d3]; exact p2⟩)
  refine ⟨s', ?_, r3⟩
  unfold FG_eval.operatorA forRange
  rw [store_ok fg 0 0 hfg0]
  simp only [ok_bind]
  rw [e1]
  simp only [ok_bind]
  rw [e2]
  simp only [ok_bind]
  rw [e3]
  simp only [ok_bind]
  rw [load_ok vars x_start (by omega), load_ok vars y_start (by omega),
    load_ok vars psi_start (by omega), load_ok vars v_start (by omega),
    load_ok vars cte_start (by omega), load_ok vars epsi_start (by omega)]
  simp only [ok_bind]
  simp only [store, List.length_set, if_pos c1, if_pos c2, if_pos c3, if_pos c4,
    if_pos c5, if_pos c6, pure_bind]
  rw [← r1]
  rfl

/-- Over exact arithmetic the evaluator over an arithmetic is the evaluator
`FG_eval.operator`. -/
theorem operatorA_exact {β : Type} [Field β] (T : Trig β) (self : FG_eval β)
    (fg vars : List β) :
    self.operatorA (Arith.exact T) fg vars = self.operator T fg vars := rfl

end ArithFacts

/-! ## The cost in binary64 arithmetic -/

section Binary64Cost

theorem iterate_congr {α : Type} (s1 s2 : Nat → α → α) :
    ∀ (k t : Nat) (c : α), (∀ t' a, t ≤ t' → t' < t + k → s1 t' a = s2 t' a) →
      iterate s1 t k c = iterate s2 t k c := by
  intro k
  induction k with
  | zero => intro t c _; rfl
  | succ k ih =>
    intro t c h
    simp only [iterate]
    rw [h t c (Nat.le_refl _) (by omega)]
    exact ih (t + 1) _ (fun t' a h1 h2 => h t' a (by omega) (by omega))

theorem iterate_mono (s1 s2 : Nat → ℚ → ℚ) :
    ∀ (k t : Nat) (c c' : ℚ),
      (∀ t' a a', t ≤ t' → t' < t + k → a ≤ a' → s1 t' a ≤ s2 t' a') → c ≤ c' →
      iterate s1 t k c ≤ iterate s2 t k c' := by
  intro k
  induction k with
  | zero => intro t c c' _ hc; exact hc
  | succ k ih =>
    intro t c c' h hc
    simp only [iterate]
    exact ih (t + 1) _ _ (fun t' a a' h1 h2 ha => h t' a a' (by omega) (by omega) ha)
      (h t c c' (Nat.le_refl _) (by omega) hc)

theorem add64_mono (T : Trig ℚ) (a a' b b' : ℚ) (ha : a ≤ a') (hb : b ≤ b') :
    (Arith.binary64 T).add a b ≤ (Arith.binary64 T).add a' b' :=
  round64_mono _ _ (add_le_add ha hb)

theorem sq64_mono (T : Trig ℚ) (a b : ℚ) (h : |a| ≤ |b|) :
    (Arith.binary64 T).sq a ≤ (Arith.binary64 T).sq b :=
  round64_mono _ _ (sq_le_sq.mpr h)

/-- In binary64 arithmetic the cost does not decrease when the absolute value
of one `cte` or `epsi` entry is raised and all other entries are kept. -/
theorem costValueA_mono (T : Trig ℚ) (self : FG_eval ℚ) (u w : List ℚ) (k t : Nat)
    (ht : t < N) (hk : k = cte_start + t ∨ k = epsi_start + t)
    (hagree : ∀ i, i ≠ k → entry u i = entry w i)
    (habs : |entry u k| ≤ |entry w k|) :
    costValueA (Arith.binary64 T) self u ≤ costValueA (Arith.binary64 T) self w := by
  obtain ⟨k1, k2, k3, k4, k5, k6, k7, k8, hN⟩ := layout_values
  have hall : ∀ i, |entry u i| ≤ |entry w i| := by
    intro i
    by_cases hi : i = k
    · rw [hi]; exact habs
    · rw [hagree i hi]
  unfold costValueA
  apply iterate_mono
  · intro t' a a' _ h2 ha
    unfold stepGap
    rw [hagree (delta_start + t' + 1) (by omega), hagree (delta_start + t') (by omega),
      hagree (a_start + t' + 1) (by omega), hagree (a_start + t') (by omega)]
    exact add64_mono T _ _ _ _ (add64_mono T _ _ _ _ ha (le_refl _)) (le_refl _)
  apply iterate_mono
  · intro t' a a' _ h2 ha
    unfold stepAct
    rw [hagree (delta_start + t') (by omega), hagree (a_start + t') (by omega)]
    exact add64_mono T _ _ _ _ (add64_mono T _ _ _ _ ha (le_refl _)) (le_refl _)
  apply iterate_mono
  · intro t' a a' _ h2 ha
    unfold stepRef
    rw [hagree (v_start + t') (by omega)]
    exact add64_mono T _ _ _ _
      (add64_mono T _ _ _ _ (add64_mono T _ _ _ _ ha (sq64_mono T _ _ (hall _)))
        (sq64_mono T _ _ (hall _)))
      (le_refl _)
  · exact le_refl _

/-- In binary64 arithmetic the all-zero decision vector and the vector that
differs from it by `cte[0] = 2^-24` have the same cost: the first pass of the
reference-state loop leaves `1600` in `fg[0]` for both. -/
theorem costValueA_absorbed (T : Trig ℚ) (coeffs : List ℚ) :
    costValueA (Arith.binary64 T) (FG_eval.construct64 coeffs)
        ((List.replicate 198 0).set 100 (1 / 16777216))
      = costValueA (Arith.binary64 T) (FG_eval.construct64 coeffs) (List.replicate 198 0) := by
  obtain ⟨k1, k2, k3, k4, k5, k6, k7, k8, hN⟩ := layout_values
  have hz : ∀ j, entry (List.replicate 198 (0 : ℚ)) j = 0 := entry_replicate_zero 198
  have hw : ∀ j, 100 ≠ j →
      entry ((List.replicate 198 (0 : ℚ)).set 100 (1 / 16777216)) j = 0 := by
    intro j hj
    rw [entry_set_ne _ _ _ _ hj, hz]
  have hw0 : entry ((List.replicate 198 (0 : ℚ)).set 100 (1 / 16777216)) 100
      = 1 / 16777216 := entry_set_self _ _ _ (by rw [List.length_replicate]; omega)
  have href : (FG_eval.construct64 coeffs).ref_v = 40 := by
    simp only [FG_eval.construct64]
    rw [show (40.0 : ℚ) = 40 from by norm_num, round64_forty]
  have hsub : round64 ((0 : ℚ) - 40) = -40 := by
    rw [zero_sub, round64_neg, round64_forty]
  have hsq : round64 ((-40 : ℚ) ^ 2) = 1600 := by
    rw [show ((-40 : ℚ)) ^ 2 = 1600 from by norm_num, round64_sixteen_hundred]
  have hsq0 : round64 ((0 : ℚ) ^ 2) = 0 := by
    rw [show ((0 : ℚ)) ^ 2 = 0 from by norm_num, round64_zero]
  have hsqt : round64 ((1 / 16777216 : ℚ) ^ 2) = 1 / 281474976710656 := by
    rw [show ((1 / 16777216 : ℚ)) ^ 2 = 1 / 281474976710656 from by norm_num, round64_tiny]
  have hfirst : stepRef (Arith.binary64 T) (FG_eval.construct64 coeffs)
        ((List.replicate 198 0).set 100 (1 / 16777216)) 0 0
      = stepRef (Arith.binary64 T) (FG_eval.construct64 coeffs) (List.replicate 198 0) 0 0 := by
    simp only [stepRef, Arith.binary64, href, k4, k5, k6, Nat.add_zero, hz, hw0,
      hw 125 (by omega), hw 75 (by omega), hsub, hsq, hsq0, hsqt, zero_add, add_zero,
      round64_zero, round64_tiny, round64_absorb, round64_sixteen_hundred]
  unfold costValueA
  rw [iterate_congr (stepGap (Arith.binary64 T) ((List.replicate 198 0).set 100 (1 / 16777216)))
      (stepGap (Arith.binary64 T) (List.replicate 198 0)) (N - 2 - 0) 0 _
      (fun t' a _ h2 => by
        unfold stepGap
        rw [hw (delta_start + t' + 1) (by omega), hw (delta_start + t') (by omega),
          hw (a_start + t' + 1) (by omega), hw (a_start + t') (by omega), hz, hz, hz, hz]),
    iterate_congr (stepAct (Arith.binary64 T) ((List.replicate 198 0).set 100 (1 / 16777216)))
      (stepAct (Arith.binary64 T) (List.replicate 198 0)) (N - 1 - 0) 0 _
      (fun t' a _ h2 => by
        unfold stepAct
        rw [hw (delta_start + t') (by omega), hw (a_start + t') (by omega), hz, hz])]
  have hN0 : N - 0 = 24 + 1 := by rw [hN]
  have hsplit : ∀ (vars : List ℚ),
      iterate (stepRef (Arith.binary64 T) (FG_eval.construct64 coeffs) vars) 0 (24 + 1) 0
        = iterate (stepRef (Arith.binary64 T) (FG_eval.construct64 coeffs) vars) 1 24
          (stepRef (Arith.binary64 T) (FG_eval.construct64 coeffs) vars 0 0) :=
    fun _ => rfl
  rw [hN0, hsplit, hsplit, hfirst]
  rw [iterate_congr
      (stepRef (Arith.binary64 T) (FG_eval.construct64 coeffs)
        ((List.replicate 198 0).set 100 (1 / 16777216)))
      (stepRef (Arith.binary64 T) (FG_eval.construct64 coeffs) (List.replicate 198 0)) 24 1 _
      (fun t' a h1 h2 => by
        unfold stepRef
        rw [hw (cte_start + t') (by omega), hw (epsi_start + t') (by omega),
          hw (v_start + t') (by omega), hz, hz, hz])]

end Binary64Cost

/-! ## The claims -/

section Claims

/-- C1: for `N = 25` the layout constants are the offsets `0, N, 2N, 3N, 4N, 5N,
6N, 7N-1`; the eight slices (six of length `N`, then `delta` and `a` of length
`N-1`) follow one another without gap in that order, every index below
`n_vars = N*6 + (N-1)*2 = 198` lies in exactly one slice and every other index
in none; `n_constraints = N*6 = 150`. -/
theorem C1_layout (α : Type) [Field α] :
    N = 25 ∧
    (x_start = 0 ∧ y_start = N ∧ psi_start = 2 * N ∧ v_start = 3 * N ∧
      cte_start = 4 * N ∧ epsi_start = 5 * N ∧ delta_start = 6 * N ∧
      a_start = 7 * N - 1) ∧
    ((MPC.construct α).n_vars = N * 6 + (N - 1) * 2 ∧ (MPC.construct α).n_vars = 198 ∧
      (MPC.construct α).n_constraints = N * 6 ∧ (MPC.construct α).n_constraints = 150) ∧
    (x_start + N = y_start ∧ y_start + N = psi_start ∧ psi_start + N = v_start ∧
      v_start + N = cte_start ∧ cte_start + N = epsi_start ∧
      epsi_start + N = delta_start ∧ delta_start + (N - 1) = a_start ∧
      a_start + (N - 1) = (MPC.construct α).n_vars) ∧
    ∀ i, sliceCount i = if i < (MPC.construct α).n_vars then 1 else 0 := by
  refine ⟨by decide, by decide, ⟨rfl, rfl, rfl, rfl⟩,
    ⟨rfl, rfl, rfl, rfl, rfl, rfl, rfl, rfl⟩, ?_⟩
  intro i
  have hn : (MPC.construct α).n_vars = 198 := rfl
  rw [hn]
  by_cases h : i < 198
  · rw [if_pos h]
    interval_cases i <;> rfl
  · rw [if_neg h]
    simp only [sliceCount, slices, List.length_eq_zero, List.filter_eq_nil_iff]
    intro s hs
    simp only [List.mem_cons, List.mem_singleton, List.not_mem_nil, or_false] at hs
    obtain ⟨k1, k2, k3, k4, k5, k6, k7, k8, hN⟩ := layout_values
    rcases hs with hs | hs | hs | hs | hs | hs | hs | hs <;> subst hs <;>
      simp only [decide_eq_true_eq] <;> omega

/-- C2: for every decision vector of length `n_vars` the evaluator stores in
`fg[0]` the unweighted sum `spec_cost vars` (tracking, speed with reference 40,
actuation magnitude and actuation gap terms), and this value is the same for
any other coefficients and any decision vector that differs only in the `x`,
`y`, `psi` slices. -/
theorem C2_cost_formula {α : Type} [Field α] (T : Trig α) (coeffs vars fg : List α)
    (hv : vars.length = (MPC.construct α).n_vars)
    (hfg : fg.length = (MPC.construct α).n_constraints + 1)
    (hc : 2 ≤ coeffs.length) :
    ∃ fg', (FG_eval.construct coeffs).operator T fg vars = Except.ok fg' ∧
      entry fg' 0 = spec_cost vars ∧
      ∀ (T2 : Trig α) (coeffs2 vars2 fg2 : List α),
        vars2.length = (MPC.construct α).n_vars →
        fg2.length = (MPC.construct α).n_constraints + 1 →
        2 ≤ coeffs2.length →
        (∀ i, v_start ≤ i → entry vars2 i = entry vars i) →
        ∃ fg2', (FG_eval.construct coeffs2).operator T2 fg2 vars2 = Except.ok fg2' ∧
          entry fg2' 0 = entry fg' 0 := by
  rw [n_vars_eq] at hv
  rw [n_constraints_eq] at hfg
  obtain ⟨fg', h1, _, h3, _⟩ := operator_ok T (FG_eval.construct coeffs) fg vars
    (by omega) hc (by omega)
  refine ⟨fg', h1, by rw [h3, costValue_eq_spec], ?_⟩
  intro T2 coeffs2 vars2 fg2 hv2 hfg2 hc2 hagree
  rw [n_vars_eq] at hv2
  rw [n_constraints_eq] at hfg2
  obtain ⟨fg2', g1, _, g3, _⟩ := operator_ok T2 (FG_eval.construct coeffs2) fg2 vars2
    (by omega) hc2 (by omega)
  refine ⟨fg2', g1, ?_⟩
  rw [g3, h3, costValue_eq_spec, costValue_eq_spec, spec_cost_congr vars vars2 hagree]

/-- Witness for C2 at the all-zero decision vector over the reals. -/
theorem C2_cost_formula_witness :
    ∃ fg', (FG_eval.construct [(0 : ℝ), 0]).operator
        (Trig.mk Real.cos Real.sin Real.arctan) (List.replicate 151 0)
        (List.replicate 198 0) = Except.ok fg' ∧
      entry fg' 0 = spec_cost (List.replicate 198 (0 : ℝ)) :=
  have h := C2_cost_formula (Trig.mk Real.cos Real.sin Real.arctan) [(0 : ℝ), 0]
    (List.replicate 198 0) (List.replicate 151 0)
    (by rw [List.length_replicate, n_vars_eq])
    (by rw [List.length_replicate, n_constraints_eq]) (by decide)
  h.imp fun _ hf => ⟨hf.1, hf.2.1⟩

/-- C3: for every decision vector and every step `1 ≤ t < N` the constraint
entries of the `x`, `y`, `psi` and `v` channels are the state at `t` minus the
forward-Euler prediction from step `t-1` with `dt = 0.05` and `Lf = 2.67`. -/
theorem C3_dynamics_residuals {α : Type} [Field α] (T : Trig α)
    (coeffs vars fg : List α) (t : Nat)
    (hv : vars.length = (MPC.construct α).n_vars)
    (hfg : fg.length = (MPC.construct α).n_constraints + 1)
    (hc : 2 ≤ coeffs.length) (h1 : 1 ≤ t) (ht : t < N) :
    ∃ fg', (FG_eval.construct coeffs).operator T fg vars = Except.ok fg' ∧
      entry fg' (1 + x_start + t) =
        entry vars (x_start + t) - (entry vars (x_start + (t - 1))
          + entry vars (v_start + (t - 1)) * T.cos (entry vars (psi_start + (t - 1))) * 0.05) ∧
      entry fg' (1 + y_start + t) =
        entry vars (y_start + t) - (entry vars (y_start + (t - 1))
          + entry vars (v_start + (t - 1)) * T.sin (entry vars (psi_start + (t - 1))) * 0.05) ∧
      entry fg' (1 + psi_start + t) =
        entry vars (psi_start + t) - (entry vars (psi_start + (t - 1))
          + entry vars (v_start + (t - 1)) / 2.67 * entry vars (delta_start + (t - 1)) * 0.05) ∧
      entry fg' (1 + v_start + t) =
        entry vars (v_start + t) - (entry vars (v_start + (t - 1))
          + entry vars (a_start + (t - 1)) * 0.05) := by
  rw [n_vars_eq] at hv
  rw [n_constraints_eq] at hfg
  obtain ⟨fg', r1, _, _, _, r5, _⟩ := operator_ok T (FG_eval.construct coeffs) fg vars
    (by omega) hc (by omega)
  obtain ⟨d1, d2, d3, d4, _, _⟩ := r5 t h1 ht
  simp only [step_index _ t h1, FG_eval.construct] at d1 d2 d3 d4
  refine ⟨fg', r1, d1, d2, ?_, d4⟩
  rw [d3]
  ring

/-- Witness for C3 at the all-zero decision vector over the reals, step 1. -/
theorem C3_dynamics_residuals_witness :
    ∃ fg', (FG_eval.construct [(0 : ℝ), 0]).operator
        (Trig.mk Real.cos Real.sin Real.arctan) (List.replicate 151 0)
        (List.replicate 198 0) = Except.ok fg' ∧
      entry fg' (1 + v_start + 1) =
        entry (List.replicate 198 (0 : ℝ)) (v_start + 1)
          - (entry (List.replicate 198 (0 : ℝ)) (v_start + (1 - 1))
            + entry (List.replicate 198 (0 : ℝ)) (a_start + (1 - 1)) * 0.05) :=
  have h := C3_dynamics_residuals (Trig.mk Real.cos Real.sin Real.arctan) [(0 : ℝ), 0]
    (List.replicate 198 0) (List.replicate 151 0) 1
    (by rw [List.length_replicate, n_vars_eq])
    (by rw [List.length_replicate, n_constraints_eq]) (by decide) (by decide) (by decide)
  h.imp fun _ hf => ⟨hf.1, hf.2.2.2.2⟩

/-- C4, as stated, fails: with `coeffs = [0, 0, 1, 0]`, `x[0] = 1` and every
other entry zero, the `cte` constraint entry of step 1 is `0`, whereas the
claimed formula with the cubic `f` gives `0 - ((1 - 0) + 0) = -1`. -/
theorem C4_counterexample :
    ∃ fg', (FG_eval.construct [(0 : ℝ), 0, 1, 0]).operator
        (Trig.mk Real.cos Real.sin Real.arctan) (List.replicate 151 0)
        ((List.replicate 198 0).set 0 1) = Except.ok fg' ∧
      entry fg' (1 + cte_start + 1) = 0 ∧
      entry fg' (1 + cte_start + 1) ≠
        entry ((List.replicate 198 (0 : ℝ)).set 0 1) (cte_start + 1)
          - ((spec_polyeval [(0 : ℝ), 0, 1, 0]
                (entry ((List.replicate 198 (0 : ℝ)).set 0 1) (x_start + (1 - 1)))
              - entry ((List.replicate 198 (0 : ℝ)).set 0 1) (y_start + (1 - 1)))
            + entry ((List.replicate 198 (0 : ℝ)).set 0 1) (v_start + (1 - 1))
              * Real.sin (entry ((List.replicate 198 (0 : ℝ)).set 0 1) (epsi_start + (1 - 1)))
              * 0.05) := by
  obtain ⟨k1, k2, k3, k4, k5, k6, k7, k8, hN⟩ := layout_values
  obtain ⟨fg', r1, _, _, _, r5, _⟩ := operator_ok (Trig.mk Real.cos Real.sin Real.arctan)
    (FG_eval.construct [(0 : ℝ), 0, 1, 0]) (List.replicate 151 0)
    ((List.replicate 198 0).set 0 1)
    (by rw [List.length_set, List.length_replicate])
    (by decide) (by rw [List.length_replicate])
  obtain ⟨_, _, _, _, d5, _⟩ := r5 1 (by decide) (by decide)
  have hx : entry ((List.replicate 198 (0 : ℝ)).set 0 1) 0 = 1 :=
    entry_set_self _ _ _ (by rw [List.length_replicate]; omega)
  have hz : ∀ j, 0 ≠ j → entry ((List.replicate 198 (0 : ℝ)).set 0 1) j = 0 := by
    intro j hj
    rw [entry_set_ne _ _ _ _ hj, entry_replicate_zero]
  have hval : entry fg' (1 + cte_start + 1) = 0 := by
    rw [d5, k1, k2, k4, k5, k6, hz 101 (by omega), hz 75 (by omega), hz 25 (by omega),
      hz 125 (by omega), hx]
    simp [FG_eval.construct, entry]
  refine ⟨fg', r1, hval, ?_⟩
  rw [hval, k1, k2, k4, k5, k6, hz 101 (by omega), hz 75 (by omega), hz 25 (by omega),
    hz 125 (by omega), hx]
  simp [spec_polyeval, Finset.sum_range_succ, entry]

/-- C4, amended: for every decision vector, every coefficient vector
`[c0, c1, c2, c3]` and every step `1 ≤ t < N` the `cte` constraint entry is
`cte[t] - ((f(x[t-1]) - y[t-1]) + v[t-1]*sin(epsi[t-1])*dt)` with
`f(x) = c0 + c1*x`: only the constant and the linear coefficient enter. -/
theorem C4_cte_residual_linear {α : Type} [Field α] (T : Trig α)
    (c0 c1 c2 c3 : α) (vars fg : List α) (t : Nat)
    (hv : vars.length = (MPC.construct α).n_vars)
    (hfg : fg.length = (MPC.construct α).n_constraints + 1)
    (h1 : 1 ≤ t) (ht : t < N) :
    ∃ fg', (FG_eval.construct [c0, c1, c2, c3]).operator T fg vars = Except.ok fg' ∧
      entry fg' (1 + cte_start + t) =
        entry vars (cte_start + t)
          - (((c0 + c1 * entry vars (x_start + (t - 1))) - entry vars (y_start + (t - 1)))
            + entry vars (v_start + (t - 1)) * T.sin (entry vars (epsi_start + (t - 1)))
              * 0.05) := by
  rw [n_vars_eq] at hv
  rw [n_constraints_eq] at hfg
  obtain ⟨fg', r1, _, _, _, r5, _⟩ := operator_ok T (FG_eval.construct [c0, c1, c2, c3])
    fg vars (by omega) (by simp [FG_eval.construct]) (by omega)
  obtain ⟨_, _, _, _, d5, _⟩ := r5 t h1 ht
  simp only [step_index _ t h1, FG_eval.construct] at d5
  exact ⟨fg', r1, d5⟩

/-- Witness for the amended C4 over the reals, at the input of the
counterexample. -/
theorem C4_cte_residual_linear_witness :
    ∃ fg', (FG_eval.construct [(0 : ℝ), 0, 1, 0]).operator
        (Trig.mk Real.cos Real.sin Real.arctan) (List.replicate 151 0)
        ((List.replicate 198 0).set 0 1) = Except.ok fg' ∧
      entry fg' (1 + cte_start + 1) =
        entry ((List.replicate 198 (0 : ℝ)).set 0 1) (cte_start + 1)
          - (((0 + 0 * entry ((List.replicate 198 (0 : ℝ)).set 0 1) (x_start + (1 - 1)))
              - entry ((List.replicate 198 (0 : ℝ)).set 0 1) (y_start + (1 - 1)))
            + entry ((List.replicate 198 (0 : ℝ)).set 0 1) (v_start + (1 - 1))
              * Real.sin (entry ((List.replicate 198 (0 : ℝ)).set 0 1) (epsi_start + (1 - 1)))
              * 0.05) :=
  C4_cte_residual_linear (Trig.mk Real.cos Real.sin Real.arctan) 0 0 1 0
    ((List.replicate 198 0).set 0 1) (List.replicate 151 0) 1
    (by rw [List.length_set, List.length_replicate, n_vars_eq])
    (by rw [List.length_replicate, n_constraints_eq]) (by decide) (by decide)

/-- C5: for every decision vector, every coefficient vector with at least two
entries and every step `1 ≤ t < N` the `epsi` constraint entry is
`epsi[t] - ((psi[t-1] - psides) + v[t-1]*delta[t-1]/Lf*dt)` with
`psides = atan(coeffs[1])`; the entry is the same for any other coefficients
with the same linear coefficient and any decision vector that agrees in
`epsi[t]`, `psi[t-1]`, `v[t-1]` and `delta[t-1]`, whatever its `x` slice. -/
theorem C5_epsi_residual {α : Type} [Field α] (T : Trig α)
    (coeffs vars fg : List α) (t : Nat)
    (hv : vars.length = (MPC.construct α).n_vars)
    (hfg : fg.length = (MPC.construct α).n_constraints + 1)
    (hc : 2 ≤ coeffs.length) (h1 : 1 ≤ t) (ht : t < N) :
    ∃ fg', (FG_eval.construct coeffs).operator T fg vars = Except.ok fg' ∧
      entry fg' (1 + epsi_start + t) =
        entry vars (epsi_start + t)
          - ((entry vars (psi_start + (t - 1)) - T.atan (entry coeffs 1))
            + entry vars (v_start + (t - 1)) * entry vars (delta_start + (t - 1)) / 2.67
              * 0.05) ∧
      ∀ (coeffs2 vars2 fg2 : List α),
        vars2.length = (MPC.construct α).n_vars →
        fg2.length = (MPC.construct α).n_constraints + 1 →
        2 ≤ coeffs2.length →
        entry coeffs2 1 = entry coeffs 1 →
        entry vars2 (epsi_start + t) = entry vars (epsi_start + t) →
        entry vars2 (psi_start + (t - 1)) = entry vars (psi_start + (t - 1)) →
        entry vars2 (v_start + (t - 1)) = entry vars (v_start + (t - 1)) →
        entry vars2 (delta_start + (t - 1)) = entry vars (delta_start + (t - 1)) →
        ∃ fg2', (FG_eval.construct coeffs2).operator T fg2 vars2 = Except.ok fg2' ∧
          entry fg2' (1 + epsi_start + t) = entry fg' (1 + epsi_start + t) := by
  rw [n_vars_eq] at hv
  rw [n_constraints_eq] at hfg
  obtain ⟨fg', r1, _, _, _, r5, _⟩ := operator_ok T (FG_eval.construct coeffs) fg vars
    (by omega) hc (by omega)
  obtain ⟨_, _, _, _, _, d6⟩ := r5 t h1 ht
  simp only [step_index _ t h1, FG_eval.construct] at d6
  refine ⟨fg', r1, d6, ?_⟩
  intro coeffs2 vars2 fg2 hv2 hfg2 hc2 e1 e2 e3 e4 e5
  rw [n_vars_eq] at hv2
  rw [n_constraints_eq] at hfg2
  obtain ⟨fg2', g1, _, _, _, g5, _⟩ := operator_ok T (FG_eval.construct coeffs2) fg2 vars2
    (by omega) hc2 (by omega)
  obtain ⟨_, _, _, _, _, g6⟩ := g5 t h1 ht
  simp only [step_index _ t h1, FG_eval.construct] at g6
  refine ⟨fg2', g1, ?_⟩
  rw [g6, d6, e1, e2, e3, e4, e5]

/-- Witness for C5 at the all-zero decision vector over the reals, step 1. -/
theorem C5_epsi_residual_witness :
    ∃ fg', (FG_eval.construct [(0 : ℝ), 0]).operator
        (Trig.mk Real.cos Real.sin Real.arctan) (List.replicate 151 0)
        (List.replicate 198 0) = Except.ok fg' ∧
      entry fg' (1 + epsi_start + 1) =
        entry (List.replicate 198 (0 : ℝ)) (epsi_start + 1)
          - ((entry (List.replicate 198 (0 : ℝ)) (psi_start + (1 - 1))
              - Real.arctan (entry [(0 : ℝ), 0] 1))
            + entry (List.replicate 198 (0 : ℝ)) (v_start + (1 - 1))
              * entry (List.replicate 198 (0 : ℝ)) (delta_start + (1 - 1)) / 2.67 * 0.05) :=
  have h := C5_epsi_residual (Trig.mk Real.cos Real.sin Real.arctan) [(0 : ℝ), 0]
    (List.replicate 198 0) (List.replicate 151 0) 1
    (by rw [List.length_replicate, n_vars_eq])
    (by rw [List.length_replicate, n_constraints_eq]) (by decide) (by decide) (by decide)
  h.imp fun _ hf => ⟨hf.1, hf.2.1⟩

/-- C6, as stated, fails: with current state `[1, 0, 0, 0, 0, 0]` and the
all-zero decision vector the entry `fg[1 + x_start]` is `vars[x_start] = 0`, not
`vars[x_start] - 1`. -/
theorem C6_counterexample :
    ∃ fg', (FG_eval.construct [(0 : ℝ), 0]).operator
        (Trig.mk Real.cos Real.sin Real.arctan) (List.replicate 151 0)
        (List.replicate 198 0) = Except.ok fg' ∧
      entry fg' (1 + x_start) = 0 ∧
      entry fg' (1 + x_start) ≠
        entry (List.replicate 198 (0 : ℝ)) x_start - entry [(1 : ℝ), 0, 0, 0, 0, 0] 0 := by
  obtain ⟨fg', r1, _, _, r4, _⟩ := operator_ok (Trig.mk Real.cos Real.sin Real.arctan)
    (FG_eval.construct [(0 : ℝ), 0]) (List.replicate 151 0) (List.replicate 198 0)
    (by rw [List.length_replicate]) (by decide) (by rw [List.length_replicate])
  have hval : entry fg' (1 + x_start) = 0 := by
    rw [r4.1, entry_replicate_zero]
  refine ⟨fg', r1, hval, ?_⟩
  rw [hval, entry_replicate_zero]
  simp [entry]

/-- C6, amended: for every decision vector the six initial-condition entries
`fg[1 + c_start]` equal the decision-vector entries `vars[c_start]` themselves;
the current state is not subtracted by the evaluator. -/
theorem C6_initial_entries {α : Type} [Field α] (T : Trig α)
    (coeffs vars fg : List α)
    (hv : vars.length = (MPC.construct α).n_vars)
    (hfg : fg.length = (MPC.construct α).n_constraints + 1)
    (hc : 2 ≤ coeffs.length) :
    ∃ fg', (FG_eval.construct coeffs).operator T fg vars = Except.ok fg' ∧
      entry fg' (1 + x_start) = entry vars x_start ∧
      entry fg' (1 + y_start) = entry vars y_start ∧
      entry fg' (1 + psi_start) = entry vars psi_start ∧
      entry fg' (1 + v_start) = entry vars v_start ∧
      entry fg' (1 + cte_start) = entry vars cte_start ∧
      entry fg' (1 + epsi_start) = entry vars epsi_start := by
  rw [n_vars_eq] at hv
  rw [n_constraints_eq] at hfg
  obtain ⟨fg', r1, _, _, r4, _⟩ := operator_ok T (FG_eval.construct coeffs) fg vars
    (by omega) hc (by omega)
  exact ⟨fg', r1, r4⟩

/-- Witness for the amended C6 over the reals at the all-zero decision vector. -/
theorem C6_initial_entries_witness :
    ∃ fg', (FG_eval.construct [(0 : ℝ), 0]).operator
        (Trig.mk Real.cos Real.sin Real.arctan) (List.replicate 151 0)
        (List.replicate 198 0) = Except.ok fg' ∧
      entry fg' (1 + x_start) = entry (List.replicate 198 (0 : ℝ)) x_start :=
  have h := C6_initial_entries (Trig.mk Real.cos Real.sin Real.arctan) [(0 : ℝ), 0]
    (List.replicate 198 0) (List.replicate 151 0)
    (by rw [List.length_replicate, n_vars_eq])
    (by rw [List.length_replicate, n_constraints_eq]) (by decide)
  h.imp fun _ hf => ⟨hf.1, hf.2.1⟩

/-- C7: initial-state pinning.  For every current state of six entries, every
coefficient vector and every decision vector of `n_vars` entries the evaluator
yields constraint values `fg[1 + i]`, `i < n_constraints`, and `MPC::Solve`
builds constraint bounds; whenever every constraint value lies between its
lower and its upper bound, the `t = 0` entries of the six state slices equal
the six current-state values. -/
theorem C7_initial_state_pinning {α : Type} [LinearOrderedField α] (T : Trig α)
    (cell : Nat → Nat → α) (state coeffs vars fg : List α)
    (hs : state.length = 6)
    (hv : vars.length = (MPC.construct α).n_vars)
    (hfg : fg.length = (MPC.construct α).n_constraints + 1)
    (hc : 2 ≤ coeffs.length) :
    ∃ fg' call,
      (FG_eval.construct coeffs).operator T fg vars = Except.ok fg' ∧
      (MPC.construct α).prepare cell state = Except.ok call ∧
      ((∀ i, i < (MPC.construct α).n_constraints →
          entry call.constraints_lowerbound i ≤ entry fg' (1 + i) ∧
          entry fg' (1 + i) ≤ entry call.constraints_upperbound i) →
        entry vars x_start = entry state 0 ∧ entry vars y_start = entry state 1 ∧
        entry vars psi_start = entry state 2 ∧ entry vars v_start = entry state 3 ∧
        entry vars cte_start = entry state 4 ∧ entry vars epsi_start = entry state 5) := by
  obtain ⟨k1, k2, k3, k4, k5, k6, k7, k8, hN⟩ := layout_values
  rw [n_vars_eq] at hv
  rw [n_constraints_eq] at hfg
  obtain ⟨fg', r1, _, _, r4, _⟩ := operator_ok T (FG_eval.construct coeffs) fg vars
    (by omega) hc (by omega)
  obtain ⟨call, q1, _, _, _, _, _, _, _, _, q10, q11⟩ := prepare_ok cell state (by omega)
  refine ⟨fg', call, r1, q1, ?_⟩
  intro hfeas
  rw [n_constraints_eq] at q10 q11 hfeas
  obtain ⟨i1, i2, i3, i4, i5, i6⟩ := r4
  obtain ⟨p1, p2, p3, p4, p5, p6⟩ := pinValue_starts (entry state 0) (entry state 1)
    (entry state 2) (entry state 3) (entry state 4) (entry state 5)
  have f1 := hfeas x_start (by omega)
  have f2 := hfeas y_start (by omega)
  have f3 := hfeas psi_start (by omega)
  have f4 := hfeas v_start (by omega)
  have f5 := hfeas cte_start (by omega)
  have f6 := hfeas epsi_start (by omega)
  rw [q10 _ (by omega), q11 _ (by omega), i1, p1] at f1
  rw [q10 _ (by omega), q11 _ (by omega), i2, p2] at f2
  rw [q10 _ (by omega), q11 _ (by omega), i3, p3] at f3
  rw [q10 _ (by omega), q11 _ (by omega), i4, p4] at f4
  rw [q10 _ (by omega), q11 _ (by omega), i5, p5] at f5
  rw [q10 _ (by omega), q11 _ (by omega), i6, p6] at f6
  exact ⟨le_antisymm f1.2 f1.1, le_antisymm f2.2 f2.1, le_antisymm f3.2 f3.1,
    le_antisymm f4.2 f4.1, le_antisymm f5.2 f5.1, le_antisymm f6.2 f6.1⟩

/-- C8: for every current state of six entries the constraint bound vectors
that `MPC::Solve` builds have length `n_constraints = N*6`; at the six start
offsets the lower and the upper bound both equal the corresponding
current-state value, and at every other index both are zero. -/
theorem C8_constraint_bounds {α : Type} [Field α] (cell : Nat → Nat → α)
    (state : List α) (hs : state.length = 6) :
    ∃ call, (MPC.construct α).prepare cell state = Except.ok call ∧
      (MPC.construct α).n_constraints = N * 6 ∧
      call.constraints_lowerbound.length = (MPC.construct α).n_constraints ∧
      call.constraints_upperbound.length = (MPC.construct α).n_constraints ∧
      (entry call.constraints_lowerbound x_start = entry state 0 ∧
        entry call.constraints_upperbound x_start = entry state 0) ∧
      (entry call.constraints_lowerbound y_start = entry state 1 ∧
        entry call.constraints_upperbound y_start = entry state 1) ∧
      (entry call.constraints_lowerbound psi_start = entry state 2 ∧
        entry call.constraints_upperbound psi_start = entry state 2) ∧
      (entry call.constraints_lowerbound v_start = entry state 3 ∧
        entry call.constraints_upperbound v_start = entry state 3) ∧
      (entry call.constraints_lowerbound cte_start = entry state 4 ∧
        entry call.constraints_upperbound cte_start = entry state 4) ∧
      (entry call.constraints_lowerbound epsi_start = entry state 5 ∧
        entry call.constraints_upperbound epsi_start = entry state 5) ∧
      ∀ i, i < (MPC.construct α).n_constraints → i ≠ x_start → i ≠ y_start →
        i ≠ psi_start → i ≠ v_start → i ≠ cte_start → i ≠ epsi_start →
        entry call.constraints_lowerbound i = 0 ∧
        entry call.constraints_upperbound i = 0 := by
  obtain ⟨k1, k2, k3, k4, k5, k6, k7, k8, hN⟩ := layout_values
  obtain ⟨call, q1, _, _, _, _, q6, q7, _, _, q10, q11⟩ := prepare_ok cell state (by omega)
  obtain ⟨p1, p2, p3, p4, p5, p6⟩ := pinValue_starts (entry state 0) (entry state 1)
    (entry state 2) (entry state 3) (entry state 4) (entry state 5)
  have hn := n_constraints_eq α
  refine ⟨call, q1, rfl, q6, q7, ?_, ?_, ?_, ?_, ?_, ?_, ?_⟩
  · rw [q10 _ (by omega), q11 _ (by omega), p1]; exact ⟨rfl, rfl⟩
  · rw [q10 _ (by omega), q11 _ (by omega), p2]; exact ⟨rfl, rfl⟩
  · rw [q10 _ (by omega), q11 _ (by omega), p3]; exact ⟨rfl, rfl⟩
  · rw [q10 _ (by omega), q11 _ (by omega), p4]; exact ⟨rfl, rfl⟩
  · rw [q10 _ (by omega), q11 _ (by omega), p5]; exact ⟨rfl, rfl⟩
  · rw [q10 _ (by omega), q11 _ (by omega), p6]; exact ⟨rfl, rfl⟩
  · intro i hi h1 h2 h3 h4 h5 h6
    rw [q10 i hi, q11 i hi, pinValue_other _ _ _ _ _ _ i h1 h2 h3 h4 h5 h6]
    exact ⟨rfl, rfl⟩

/-- Witness for C8 over the rationals at the state `[1, 2, 3, 4, 5, 6]`. -/
theorem C8_constraint_bounds_witness :
    ∃ call, (MPC.construct ℚ).prepare (fun _ _ => 7) [1, 2, 3, 4, 5, 6] = Except.ok call ∧
      call.constraints_lowerbound.length = (MPC.construct ℚ).n_constraints ∧
      entry call.constraints_lowerbound y_start = entry [(1 : ℚ), 2, 3, 4, 5, 6] 1 ∧
      entry call.constraints_upperbound y_start = entry [(1 : ℚ), 2, 3, 4, 5, 6] 1 :=
  have h := C8_constraint_bounds (fun _ _ => (7 : ℚ)) [1, 2, 3, 4, 5, 6] (by decide)
  h.imp fun _ hf => ⟨hf.1, hf.2.2.1, hf.2.2.2.2.2.1.1, hf.2.2.2.2.2.1.2⟩

/-- Witness for C7 over the reals: for the zero state, `coeffs = [0, 0]` and the
all-zero decision vector every constraint value lies within its bounds, and the
`t = 0` entries equal the state. -/
theorem C7_initial_state_pinning_witness :
    ∃ fg' call,
      (FG_eval.construct [(0 : ℝ), 0]).operator (Trig.mk Real.cos Real.sin Real.arctan)
        (List.replicate 151 0) (List.replicate 198 0) = Except.ok fg' ∧
      (MPC.construct ℝ).prepare (fun _ _ => 0) (List.replicate 6 0) = Except.ok call ∧
      (∀ i, i < (MPC.construct ℝ).n_constraints →
        entry call.constraints_lowerbound i ≤ entry fg' (1 + i) ∧
        entry fg' (1 + i) ≤ entry call.constraints_upperbound i) ∧
      entry (List.replicate 198 (0 : ℝ)) x_start = entry (List.replicate 6 (0 : ℝ)) 0 ∧
      entry (List.replicate 198 (0 : ℝ)) epsi_start = entry (List.replicate 6 (0 : ℝ)) 5 := by
  obtain ⟨k1, k2, k3, k4, k5, k6, k7, k8, hN⟩ := layout_values
  obtain ⟨fg', call, r1, q1, himp⟩ := C7_initial_state_pinning
    (Trig.mk Real.cos Real.sin Real.arctan)
    (fun _ _ => 0) (List.replicate 6 0) [(0 : ℝ), 0] (List.replicate 198 0)
    (List.replicate 151 0)
    (by rw [List.length_replicate])
    (by rw [List.length_replicate, n_vars_eq])
    (by rw [List.length_replicate, n_constraints_eq]) (by decide)
  obtain ⟨fg0, r0, _, _, r4, r5, _⟩ := operator_ok (Trig.mk Real.cos Real.sin Real.arctan)
    (FG_eval.construct [(0 : ℝ), 0]) (List.replicate 151 0) (List.replicate 198 0)
    (by rw [List.length_replicate]) (by decide) (by rw [List.length_replicate])
  obtain ⟨call0, q0, _, _, _, _, _, _, _, _, q10, q11⟩ := prepare_ok (fun _ _ => (0 : ℝ))
    (List.replicate 6 0) (by rw [List.length_replicate])
  have e1 : fg0 = fg' := Except.ok.inj (r0.symm.trans r1)
  have e2 : call0 = call := Except.ok.inj (q0.symm.trans q1)
  subst e1 e2
  have hz : ∀ j, entry (List.replicate 198 (0 : ℝ)) j = 0 := entry_replicate_zero 198
  have hpin : ∀ j, pinValue (entry (List.replicate 6 (0 : ℝ)) 0)
      (entry (List.replicate 6 (0 : ℝ)) 1) (entry (List.replicate 6 (0 : ℝ)) 2)
      (entry (List.replicate 6 (0 : ℝ)) 3) (entry (List.replicate 6 (0 : ℝ)) 4)
      (entry (List.replicate 6 (0 : ℝ)) 5) j = 0 := by
    intro j
    simp only [entry_replicate_zero, pinValue]
    split_ifs <;> rfl
  have hg : ∀ i, i < 150 → entry fg0 (1 + i) = 0 := by
    intro i hi
    obtain ⟨c, t, hc, ht, rfl⟩ : ∃ c t, c < 6 ∧ t < 25 ∧ i = 25 * c + t :=
      ⟨i / 25, i % 25, by omega, by omega, by omega⟩
    obtain ⟨i1, i2, i3, i4, i5, i6⟩ := r4
    by_cases t0 : t = 0
    · subst t0
      interval_cases c
      · rw [show 1 + (25 * 0 + 0) = 1 + x_start from by omega, i1, hz]
      · rw [show 1 + (25 * 1 + 0) = 1 + y_start from by omega, i2, hz]
      · rw [show 1 + (25 * 2 + 0) = 1 + psi_start from by omega, i3, hz]
      · rw [show 1 + (25 * 3 + 0) = 1 + v_start from by omega, i4, hz]
      · rw [show 1 + (25 * 4 + 0) = 1 + cte_start from by omega, i5, hz]
      · rw [show 1 + (25 * 5 + 0) = 1 + epsi_start from by omega, i6, hz]
    · obtain ⟨d1, d2, d3, d4, d5, d6⟩ := r5 t (by omega) (by omega)
      simp only [hz, FG_eval.construct] at d1 d2 d3 d4 d5 d6
      interval_cases c
      · rw [show 1 + (25 * 0 + t) = 1 + x_start + t from by omega, d1]; simp
      · rw [show 1 + (25 * 1 + t) = 1 + y_start + t from by omega, d2]; simp
      · rw [show 1 + (25 * 2 + t) = 1 + psi_start + t from by omega, d3]; simp
      · rw [show 1 + (25 * 3 + t) = 1 + v_start + t from by omega, d4]; simp
      · rw [show 1 + (25 * 4 + t) = 1 + cte_start + t from by omega, d5]; simp [entry]
      · rw [show 1 + (25 * 5 + t) = 1 + epsi_start + t from by omega, d6]; simp [entry]
  have hfeas : ∀ i, i < (MPC.construct ℝ).n_constraints →
      entry call0.constraints_lowerbound i ≤ entry fg0 (1 + i) ∧
      entry fg0 (1 + i) ≤ entry call0.constraints_upperbound i := by
    intro i hi
    rw [q10 i hi, q11 i hi, hpin, hg i (by rw [n_constraints_eq] at hi; exact hi)]
    exact ⟨le_refl _, le_refl _⟩
  have h := himp hfeas
  exact ⟨fg0, call0, r1, q1, hfeas, h.1, h.2.2.2.2.2⟩

/-- C9: the variable bound vectors that `MPC::Solve` builds have `n_vars`
entries; every index of the six state slices gets `[-1.0e19, 1.0e19]`, every
index of the steering slice `[-max_steering_angle_rad, max_steering_angle_rad]
= [-1, 1]`, every index of the acceleration slice `[-max_acc, max_acc] =
[-1, 1]`, and in every case the lower bound is at most the upper bound. -/
theorem C9_variable_bounds {α : Type} [LinearOrderedField α] (cell : Nat → Nat → α)
    (state : List α) (hs : state.length = 6) :
    ∃ call, (MPC.construct α).prepare cell state = Except.ok call ∧
      call.vars_lowerbound.length = (MPC.construct α).n_vars ∧
      call.vars_upperbound.length = (MPC.construct α).n_vars ∧
      (MPC.construct α).max_steering_angle_rad = 1 ∧ (MPC.construct α).max_acc = 1 ∧
      ∀ i, i < (MPC.construct α).n_vars →
        (i < delta_start →
          entry call.vars_lowerbound i = -1.0e19 ∧ entry call.vars_upperbound i = 1.0e19) ∧
        (delta_start ≤ i → i < a_start →
          entry call.vars_lowerbound i = -(MPC.construct α).max_steering_angle_rad ∧
          entry call.vars_upperbound i = (MPC.construct α).max_steering_angle_rad ∧
          entry call.vars_lowerbound i = -1 ∧ entry call.vars_upperbound i = 1) ∧
        (a_start ≤ i →
          entry call.vars_lowerbound i = -(MPC.construct α).max_acc ∧
          entry call.vars_upperbound i = (MPC.construct α).max_acc ∧
          entry call.vars_lowerbound i = -1 ∧ entry call.vars_upperbound i = 1) ∧
        entry call.vars_lowerbound i ≤ entry call.vars_upperbound i := by
  obtain ⟨k1, k2, k3, k4, k5, k6, k7, k8, hN⟩ := layout_values
  obtain ⟨call, q1, _, _, q4, q5, _, _, q8, q9, _, _⟩ := prepare_ok cell state (by omega)
  have m1 : (MPC.construct α).max_steering_angle_rad = 1 := by
    simp only [MPC.construct]; norm_num
  have m2 : (MPC.construct α).max_acc = 1 := by
    simp only [MPC.construct]; norm_num
  refine ⟨call, q1, q4, q5, m1, m2, ?_⟩
  intro i hi
  rw [q8 i hi, q9 i hi, m1, m2]
  refine ⟨?_, ?_, ?_, ?_⟩
  · intro h
    rw [if_pos h, if_pos h]
    exact ⟨rfl, rfl⟩
  · intro h1 h2
    rw [if_neg (by omega), if_pos h2, if_neg (by omega), if_pos h2]
    exact ⟨rfl, rfl, rfl, rfl⟩
  · intro h
    rw [if_neg (by omega), if_neg (by omega), if_neg (by omega), if_neg (by omega)]
    exact ⟨rfl, rfl, rfl, rfl⟩
  · split_ifs <;> norm_num

/-- Witness for C9 over the rationals at the state `[1, 2, 3, 4, 5, 6]`. -/
theorem C9_variable_bounds_witness :
    ∃ call, (MPC.construct ℚ).prepare (fun _ _ => 7) [1, 2, 3, 4, 5, 6] = Except.ok call ∧
      call.vars_lowerbound.length = (MPC.construct ℚ).n_vars ∧
      call.vars_upperbound.length = (MPC.construct ℚ).n_vars :=
  have h := C9_variable_bounds (fun _ _ => (7 : ℚ)) [1, 2, 3, 4, 5, 6] (by decide)
  h.imp fun _ hf => ⟨hf.1, hf.2.1, hf.2.2.1⟩

/-- C10: for every solver, whatever status its result carries, `MPC::Solve`
returns exactly two values: the entry of the result's solution vector at index
`delta_start = 6N = 150`, then the entry at index `a_start = 7N-1 = 174`.  Two
solvers whose solutions agree at these two indices give the same return value,
whatever the other entries and the status are. -/
theorem C10_solve_returns_first_actuation {α : Type} [Field α] (T : Trig α)
    (ipopt_solve : Solver α) (cell : Nat → Nat → α) (state coeffs : List α)
    (hs : state.length = 6)
    (hx : ∀ o v lo up clo cup f,
      (ipopt_solve o v lo up clo cup f).x.length = (MPC.construct α).n_vars) :
    ∃ call, (MPC.construct α).prepare cell state = Except.ok call ∧
      (MPC.construct α).Solve T ipopt_solve cell state coeffs =
        Except.ok
          [entry (ipopt_solve call.options call.vars call.vars_lowerbound
              call.vars_upperbound call.constraints_lowerbound call.constraints_upperbound
              (fun fg vars => (FG_eval.construct coeffs).operator T fg vars)).x delta_start,
           entry (ipopt_solve call.options call.vars call.vars_lowerbound
              call.vars_upperbound call.constraints_lowerbound call.constraints_upperbound
              (fun fg vars => (FG_eval.construct coeffs).operator T fg vars)).x a_start] ∧
      (delta_start = 6 * N ∧ delta_start = 150 ∧ a_start = 7 * N - 1 ∧ a_start = 174) ∧
      ∀ (other : Solver α),
        (∀ o v lo up clo cup f,
          (other o v lo up clo cup f).x.length = (MPC.construct α).n_vars) →
        entry (other call.options call.vars call.vars_lowerbound
            call.vars_upperbound call.constraints_lowerbound call.constraints_upperbound
            (fun fg vars => (FG_eval.construct coeffs).operator T fg vars)).x delta_start
          = entry (ipopt_solve call.options call.vars call.vars_lowerbound
            call.vars_upperbound call.constraints_lowerbound call.constraints_upperbound
            (fun fg vars => (FG_eval.construct coeffs).operator T fg vars)).x delta_start →
        entry (other call.options call.vars call.vars_lowerbound
            call.vars_upperbound call.constraints_lowerbound call.constraints_upperbound
            (fun fg vars => (FG_eval.construct coeffs).operator T fg vars)).x a_start
          = entry (ipopt_solve call.options call.vars call.vars_lowerbound
            call.vars_upperbound call.constraints_lowerbound call.constraints_upperbound
            (fun fg vars => (FG_eval.construct coeffs).operator T fg vars)).x a_start →
        (MPC.construct α).Solve T other cell state coeffs =
          (MPC.construct α).Solve T ipopt_solve cell state coeffs := by
  obtain ⟨k1, k2, k3, k4, k5, k6, k7, k8, hN⟩ := layout_values
  obtain ⟨call, q1, _⟩ := prepare_ok cell state (by omega)
  have hn := n_vars_eq α
  refine ⟨call, q1, Solve_ok T ipopt_solve cell state coeffs call q1
    (by rw [hx, hn, k8]; omega), by decide, ?_⟩
  intro other ho e1 e2
  rw [Solve_ok T ipopt_solve cell state coeffs call q1 (by rw [hx, hn, k8]; omega),
    Solve_ok T other cell state coeffs call q1 (by rw [ho, hn, k8]; omega), e1, e2]

/-- Witness for C10 over the reals: a solver that reports `maxiter_exceeded`
with the solution `0, 1, 2, ...`. -/
theorem C10_solve_returns_first_actuation_witness :
    (MPC.construct ℝ).Solve (Trig.mk Real.cos Real.sin Real.arctan)
      (fun _ _ _ _ _ _ _ =>
        { status := solve_status.maxiter_exceeded
          x := (List.range 198).map (fun (i : Nat) => (i : ℝ))
          obj_value := 0 })
      (fun _ _ => 0) [1, 2, 3, 4, 5, 6] [0, 0]
      = Except.ok [entry ((List.range 198).map (fun (i : Nat) => (i : ℝ))) delta_start,
          entry ((List.range 198).map (fun (i : Nat) => (i : ℝ))) a_start] :=
  have h := C10_solve_returns_first_actuation
    (Trig.mk Real.cos Real.sin Real.arctan)
    (fun _ _ _ _ _ _ _ =>
      { status := solve_status.maxiter_exceeded
        x := (List.range 198).map (fun (i : Nat) => (i : ℝ))
        obj_value := 0 })
    (fun _ _ => 0) [1, 2, 3, 4, 5, 6] [0, 0] (by decide)
    (fun _ _ _ _ _ _ _ => by rw [List.length_map, List.length_range, n_vars_eq])
  h.elim fun _ hf => hf.2.1

/-- C11: bound satisfaction.  If the solver returns a solution of `n_vars`
entries that satisfies the variable bounds `MPC::Solve` passed to it, then the
two returned values satisfy `-max_steering_angle_rad ≤ steering ≤
max_steering_angle_rad` and `-max_acc ≤ acceleration ≤ max_acc`, both limits
being 1, for every state of six entries and every coefficient vector. -/
theorem C11_bound_satisfaction {α : Type} [LinearOrderedField α] (T : Trig α)
    (ipopt_solve : Solver α) (cell : Nat → Nat → α) (state coeffs : List α)
    (hs : state.length = 6)
    (hsol : ∀ call, (MPC.construct α).prepare cell state = Except.ok call →
      (ipopt_solve call.options call.vars call.vars_lowerbound call.vars_upperbound
        call.constraints_lowerbound call.constraints_upperbound
        (fun fg vars => (FG_eval.construct coeffs).operator T fg vars)).x.length
        = (MPC.construct α).n_vars ∧
      ∀ i, i < (MPC.construct α).n_vars →
        entry call.vars_lowerbound i ≤
          entry (ipopt_solve call.options call.vars call.vars_lowerbound
            call.vars_upperbound call.constraints_lowerbound call.constraints_upperbound
            (fun fg vars => (FG_eval.construct coeffs).operator T fg vars)).x i ∧
        entry (ipopt_solve call.options call.vars call.vars_lowerbound
            call.vars_upperbound call.constraints_lowerbound call.constraints_upperbound
            (fun fg vars => (FG_eval.construct coeffs).operator T fg vars)).x i
          ≤ entry call.vars_upperbound i) :
    ∃ steering acceleration,
      (MPC.construct α).Solve T ipopt_solve cell state coeffs
        = Except.ok [steering, acceleration] ∧
      (-(MPC.construct α).max_steering_angle_rad ≤ steering ∧
        steering ≤ (MPC.construct α).max_steering_angle_rad) ∧
      (-(MPC.construct α).max_acc ≤ acceleration ∧
        acceleration ≤ (MPC.construct α).max_acc) ∧
      (MPC.construct α).max_steering_angle_rad = 1 ∧ (MPC.construct α).max_acc = 1 := by
  obtain ⟨k1, k2, k3, k4, k5, k6, k7, k8, hN⟩ := layout_values
  obtain ⟨call, q1, _, _, _, _, _, _, q8, q9, _, _⟩ := prepare_ok cell state (by omega)
  obtain ⟨hlen, hb⟩ := hsol call q1
  have hn := n_vars_eq α
  have m1 : (MPC.construct α).max_steering_angle_rad = 1 := by
    simp only [MPC.construct]; norm_num
  have m2 : (MPC.construct α).max_acc = 1 := by
    simp only [MPC.construct]; norm_num
  have b1 := hb delta_start (by omega)
  have b2 := hb a_start (by omega)
  rw [q8 _ (by omega), q9 _ (by omega), if_neg (by omega), if_pos (by omega),
    if_neg (by omega), if_pos (by omega)] at b1
  rw [q8 _ (by omega), q9 _ (by omega), if_neg (by omega), if_neg (by omega),
    if_neg (by omega), if_neg (by omega)] at b2
  exact ⟨_, _, Solve_ok T ipopt_solve cell state coeffs call q1 (by rw [hlen, hn, k8]; omega),
    b1, b2, m1, m2⟩

/-- Witness for C11 over the reals: a solver that returns the all-zero
solution, which lies within the bounds. -/
theorem C11_bound_satisfaction_witness :
    ∃ steering acceleration,
      (MPC.construct ℝ).Solve (Trig.mk Real.cos Real.sin Real.arctan)
        (fun _ _ _ _ _ _ _ =>
          { status := solve_status.success, x := List.replicate 198 0, obj_value := 0 })
        (fun _ _ => 0) [1, 2, 3, 4, 5, 6] [0, 0] = Except.ok [steering, acceleration] ∧
      (-1 ≤ steering ∧ steering ≤ 1) ∧ (-1 ≤ acceleration ∧ acceleration ≤ 1) := by
  have h := C11_bound_satisfaction (Trig.mk Real.cos Real.sin Real.arctan)
    (fun _ _ _ _ _ _ _ =>
      { status := solve_status.success, x := List.replicate 198 (0 : ℝ), obj_value := 0 })
    (fun _ _ => 0) [1, 2, 3, 4, 5, 6] [0, 0] (by decide)
    (by
      intro call hcall
      obtain ⟨call0, q1, _, _, _, _, _, _, q8, q9, _, _⟩ :=
        prepare_ok (fun _ _ => (0 : ℝ)) [1, 2, 3, 4, 5, 6] (by decide)
      have e : call0 = call := Except.ok.inj (q1.symm.trans hcall)
      subst e
      refine ⟨by rw [List.length_replicate, n_vars_eq], ?_⟩
      intro i hi
      rw [q8 i hi, q9 i hi, entry_replicate_zero]
      have m1 : (MPC.construct ℝ).max_steering_angle_rad = 1 := by
        simp only [MPC.construct]; norm_num
      have m2 : (MPC.construct ℝ).max_acc = 1 := by
        simp only [MPC.construct]; norm_num
      rw [m1, m2]
      constructor <;> split_ifs <;> norm_num)
  obtain ⟨s, a, h1, h2, h3, m1, m2⟩ := h
  rw [m1] at h2
  rw [m2] at h3
  exact ⟨s, a, h1, h2, h3⟩

/-- C12, the code at the state `[1, 2, 3, 4, 5, 6]` with zero-initialised
vectors: the vector `vars` handed to the solver is the outer vector as it was
constructed, here all zero; its entry at `x_start` is `0`, not the current `x =
1`.  The vector that holds the state values is the one declared inside the
block "initialize vars", which is dropped at the end of the block. -/
theorem C12_initial_guess_is_unfilled_vector :
    ∃ call inner,
      (MPC.construct ℚ).prepare (fun _ _ => 0) [1, 2, 3, 4, 5, 6] = Except.ok call ∧
      call.vars = Dvector (fun _ => 0) (MPC.construct ℚ).n_vars ∧
      entry call.vars x_start = 0 ∧
      entry call.vars x_start ≠ entry [(1 : ℚ), 2, 3, 4, 5, 6] 0 ∧
      (MPC.construct ℚ).initVars (fun _ => 0) 1 2 3 4 5 6 = Except.ok inner ∧
      entry inner x_start = 1 := by
  obtain ⟨call, q1, _, q3, _⟩ := prepare_ok (fun _ _ => (0 : ℚ)) [1, 2, 3, 4, 5, 6]
    (by decide)
  obtain ⟨inner, r1, _, r3⟩ := initVars_ok (fun _ => (0 : ℚ)) 1 2 3 4 5 6
  have hx : entry call.vars x_start = 0 := by
    rw [q3, entry_Dvector _ _ _ (by rw [n_vars_eq]; decide)]
  refine ⟨call, inner, q1, q3, hx, ?_, r1, ?_⟩
  · rw [hx]
    simp [entry]
  · rw [r3 x_start (by rw [n_vars_eq]; decide)]
    exact (pinValue_starts (1 : ℚ) 2 3 4 5 6).1

/-- C14, as stated, fails: with `coeffs = [0, 0]` the cost at the all-zero
decision vector is `25 * (0 - 40)^2 = 40000`, not `0`. -/
theorem C14_counterexample :
    ∃ fg', (FG_eval.construct [(0 : ℝ), 0]).operator
        (Trig.mk Real.cos Real.sin Real.arctan) (List.replicate 151 0)
        (List.replicate 198 0) = Except.ok fg' ∧
      entry fg' 0 = 40000 ∧ entry fg' 0 ≠ 0 := by
  obtain ⟨fg', r1, _, r3, _⟩ := operator_ok (Trig.mk Real.cos Real.sin Real.arctan)
    (FG_eval.construct [(0 : ℝ), 0]) (List.replicate 151 0) (List.replicate 198 0)
    (by rw [List.length_replicate]) (by decide) (by rw [List.length_replicate])
  have hval : entry fg' 0 = 40000 := by
    rw [r3, costValue_eq_spec, spec_cost_zero]
    simp only [N]
    norm_num
  refine ⟨fg', r1, hval, ?_⟩
  rw [hval]
  norm_num

/-- C14, amended: with `coeffs = [0, 0]` the cost that the evaluator computes at
the all-zero decision vector of length `n_vars` is `N * (0 - 40)^2 = 40000`,
the sum of the speed-tracking terms; every other term is zero. -/
theorem C14_cost_at_zero_vector {α : Type} [Field α] (T : Trig α) (fg : List α)
    (hfg : fg.length = (MPC.construct α).n_constraints + 1) :
    ∃ fg', (FG_eval.construct [(0 : α), 0]).operator T fg
        (List.replicate (MPC.construct α).n_vars 0) = Except.ok fg' ∧
      entry fg' 0 = (N : α) * (0 - 40) ^ 2 ∧ entry fg' 0 = 40000 ∧
      (∑ t in Finset.range N,
        (entry (List.replicate (MPC.construct α).n_vars (0 : α)) (cte_start + t) ^ 2
          + entry (List.replicate (MPC.construct α).n_vars (0 : α)) (epsi_start + t) ^ 2)) = 0 ∧
      (∑ t in Finset.range (N - 1),
        (entry (List.replicate (MPC.construct α).n_vars (0 : α)) (delta_start + t) ^ 2
          + entry (List.replicate (MPC.construct α).n_vars (0 : α)) (a_start + t) ^ 2)) = 0 := by
  rw [n_constraints_eq] at hfg
  obtain ⟨fg', r1, _, r3, _⟩ := operator_ok T (FG_eval.construct [(0 : α), 0]) fg
    (List.replicate (MPC.construct α).n_vars 0)
    (by rw [List.length_replicate, n_vars_eq]) (by simp [FG_eval.construct]) (by omega)
  have hval : entry fg' 0 = (N : α) * 40 ^ 2 := by
    rw [r3, costValue_eq_spec, spec_cost_zero]
  refine ⟨fg', r1, ?_, ?_, ?_, ?_⟩
  · rw [hval]; ring
  · rw [hval]; simp only [N]; norm_num
  · simp [entry_replicate_zero]
  · simp [entry_replicate_zero]

/-- Witness for the amended C14 over the reals. -/
theorem C14_cost_at_zero_vector_witness :
    ∃ fg', (FG_eval.construct [(0 : ℝ), 0]).operator
        (Trig.mk Real.cos Real.sin Real.arctan) (List.replicate 151 0)
        (List.replicate (MPC.construct ℝ).n_vars 0) = Except.ok fg' ∧
      entry fg' 0 = 40000 :=
  have h := C14_cost_at_zero_vector (Trig.mk Real.cos Real.sin Real.arctan)
    (List.replicate 151 (0 : ℝ)) (by rw [List.length_replicate, n_constraints_eq])
  h.imp fun _ hf => ⟨hf.1, hf.2.2.1⟩

/-- C17: for every decision vector the cost in `fg[0]` is non-negative, and it
is `0` exactly when every `cte` and `epsi` entry is `0`, every `v` entry is the
reference speed `40`, and every `delta` and `a` entry is `0`. -/
theorem C17_cost_nonneg_and_zero_iff {α : Type} [LinearOrderedField α] (T : Trig α)
    (coeffs vars fg : List α)
    (hv : vars.length = (MPC.construct α).n_vars)
    (hfg : fg.length = (MPC.construct α).n_constraints + 1)
    (hc : 2 ≤ coeffs.length) :
    ∃ fg', (FG_eval.construct coeffs).operator T fg vars = Except.ok fg' ∧
      0 ≤ entry fg' 0 ∧
      (entry fg' 0 = 0 ↔
        (∀ t, t < N → entry vars (cte_start + t) = 0 ∧ entry vars (epsi_start + t) = 0 ∧
          entry vars (v_start + t) = 40) ∧
        (∀ t, t < N - 1 →
          entry vars (delta_start + t) = 0 ∧ entry vars (a_start + t) = 0)) := by
  rw [n_vars_eq] at hv
  rw [n_constraints_eq] at hfg
  obtain ⟨fg', r1, _, r3, _⟩ := operator_ok T (FG_eval.construct coeffs) fg vars
    (by omega) hc (by omega)
  rw [costValue_eq_spec] at r3
  refine ⟨fg', r1, ?_, ?_⟩
  · rw [r3]; exact spec_cost_nonneg vars
  · rw [r3]; exact spec_cost_eq_zero_iff vars

/-- Witness for C17 over the reals at the all-zero decision vector. -/
theorem C17_cost_nonneg_and_zero_iff_witness :
    ∃ fg', (FG_eval.construct [(0 : ℝ), 0]).operator
        (Trig.mk Real.cos Real.sin Real.arctan) (List.replicate 151 0)
        (List.replicate 198 0) = Except.ok fg' ∧ 0 ≤ entry fg' 0 :=
  have h := C17_cost_nonneg_and_zero_iff (Trig.mk Real.cos Real.sin Real.arctan)
    [(0 : ℝ), 0] (List.replicate 198 0) (List.replicate 151 0)
    (by rw [List.length_replicate, n_vars_eq])
    (by rw [List.length_replicate, n_constraints_eq]) (by decide)
  h.imp fun _ hf => ⟨hf.1, hf.2.1⟩

/-- C16: the constraints determine the trajectory from the actuations.  For
every current state of six entries and every coefficient vector, two decision
vectors of `n_vars` entries whose constraint values all lie within the
constraint bounds that `MPC::Solve` builds and that agree on the `delta` and
`a` slices are equal; the state each of them holds at a step `t < N` is the
rollout of the kinematic model, as the constraint loop encodes it, from the
current state. -/
theorem C16_constraints_determine_trajectory {α : Type} [LinearOrderedField α]
    (T : Trig α) (cell : Nat → Nat → α) (state coeffs u w fgu fgw : List α)
    (hs : state.length = 6)
    (hu : u.length = (MPC.construct α).n_vars)
    (hw : w.length = (MPC.construct α).n_vars)
    (hfgu : fgu.length = (MPC.construct α).n_constraints + 1)
    (hfgw : fgw.length = (MPC.construct α).n_constraints + 1)
    (hc : 2 ≤ coeffs.length) :
    ∃ gu gw call,
      (FG_eval.construct coeffs).operator T fgu u = Except.ok gu ∧
      (FG_eval.construct coeffs).operator T fgw w = Except.ok gw ∧
      (MPC.construct α).prepare cell state = Except.ok call ∧
      ((∀ i, i < (MPC.construct α).n_constraints →
          entry call.constraints_lowerbound i ≤ entry gu (1 + i) ∧
          entry gu (1 + i) ≤ entry call.constraints_upperbound i) →
        (∀ i, i < (MPC.construct α).n_constraints →
          entry call.constraints_lowerbound i ≤ entry gw (1 + i) ∧
          entry gw (1 + i) ≤ entry call.constraints_upperbound i) →
        (∀ i, delta_start ≤ i → i < (MPC.construct α).n_vars → entry u i = entry w i) →
        u = w ∧
        (∀ i, i < delta_start → entry u i = entry w i) ∧
        ∀ t, t < N →
          stateAt u t = rollout T (FG_eval.construct coeffs) (currentState state) u t ∧
          stateAt w t = rollout T (FG_eval.construct coeffs) (currentState state) w t) := by
  obtain ⟨k1, k2, k3, k4, k5, k6, k7, k8, hN⟩ := layout_values
  rw [n_vars_eq] at hu hw
  rw [n_constraints_eq] at hfgu hfgw
  obtain ⟨gu, r1, _, _, r4, r5, _⟩ := operator_ok T (FG_eval.construct coeffs) fgu u
    (by omega) hc (by omega)
  obtain ⟨gw, q1, _, _, q4, q5, _⟩ := operator_ok T (FG_eval.construct coeffs) fgw w
    (by omega) hc (by omega)
  obtain ⟨call, p1, _, _, _, _, _, _, _, _, p10, p11⟩ := prepare_ok cell state (by omega)
  refine ⟨gu, gw, call, r1, q1, p1, ?_⟩
  intro hfu hfw hact
  rw [n_constraints_eq] at p10 p11 hfu hfw
  rw [n_vars_eq] at hact
  have ru := rollout_of_feasible T (FG_eval.construct coeffs) state u gu
    call.constraints_lowerbound call.constraints_upperbound r4 r5 p10 p11 hfu
  have rw_ := rollout_of_feasible T (FG_eval.construct coeffs) state w gw
    call.constraints_lowerbound call.constraints_upperbound q4 q5 p10 p11 hfw
  have rc := rollout_congr T (FG_eval.construct coeffs) (currentState state) u w hact
  have hst : ∀ t, t < N → stateAt u t = stateAt w t := by
    intro t ht
    rw [ru t ht, rw_ t ht, rc t ht]
  have hlow : ∀ i, i < delta_start → entry u i = entry w i := by
    intro i hi
    obtain ⟨c, t, hc, ht, rfl⟩ : ∃ c t, c < 6 ∧ t < 25 ∧ i = 25 * c + t :=
      ⟨i / 25, i % 25, by omega, by omega, by omega⟩
    have e := hst t (by omega)
    simp only [stateAt, VehicleState.mk.injEq] at e
    obtain ⟨e1, e2, e3, e4, e5, e6⟩ := e
    interval_cases c
    · rw [show 25 * 0 + t = x_start + t from by omega]; exact e1
    · rw [show 25 * 1 + t = y_start + t from by omega]; exact e2
    · rw [show 25 * 2 + t = psi_start + t from by omega]; exact e3
    · rw [show 25 * 3 + t = v_start + t from by omega]; exact e4
    · rw [show 25 * 4 + t = cte_start + t from by omega]; exact e5
    · rw [show 25 * 5 + t = epsi_start + t from by omega]; exact e6
  refine ⟨?_, hlow, fun t ht => ⟨ru t ht, rw_ t ht⟩⟩
  apply eq_of_entries u w 198 hu hw
  intro i hi
  by_cases h : i < delta_start
  · exact hlow i h
  · exact hact i (by omega) hi

/-- Witness for C16 over the reals: for the zero state and `coeffs = [0, 0]`
the all-zero decision vector has every constraint value within its bounds. -/
theorem C16_constraints_determine_trajectory_witness :
    ∃ gu call,
      (FG_eval.construct [(0 : ℝ), 0]).operator (Trig.mk Real.cos Real.sin Real.arctan)
        (List.replicate 151 0) (List.replicate 198 0) = Except.ok gu ∧
      (MPC.construct ℝ).prepare (fun _ _ => 0) (List.replicate 6 0) = Except.ok call ∧
      (∀ i, i < (MPC.construct ℝ).n_constraints →
        entry call.constraints_lowerbound i ≤ entry gu (1 + i) ∧
        entry gu (1 + i) ≤ entry call.constraints_upperbound i) ∧
      ∀ t, t < N →
        stateAt (List.replicate 198 (0 : ℝ)) t =
          rollout (Trig.mk Real.cos Real.sin Real.arctan) (FG_eval.construct [(0 : ℝ), 0])
            (currentState (List.replicate 6 0)) (List.replicate 198 0) t := by
  obtain ⟨gu, gw, call, r1, q1, p1, himp⟩ := C16_constraints_determine_trajectory
    (Trig.mk Real.cos Real.sin Real.arctan) (fun _ _ => 0) (List.replicate 6 0)
    [(0 : ℝ), 0] (List.replicate 198 0) (List.replicate 198 0) (List.replicate 151 0)
    (List.replicate 151 0)
    (by rw [List.length_replicate])
    (by rw [List.length_replicate, n_vars_eq])
    (by rw [List.length_replicate, n_vars_eq])
    (by rw [List.length_replicate, n_constraints_eq])
    (by rw [List.length_replicate, n_constraints_eq]) (by decide)
  obtain ⟨g0, z1, z2⟩ := zero_vector_constraints
  obtain ⟨call0, c1, _, _, _, _, _, _, _, _, c10, c11⟩ := prepare_ok (fun _ _ => (0 : ℝ))
    (List.replicate 6 0) (by rw [List.length_replicate])
  have e1 : g0 = gu := Except.ok.inj (z1.symm.trans r1)
  have e2 : g0 = gw := Except.ok.inj (z1.symm.trans q1)
  have e3 : call0 = call := Except.ok.inj (c1.symm.trans p1)
  subst e1 e3
  subst e2
  have hpin : ∀ j, pinValue (entry (List.replicate 6 (0 : ℝ)) 0)
      (entry (List.replicate 6 (0 : ℝ)) 1) (entry (List.replicate 6 (0 : ℝ)) 2)
      (entry (List.replicate 6 (0 : ℝ)) 3) (entry (List.replicate 6 (0 : ℝ)) 4)
      (entry (List.replicate 6 (0 : ℝ)) 5) j = 0 := by
    intro j
    simp only [entry_replicate_zero, pinValue]
    split_ifs <;> rfl
  have hfeas : ∀ i, i < (MPC.construct ℝ).n_constraints →
      entry call0.constraints_lowerbound i ≤ entry g0 (1 + i) ∧
      entry g0 (1 + i) ≤ entry call0.constraints_upperbound i := by
    intro i hi
    rw [c10 i hi, c11 i hi, hpin, z2 i (by rw [n_constraints_eq] at hi; exact hi)]
    exact ⟨le_refl _, le_refl _⟩
  have h := himp hfeas hfeas (fun _ _ _ => rfl)
  exact ⟨g0, call0, r1, p1, hfeas, fun t ht => (h.2.2 t ht).1⟩

/-- C15: index safety and coverage of the evaluator.  With `vars` of `n_vars`
entries and `fg` of `n_constraints + 1` entries the evaluator, run with an
access log, does not fault and gives the result of the evaluator itself; every
index at which it reads `vars` is below `n_vars`, every index at which it
writes `fg` is at most `n_constraints`, and each index `1 .. n_constraints` is
written exactly once: the writes are those of the cost statements, all to
index `0`, followed by six writes for `t = 0` and six for each `1 ≤ t < N`,
none to index `0`; `fg[0]` holds the cost. -/
theorem C15_index_safety_and_coverage {α : Type} [Field α] (T : Trig α)
    (coeffs vars fg : List α)
    (hv : vars.length = (MPC.construct α).n_vars)
    (hfg : fg.length = (MPC.construct α).n_constraints + 1)
    (hc : 2 ≤ coeffs.length) :
    ∃ fg' tr,
      ((FG_eval.construct coeffs).operatorL T fg vars).run (Trace.mk [] [])
        = Except.ok (fg', tr) ∧
      (FG_eval.construct coeffs).operator T fg vars = Except.ok fg' ∧
      (∀ i ∈ tr.reads, i < (MPC.construct α).n_vars) ∧
      (∀ j ∈ tr.writes, j ≤ (MPC.construct α).n_constraints) ∧
      (∀ j, 1 ≤ j → j ≤ (MPC.construct α).n_constraints → tr.writes.count j = 1) ∧
      tr.writes = costWrites ++ constraintWrites ∧
      (∀ j ∈ costWrites, j = 0) ∧ 0 ∉ constraintWrites ∧
      constraintWrites =
        [1 + x_start, 1 + y_start, 1 + psi_start, 1 + v_start, 1 + cte_start,
          1 + epsi_start] ++ loopLog dynamicsWrites 1 (N - 1) ∧
      (∀ t, (dynamicsWrites t).length = 6) ∧
      constraintWrites.length = (MPC.construct α).n_constraints ∧
      entry fg' 0 = spec_cost vars := by
  rw [n_vars_eq] at hv
  rw [n_constraints_eq] at hfg
  obtain ⟨fg', r1, _, r3, _⟩ := operator_ok T (FG_eval.construct coeffs) fg vars
    (by omega) hc (by omega)
  have hrun := operatorL_tracks T (FG_eval.construct coeffs) fg vars (Trace.mk [] [])
  rw [r1, ok_bind] at hrun
  refine ⟨fg', (Trace.mk [] []).extend operatorReads (costWrites ++ constraintWrites),
    hrun, r1, ?_, ?_, ?_, ?_, costWrites_zero, constraintWrites_facts.2.2, rfl,
    fun _ => rfl, constraintWrites_facts.1, ?_⟩
  · intro i hi
    simp only [Trace.extend, List.nil_append] at hi
    exact reads_in_bounds i hi
  · intro j hj
    simp only [Trace.extend, List.nil_append] at hj
    exact writes_in_bounds j hj
  · intro j h1 h2
    simp only [Trace.extend, List.nil_append]
    exact writes_count j (by rw [n_constraints_eq] at h2; omega) h1
  · simp only [Trace.extend, List.nil_append]
  · rw [r3, costValue_eq_spec]

/-- Witness for C15 over the reals at the all-zero decision vector. -/
theorem C15_index_safety_and_coverage_witness :
    ∃ fg' tr,
      ((FG_eval.construct [(0 : ℝ), 0]).operatorL (Trig.mk Real.cos Real.sin Real.arctan)
        (List.replicate 151 0) (List.replicate 198 0)).run (Trace.mk [] [])
        = Except.ok (fg', tr) ∧
      (∀ i ∈ tr.reads, i < (MPC.construct ℝ).n_vars) ∧
      (∀ j ∈ tr.writes, j ≤ (MPC.construct ℝ).n_constraints) ∧
      (∀ j, 1 ≤ j → j ≤ (MPC.construct ℝ).n_constraints → tr.writes.count j = 1) :=
  have h := C15_index_safety_and_coverage (Trig.mk Real.cos Real.sin Real.arctan)
    [(0 : ℝ), 0] (List.replicate 198 0) (List.replicate 151 0)
    (by rw [List.length_replicate, n_vars_eq])
    (by rw [List.length_replicate, n_constraints_eq]) (by decide)
  h.imp fun _ hf => hf.imp fun _ hg => ⟨hg.1, hg.2.2.1, hg.2.2.2.1, hg.2.2.2.2.1⟩

/-- C13, as stated, fails in the arithmetic of `double`: the all-zero decision
vector `u` and the vector `w` that differs from it only by `cte[0] = 2^-24`
have `|u[cte_start]| < |w[cte_start]|`, yet the evaluator computes the same
cost for both, since `1600 + 2^-48` rounds to `1600`.  The cost statements use
no trigonometric function; the record given for them is a stand-in. -/
theorem C13_counterexample :
    ∃ fu fw,
      (FG_eval.construct64 [0, 0]).operatorA
        (Arith.binary64 (Trig.mk (fun _ => 1) (fun x => x) (fun x => x)))
        (List.replicate 151 0) (List.replicate 198 0) = Except.ok fu ∧
      (FG_eval.construct64 [0, 0]).operatorA
        (Arith.binary64 (Trig.mk (fun _ => 1) (fun x => x) (fun x => x)))
        (List.replicate 151 0) ((List.replicate 198 0).set 100 (1 / 16777216))
        = Except.ok fw ∧
      cte_start + 0 = 100 ∧
      (∀ i, i ≠ 100 → entry (List.replicate 198 (0 : ℚ)) i
        = entry ((List.replicate 198 (0 : ℚ)).set 100 (1 / 16777216)) i) ∧
      |entry (List.replicate 198 (0 : ℚ)) 100|
        < |entry ((List.replicate 198 (0 : ℚ)).set 100 (1 / 16777216)) 100| ∧
      entry fu 0 = entry fw 0 ∧ ¬ (entry fu 0 < entry fw 0) := by
  obtain ⟨fu, r1, r2⟩ := operatorA_ok
    (Arith.binary64 (Trig.mk (fun _ => 1) (fun x => x) (fun x => x)))
    (FG_eval.construct64 [0, 0]) (List.replicate 151 0) (List.replicate 198 0)
    (by rw [List.length_replicate]) (by decide) (by rw [List.length_replicate])
  obtain ⟨fw, q1, q2⟩ := operatorA_ok
    (Arith.binary64 (Trig.mk (fun _ => 1) (fun x => x) (fun x => x)))
    (FG_eval.construct64 [0, 0]) (List.replicate 151 0)
    ((List.replicate 198 0).set 100 (1 / 16777216))
    (by rw [List.length_set, List.length_replicate]) (by decide)
    (by rw [List.length_replicate])
  have heq : entry fu 0 = entry fw 0 := by
    rw [r2, q2, costValueA_absorbed]
  refine ⟨fu, fw, r1, q1, by decide, ?_, ?_, heq, ?_⟩
  · intro i hi
    rw [entry_set_ne _ _ _ _ (Ne.symm hi)]
  · rw [entry_replicate_zero,
      entry_set_self _ _ _ (by rw [List.length_replicate]; decide)]
    norm_num
  · rw [heq]
    exact lt_irrefl _

/-- C13, amended: for decision vectors `u`, `w` of length `n_vars` that agree
at every index except one index `k` of the `cte` or the `epsi` slice, if
`|w[k]|` is strictly larger than `|u[k]|` then the cost the evaluator computes
for `w` in the arithmetic of `double` is not smaller than the cost it computes
for `u`; in exact arithmetic it is strictly larger. -/
theorem C13_cost_monotone_rounded (T : Trig ℚ) (coeffs u w fg : List ℚ) (k t : Nat)
    (hu : u.length = (MPC.construct ℚ).n_vars)
    (hw : w.length = (MPC.construct ℚ).n_vars)
    (hfg : fg.length = (MPC.construct ℚ).n_constraints + 1)
    (hc : 2 ≤ coeffs.length) (ht : t < N)
    (hk : k = cte_start + t ∨ k = epsi_start + t)
    (hagree : ∀ i, i ≠ k → entry u i = entry w i)
    (habs : |entry u k| < |entry w k|) :
    (∃ fu fw,
      (FG_eval.construct64 coeffs).operatorA (Arith.binary64 T) fg u = Except.ok fu ∧
      (FG_eval.construct64 coeffs).operatorA (Arith.binary64 T) fg w = Except.ok fw ∧
      entry fu 0 ≤ entry fw 0) ∧
    (∃ fu fw,
      (FG_eval.construct coeffs).operator T fg u = Except.ok fu ∧
      (FG_eval.construct coeffs).operator T fg w = Except.ok fw ∧
      entry fu 0 < entry fw 0) := by
  refine ⟨?_, cost_monotone_exact T coeffs u w fg k t hu hw hfg hc ht hk hagree habs⟩
  rw [n_vars_eq] at hu hw
  rw [n_constraints_eq] at hfg
  obtain ⟨fu, r1, r2⟩ := operatorA_ok (Arith.binary64 T) (FG_eval.construct64 coeffs) fg u
    (by omega) hc (by omega)
  obtain ⟨fw, q1, q2⟩ := operatorA_ok (Arith.binary64 T) (FG_eval.construct64 coeffs) fg w
    (by omega) hc (by omega)
  refine ⟨fu, fw, r1, q1, ?_⟩
  rw [r2, q2]
  exact costValueA_mono T (FG_eval.construct64 coeffs) u w k t ht hk hagree (le_of_lt habs)

/-- Witness for the amended C13: `u` all zero, `w` equal to `u` except
`cte[0] = 2^-24`. -/
theorem C13_cost_monotone_rounded_witness :
    ∃ fu fw,
      (FG_eval.construct64 [0, 0]).operatorA
        (Arith.binary64 (Trig.mk (fun _ => 1) (fun x => x) (fun x => x)))
        (List.replicate 151 0) (List.replicate 198 0) = Except.ok fu ∧
      (FG_eval.construct64 [0, 0]).operatorA
        (Arith.binary64 (Trig.mk (fun _ => 1) (fun x => x) (fun x => x)))
        (List.replicate 151 0) ((List.replicate 198 0).set 100 (1 / 16777216))
        = Except.ok fw ∧
      entry fu 0 ≤ entry fw 0 :=
  (C13_cost_monotone_rounded (Trig.mk (fun _ => 1) (fun x => x) (fun x => x)) [0, 0]
    (List.replicate 198 0) ((List.replicate 198 0).set 100 (1 / 16777216))
    (List.replicate 151 0) 100 0
    (by rw [List.length_replicate, n_vars_eq])
    (by rw [List.length_set, List.length_replicate, n_vars_eq])
    (by rw [List.length_replicate, n_constraints_eq]) (by decide) (by decide)
    (Or.inl (by decide))
    (fun i hi => by rw [entry_set_ne _ _ _ _ (Ne.symm hi)])
    (by
      rw [entry_replicate_zero,
        entry_set_self _ _ _ (by rw [List.length_replicate]; decide)]
      norm_num)).1

end Claims








end MPCModel
